import Mathlib

/-!
# Shallow embedding of the shooter game core (`engine.cpp`, `player.cpp`)

Conventions of the embedding.

* `float` values (`glm::vec2` components, radii, levels) are rationals `ℚ`.
  The arithmetic of the compiled program is IEEE 754 with round to nearest,
  ties to even: `f32` rounds a rational to `float` (binary32), `f64` to
  `double` (binary64), `sqrt32` and `sqrt64` are the correctly rounded square
  roots; subnormal numbers are rounded on their fixed grid.  Every operation of
  an expression is rounded on its own (no fused multiply-add, no excess
  precision).  Overflow to infinity is not modelled: the exponent has no upper
  limit, so the definitions agree with the program as long as no intermediate
  result reaches `2^128` (`2^1024` in `double`); a NaN is modelled where the
  code can produce one from finite operands (the square root of a negative
  number, a division by a zero length).
* The functions whose numerical result a statement depends on are read in that
  arithmetic: `Player.Move32`, `Engine.Explode32`, `Engine.ShootBeam32`,
  `spawnHealth`, `spawnLevel`, and the spawn points of `CreateEnemySpawn`.  The
  statements about the order of the steps, the control flow and the lists use
  the reading with exact arithmetic (`Player.Move`, `Engine.Explode`,
  `Engine.ShootBeam`, the collision and boundary tests): there every
  arithmetic step is the exact one, and a comparison `glm::length(v) < c` /
  `<= c` is evaluated without a square root, as `0 < c ∧ |v|² < c²` /
  `0 ≤ c ∧ |v|² ≤ c²`; the lemmas `Vec2.lengthLt_iff` and `Vec2.lengthLe_iff`
  relate both to the real square root.
* `std::vector` is `List`; `size_t` arithmetic that relies on wrap-around is
  written with an explicit `% 2 ^ 64`.  The `int` members (`hit_points_`,
  `score_`) are unbounded integers: signed overflow is undefined in the source
  and needs more than 200 million kills to reach.
* A loop whose end depends on wrap-around (`HandleDeaths`) takes a `fuel`
  argument and returns `none` when it runs out; the theorems show that the
  fuel given suffices.  `none` is also the result of `rand() % 0`.
* `std::chrono::system_clock::now()` and `rand()` are inputs: the readings of
  the clock are passed in the order the code takes them, and the results of
  the successive `rand()` calls are a stream `Nat → Nat`.
* The classes `Entity`, `Enemy` and `Bullet` have no translation unit among the
  sources (`engine.cpp`, `player.cpp`, `player.h`, `shooter_app.cpp`).  Their
  data is the record the accessors used by the engine read; their methods
  (`Hit`, `Collide`, `IsDead`, `Move`, `Accelerate`) are the fields of
  `EntityOps`, a parameter of every engine function that calls them.  The
  weapon methods of `Player` (`GetCurrentWeapon`, `FireBullet`, `ReloadWeapon`,
  `GetWeaponReloadStatus`) are likewise the fields of `WeaponOps`.
* `board_dimensions_` is the `glm::ivec2` that `get_board_dimensions_` returns:
  a pair of integers.
* In the exact reading `ShootBeam` and `HandleShoot` take the value of
  `glm::length(cursor)` as an input, `cursor_length`, since the square root of
  a rational need not be rational; `Engine.ShootBeam32` computes it.
-/

namespace Shooter

/-! ## Binary floating point -/

/-- Rounding of a rational to the nearest integer, a tie going to the even one. -/
def roundEven (x : ℚ) : Int :=
  if x - ⌊x⌋ < 1 / 2 then ⌊x⌋
  else if 1 / 2 < x - ⌊x⌋ then ⌊x⌋ + 1
  else if ⌊x⌋ % 2 = 0 then ⌊x⌋ else ⌊x⌋ + 1

/-- Exponent of the unit in the last place of `x` in a binary format with `p`
significand bits and least normal exponent `emin`. -/
def ulpExp (p : Nat) (emin : Int) (x : ℚ) : Int :=
  max (Int.log 2 |x|) emin - ((p : Int) - 1)

/-- Rounding to nearest, ties to even, in that format: the nearest multiple of
the unit in the last place.  Values below the normal range are rounded on the
fixed grid of the subnormals; the exponent has no upper limit. -/
def roundFloat (p : Nat) (emin : Int) (x : ℚ) : ℚ :=
  (roundEven (x / (2 : ℚ) ^ ulpExp p emin x) : ℚ) * (2 : ℚ) ^ ulpExp p emin x

/-- Rounding to `float` (IEEE binary32: 24 significand bits, least normal
exponent `-126`). -/
def f32 (x : ℚ) : ℚ := roundFloat 24 (-126) x

/-- Rounding to `double` (IEEE binary64: 53 significand bits, least normal
exponent `-1022`). -/
def f64 (x : ℚ) : ℚ := roundFloat 53 (-1022) x

/-- Correctly rounded square root in the format: the value nearest to the
square root of `s`, ties to even; `0` for `s ≤ 0` (the callers test the sign
of the argument where the code can produce a NaN). -/
def roundSqrt (p : Nat) (emin : Int) (s : ℚ) : ℚ :=
  if s ≤ 0 then 0
  else
    let u : ℚ := (2 : ℚ) ^ (max (Int.log 2 s / 2) emin - ((p : Int) - 1))
    let t : ℚ := s / (u * u)
    let m : Nat := Nat.sqrt ⌊t⌋₊
    let n : Nat :=
      if 4 * t < (2 * (m : ℚ) + 1) ^ 2 then m
      else if (2 * (m : ℚ) + 1) ^ 2 < 4 * t then m + 1
      else if m % 2 = 0 then m else m + 1
    (n : ℚ) * u

/-- The `float` square root. -/
def sqrt32 (s : ℚ) : ℚ := roundSqrt 24 (-126) s

/-- The `double` square root. -/
def sqrt64 (s : ℚ) : ℚ := roundSqrt 53 (-1022) s

/-! ## Vectors -/

/-- A `glm::vec2`. -/
structure Vec2 where
  x : ℚ
  y : ℚ
deriving DecidableEq

namespace Vec2

/-- Component-wise sum, `a + b`. -/
def add (a b : Vec2) : Vec2 := ⟨a.x + b.x, a.y + b.y⟩

/-- Component-wise difference, `a - b`. -/
def sub (a b : Vec2) : Vec2 := ⟨a.x - b.x, a.y - b.y⟩

/-- Scaling, `v * k`. -/
def scale (k : ℚ) (v : Vec2) : Vec2 := ⟨v.x * k, v.y * k⟩

/-- Squared Euclidean length. -/
def normSq (v : Vec2) : ℚ := v.x * v.x + v.y * v.y

/-- The test `glm::length(v) < c`. -/
def lengthLt (v : Vec2) (c : ℚ) : Bool := decide (0 < c ∧ v.normSq < c * c)

/-- The test `glm::length(v) <= c`. -/
def lengthLe (v : Vec2) (c : ℚ) : Bool := decide (0 ≤ c ∧ v.normSq ≤ c * c)

/-- The sum `a + b` of two `glm::vec2`, each component rounded to `float`. -/
def add32 (a b : Vec2) : Vec2 := ⟨f32 (a.x + b.x), f32 (a.y + b.y)⟩

/-- The difference `a - b` of two `glm::vec2`, each component rounded. -/
def sub32 (a b : Vec2) : Vec2 := ⟨f32 (a.x - b.x), f32 (a.y - b.y)⟩

/-- The product `v * k` by a `float` scalar (`v *= k`), each component rounded. -/
def scale32 (k : ℚ) (v : Vec2) : Vec2 := ⟨f32 (v.x * k), f32 (v.y * k)⟩

/-- The quotient `v / k` by a `float` scalar, each component rounded. -/
def div32 (v : Vec2) (k : ℚ) : Vec2 := ⟨f32 (v.x / k), f32 (v.y / k)⟩

/-- The `glm::dot(a, b)` of two `glm::vec2`: the component products are
rounded, then their sum is. -/
def dot32 (a b : Vec2) : ℚ := f32 (f32 (a.x * b.x) + f32 (a.y * b.y))

/-- The `glm::length(v)` of a `glm::vec2`: `sqrt(dot(v, v))` in `float`. -/
def length32 (v : Vec2) : ℚ := sqrt32 (v.dot32 v)

end Vec2

/-! ## Entities -/

/-- State of an `Entity`: the members read through `get_position_`,
`get_velocity_`, `get_radius_` and the hit points given to the constructor. -/
structure Entity where
  position_ : Vec2
  velocity_ : Vec2
  radius_ : ℚ
  hit_points_ : Int
deriving DecidableEq

/-- A `Bullet`: an entity carrying the projectile blueprint's damage and
explosive flag (`get_is_explosive_`). -/
structure Bullet extends Entity where
  damage_ : Int
  is_explosive_ : Bool
deriving DecidableEq

/-- An `Enemy`: an entity with contact damage and level, the arguments of
`enemies_.emplace_back(position, radius, health, damage, level)`. -/
structure Enemy extends Entity where
  damage_ : Int
  level_ : ℚ
deriving DecidableEq

/-- The `Player`: an entity with the time of its last shot. -/
structure Player extends Entity where
  last_fire_ : Int
deriving DecidableEq

/-- The enumeration `Direction` of `player.h`. -/
inductive Direction where
  | left
  | up
  | right
  | down
deriving DecidableEq, Repr

/-! ## `player.cpp` -/

/-- `Player::Accelerate(direction)`: `velocity_ += impulse`. -/
def Player.Accelerate (p : Player) (direction : Direction) : Player :=
  match direction with
  | .left => { p with velocity_ := p.velocity_.add ⟨-1, 0⟩ }
  | .up => { p with velocity_ := p.velocity_.add ⟨0, -1⟩ }
  | .right => { p with velocity_ := p.velocity_.add ⟨1, 0⟩ }
  | .down => { p with velocity_ := p.velocity_.add ⟨0, 1⟩ }

/-- `Player::Move()` with exact arithmetic: `position_ += velocity_;
velocity_ *= 0.9;` and the velocity is zeroed when its length is below `0.1`. -/
def Player.Move (p : Player) : Player :=
  let position := p.position_.add p.velocity_
  let velocity := Vec2.scale (9 / 10) p.velocity_
  if velocity.lengthLt (1 / 10) then
    { p with position_ := position, velocity_ := ⟨0, 0⟩ }
  else
    { p with position_ := position, velocity_ := velocity }

/-- `Player::ZeroX` (declared `ZeroXVelocity` in `player.h`): `velocity_.x = 0`. -/
def Player.ZeroXVelocity (p : Player) : Player :=
  { p with velocity_ := ⟨0, p.velocity_.y⟩ }

/-- `Player::ZeroY` (declared `ZeroYVelocity` in `player.h`): `velocity_.y = 0`. -/
def Player.ZeroYVelocity (p : Player) : Player :=
  { p with velocity_ := ⟨p.velocity_.x, 0⟩ }

/-- `Player::Move()` in the arithmetic of the compiled program.  The sum
`position_ += velocity_` is rounded to `float`; in `velocity_ *= 0.9` the
`double` literal is converted to `float` and each product is rounded;
`glm::length(velocity_)` is computed in `float` and compared, as a `double`,
with the `double` literal `0.1`. -/
def Player.Move32 (p : Player) : Player :=
  let position := p.position_.add32 p.velocity_
  let velocity := Vec2.scale32 (f32 (f64 (9 / 10))) p.velocity_
  if velocity.length32 < f64 (1 / 10) then
    { p with position_ := position, velocity_ := ⟨0, 0⟩ }
  else
    { p with position_ := position, velocity_ := velocity }

/-! ## Methods of the entity classes -/

/-- The methods of `Entity`, `Enemy`, `Bullet` and `Player` that the engine
calls and whose bodies are not among the sources.  A method that may write to
an argument passed by reference returns the argument as well. -/
structure EntityOps where
  IsDead : Entity → Bool
  Hit : Entity → Int → Vec2 → Entity
  EnemyCollide : Enemy → Bullet → Enemy × Bullet
  PlayerCollide : Player → Enemy → Player × Enemy
  BulletMove : Bullet → Bullet
  EnemyAccelerate : Enemy → Vec2 → Enemy
  EnemyMove : Enemy → Enemy

/-- Modelled from the spec: `Entity::Hit(damage, source_position)`, whose body
is not among the sources.  "Reduce hit_points by damage", with the invariant
"hit_points never negative (clamp at 0)"; the knockback, which the spec leaves
open, is the parameter `knock` giving the new velocity. -/
def specHit (knock : Entity → Vec2 → Vec2) (e : Entity) (damage : Int)
    (source_position : Vec2) : Entity :=
  { e with hit_points_ := max 0 (e.hit_points_ - damage), velocity_ := knock e source_position }

/-- Modelled from the spec: `Entity::IsDead()`, whose body is not among the
sources: "dead when hit_points == 0". -/
def specIsDead (e : Entity) : Bool := decide (e.hit_points_ = 0)

/-- `enemy.Hit(damage, source)`: the entity part of the enemy is hit. -/
def Enemy.Hit (ops : EntityOps) (e : Enemy) (damage : Int) (source : Vec2) : Enemy :=
  { e with toEntity := ops.Hit e.toEntity damage source }

/-- `player_.Hit(damage, source)`: the entity part of the player is hit. -/
def Player.Hit (ops : EntityOps) (p : Player) (damage : Int) (source : Vec2) : Player :=
  { p with toEntity := ops.Hit p.toEntity damage source }

/-! ## `engine.cpp` -/

/-- The members of `Engine`. -/
structure Engine where
  player_ : Player
  board_dimensions_ : Int × Int
  enemy_spawns_ : List Vec2
  bullets_ : List Bullet
  enemies_ : List Enemy
  begin_time_ : Int
  last_enemy_wave_ : Int
  explosives_ : List Vec2
  score_ : Int

/-- What a frame reads from outside the engine: the clock and `rand()`.
`ticksPerMs` is the number of `system_clock` ticks in a millisecond; `now1`,
`now2`, `now3` are the three readings `SpawnEnemy` takes, in program order;
`rand k` is the result of the `k`-th call of `rand()` in the frame and
`RAND_MAX` the constant of `<cstdlib>`. -/
structure Env where
  ticksPerMs : Int
  now1 : Int
  now2 : Int
  now3 : Int
  rand : Nat → Nat
  RAND_MAX : Nat

/-- Result of a frame: the engine state, and whether `exit(0)` was called. -/
structure Outcome where
  engine : Engine
  exited : Bool

/-- `size_t` decrement `idx--`, wrapping from `0` to `2^64 - 1`. -/
def size_t_dec (idx : Nat) : Nat := (idx + (2 ^ 64 - 1)) % 2 ^ 64

/-- Conversion of a signed integer (`int`, or the 64-bit count of a duration)
to `size_t`. -/
def size_t_cast (n : Int) : Nat := (n % 2 ^ 64).toNat

/-- `static_cast<int>` of a float: truncation toward zero. -/
def truncToInt (q : ℚ) : Int := Int.tdiv q.num q.den

/-- `std::chrono::duration_cast<std::chrono::milliseconds>` of a difference of
clock readings: the tick count divided by the ticks per millisecond, truncated
toward zero; the result is `.count()`. -/
def duration_cast_ms (env : Env) (ticks : Int) : Int := Int.tdiv ticks env.ticksPerMs

/-- `Engine::Explode(explosion_position)` with exact arithmetic. -/
def Engine.Explode (ops : EntityOps) (s : Engine) (explosion_position : Vec2) : Engine :=
  { s with
    enemies_ := s.enemies_.map (fun enemy =>
      if (enemy.position_.sub explosion_position).lengthLe (50 + enemy.radius_) then
        enemy.Hit ops 40 explosion_position
      else enemy)
    player_ :=
      if (s.player_.position_.sub explosion_position).lengthLe (50 + s.player_.radius_) then
        s.player_.Hit ops 10 explosion_position
      else s.player_ }

/-- `Engine::Explode(explosion_position)` in the arithmetic of the compiled
program: the difference of the positions, its `glm::length` and the sum
`50 + radius` are computed in `float`, and the two `float` values compared. -/
def Engine.Explode32 (ops : EntityOps) (s : Engine) (explosion_position : Vec2) : Engine :=
  { s with
    enemies_ := s.enemies_.map (fun enemy =>
      if (enemy.position_.sub32 explosion_position).length32 ≤ f32 (50 + enemy.radius_) then
        enemy.Hit ops 40 explosion_position
      else enemy)
    player_ :=
      if (s.player_.position_.sub32 explosion_position).length32 ≤
          f32 (50 + s.player_.radius_) then
        s.player_.Hit ops 10 explosion_position
      else s.player_ }

/-- Inner loop of `HandleEnemyBulletCollision` for one bullet: the enemies from
index `j` on are scanned in order; the first one in contact gets
`enemy.Collide(bullet)` and the scan stops (`break`).  Returns the enemies, the
bullet, and the index of the enemy `Collide` was called on, if any. -/
def scanEnemies (ops : EntityOps) (bullet : Bullet) :
    List Enemy → Nat → List Enemy × Bullet × Option Nat
  | [], _ => ([], bullet, none)
  | enemy :: rest, j =>
    if (bullet.position_.sub enemy.position_).lengthLe (bullet.radius_ + enemy.radius_) then
      let r := ops.EnemyCollide enemy bullet
      (r.1 :: rest, r.2, some j)
    else
      let r := scanEnemies ops bullet rest (j + 1)
      (enemy :: r.1, r.2.1, r.2.2)

/-- The log entry of one bullet's scan. -/
def collideEntry (i : Nat) : Option Nat → List (Nat × Nat)
  | some j => [(i, j)]
  | none => []

/-- Outer loop of `HandleEnemyBulletCollision`: the bullets from index `i` on,
in order, each scanned against the enemies as the earlier bullets left them.
Returns the bullets, the enemies and the log of the `Collide` calls made, as
pairs (bullet index, enemy index) in call order. -/
def collideBullets (ops : EntityOps) :
    List Bullet → Nat → List Enemy → List Bullet × List Enemy × List (Nat × Nat)
  | [], _, enemies => ([], enemies, [])
  | bullet :: rest, i, enemies =>
    let r := scanEnemies ops bullet enemies 0
    let r' := collideBullets ops rest (i + 1) r.1
    (r.2.1 :: r'.1, r'.2.1, collideEntry i r.2.2 ++ r'.2.2)

/-- `Engine::HandleEnemyBulletCollision()`. -/
def Engine.HandleEnemyBulletCollision (ops : EntityOps) (s : Engine) : Engine :=
  let r := collideBullets ops s.bullets_ 0 s.enemies_
  { s with bullets_ := r.1, enemies_ := r.2.1 }

/-- Loop of `HandleEnemyPlayerCollision`: every enemy in contact with the
player, as the player is at that point of the loop, gets `player_.Collide(enemy)`. -/
def collidePlayer (ops : EntityOps) : Player → List Enemy → Player × List Enemy
  | p, [] => (p, [])
  | p, enemy :: rest =>
    if (p.position_.sub enemy.position_).lengthLe (p.radius_ + enemy.radius_) then
      let r := ops.PlayerCollide p enemy
      let r' := collidePlayer ops r.1 rest
      (r'.1, r.2 :: r'.2)
    else
      let r' := collidePlayer ops p rest
      (r'.1, enemy :: r'.2)

/-- `Engine::HandleEnemyPlayerCollision()`. -/
def Engine.HandleEnemyPlayerCollision (ops : EntityOps) (s : Engine) : Engine :=
  let r := collidePlayer ops s.player_ s.enemies_
  { s with player_ := r.1, enemies_ := r.2 }

/-- `Engine::HandleCollisions()`. -/
def Engine.HandleCollisions (ops : EntityOps) (s : Engine) : Engine :=
  (s.HandleEnemyBulletCollision ops).HandleEnemyPlayerCollision ops

/-- `Engine::HandlePlayerAtBoundary()`. -/
def Engine.HandlePlayerAtBoundary (s : Engine) : Engine :=
  let position := s.player_.position_
  let radius := s.player_.radius_
  let s1 :=
    if (position.y - radius < 0 ∧ s.player_.velocity_.y < 0) ∨
        (position.y + radius > (s.board_dimensions_.2 : ℚ) ∧ s.player_.velocity_.y > 0) then
      { s with player_ := s.player_.ZeroYVelocity }
    else s
  if (position.x - radius < 0 ∧ s1.player_.velocity_.x < 0) ∨
      (position.x + radius > (s.board_dimensions_.1 : ℚ) ∧ s1.player_.velocity_.x > 0) then
    { s1 with player_ := s1.player_.ZeroXVelocity }
  else s1

/-- `Engine::AddEnemy`: `enemies_.emplace_back(position, radius, health,
damage, level)`; a new enemy is at rest. -/
def Engine.AddEnemy (s : Engine) (position : Vec2) (radius : ℚ) (health damage : Int)
    (level : ℚ) : Engine :=
  { s with enemies_ := s.enemies_ ++ [⟨⟨position, ⟨0, 0⟩, radius, health⟩, damage, level⟩] }

/-- The enemies-per-wave count of `SpawnEnemy`,
`1 + static_cast<size_t>(duration.count()) / 30000`. -/
def numEnemySpawn (duration : Int) : Nat := 1 + size_t_cast duration / 30000

/-- The difficulty of `SpawnEnemy`,
`1 + static_cast<size_t>(duration.count()) / 20000`, capped at `5`. -/
def difficultyAt (duration : Int) : Nat :=
  let difficulty := 1 + size_t_cast duration / 20000
  if difficulty > 5 then 5 else difficulty

/-- The quotient `static_cast<float>(rand()) / RAND_MAX` for the result `r` of
`rand()`: both `int` operands are converted to `float`, the quotient is
rounded to `float`. -/
def randRatio (env : Env) (r : Nat) : ℚ := f32 (f32 (r : ℚ) / f32 (env.RAND_MAX : ℚ))

/-- The health `SpawnEnemy` draws: `static_cast<int>(difficulty *
(static_cast<float>(rand()) / RAND_MAX) * 20.0f)`, for the result `r` of
`rand()`.  The `size_t` `difficulty` is converted to `float` and each product
is rounded to `float`. -/
def spawnHealth (env : Env) (difficulty r : Nat) : Int :=
  truncToInt (f32 (f32 (f32 (difficulty : ℚ) * randRatio env r) * 20))

/-- The level `SpawnEnemy` draws: `0.1f + difficulty *
(static_cast<float>(rand()) / RAND_MAX) * 0.18f`, for the result `r` of
`rand()`, every operation rounded to `float`; `0.1f` and `0.18f` are the
`float` values nearest to `0.1` and `0.18`. -/
def spawnLevel (env : Env) (difficulty r : Nat) : ℚ :=
  f32 (f32 (1 / 10) + f32 (f32 (f32 (difficulty : ℚ) * randRatio env r) * f32 (18 / 100)))

/-- The loop of `SpawnEnemy`: `num_enemy_spawn` iterations, each drawing three
numbers from `rand()` (`k` calls were made before).  `rand() % 0`, on an empty
spawn list, has no result. -/
def spawnLoop (env : Env) (difficulty : Nat) : Nat → Nat → Engine → Option Engine
  | 0, _, s => some s
  | num_enemy_spawn + 1, k, s =>
    if s.enemy_spawns_.length = 0 then none
    else
      let index := env.rand k % s.enemy_spawns_.length
      let health := spawnHealth env difficulty (env.rand (k + 1))
      let level := spawnLevel env difficulty (env.rand (k + 2))
      match s.enemy_spawns_[index]? with
      | none => none
      | some position =>
        spawnLoop env difficulty num_enemy_spawn (k + 3) (s.AddEnemy position 10 health 10 level)

/-- `Engine::SpawnEnemy()`. -/
def Engine.SpawnEnemy (env : Env) (s : Engine) : Option Engine :=
  let duration := duration_cast_ms env (env.now1 - s.begin_time_)
  let time_since_last_wave := duration_cast_ms env (env.now2 - s.last_enemy_wave_)
  if time_since_last_wave > 5000 then
    (spawnLoop env (difficultyAt duration) (numEnemySpawn duration) 0 s).map
      (fun s' => { s' with last_enemy_wave_ := env.now3 })
  else some s

/-- First loop of `HandleDeaths`, from `bullet_idx` on: while
`bullet_idx < bullets_.size()`, a dead bullet explodes if explosive and is
erased, and `bullet_idx--` wraps below zero.  `fuel` bounds the number of
iterations; `none` when it runs out. -/
def sweepBullets (ops : EntityOps) : Nat → Nat → Engine → Option Engine
  | 0, _, _ => none
  | fuel + 1, bullet_idx, s =>
    if h : bullet_idx < s.bullets_.length then
      let bullet := s.bullets_[bullet_idx]
      if ops.IsDead bullet.toEntity then
        let s1 :=
          if bullet.is_explosive_ then
            let s' := s.Explode ops bullet.position_
            { s' with explosives_ := s'.explosives_ ++ [bullet.position_] }
          else s
        sweepBullets ops fuel (size_t_dec bullet_idx)
          { s1 with bullets_ := s1.bullets_.eraseIdx bullet_idx }
      else sweepBullets ops fuel (size_t_dec bullet_idx) s
    else some s

/-- Second loop of `HandleDeaths`, from `enemy_idx` on: a dead enemy is erased
and the score grows by `10`. -/
def sweepEnemies (ops : EntityOps) : Nat → Nat → Engine → Option Engine
  | 0, _, _ => none
  | fuel + 1, enemy_idx, s =>
    if h : enemy_idx < s.enemies_.length then
      if ops.IsDead (s.enemies_[enemy_idx]).toEntity then
        sweepEnemies ops fuel (size_t_dec enemy_idx)
          { s with enemies_ := s.enemies_.eraseIdx enemy_idx, score_ := s.score_ + 10 }
      else sweepEnemies ops fuel (size_t_dec enemy_idx) s
    else some s

/-- The bullet sweep of `HandleDeaths`, started at `bullets_.size() - 1`. -/
def Engine.sweepDeadBullets (ops : EntityOps) (s : Engine) : Option Engine :=
  sweepBullets ops (s.bullets_.length + 1) (size_t_dec s.bullets_.length) s

/-- The enemy sweep of `HandleDeaths`, started at `enemies_.size() - 1`. -/
def Engine.sweepDeadEnemies (ops : EntityOps) (s : Engine) : Option Engine :=
  sweepEnemies ops (s.enemies_.length + 1) (size_t_dec s.enemies_.length) s

/-- `Engine::HandleDeaths()`: both sweeps, then `exit(0)` when the player is dead. -/
def Engine.HandleDeaths (ops : EntityOps) (s : Engine) : Option Outcome :=
  (s.sweepDeadBullets ops).bind fun s1 =>
    (s1.sweepDeadEnemies ops).map fun s2 =>
      { engine := s2, exited := ops.IsDead s2.player_.toEntity }

/-- The order in which `for (Direction direction : moves)` visits a
`std::set<Direction>`: ascending enumerator value. -/
def heldDirections (moves : Finset Direction) : List Direction :=
  [Direction.left, Direction.up, Direction.right, Direction.down].filter (fun d => d ∈ moves)

/-- The acceleration step of `update`. -/
def Engine.accelerate (moves : Finset Direction) (s : Engine) : Engine :=
  { s with player_ := (heldDirections moves).foldl Player.Accelerate s.player_ }

/-- The movement step of `update`: the player, every bullet, every enemy; each
enemy accelerates toward `player_pos` first. -/
def Engine.moveAll (ops : EntityOps) (player_pos : Vec2) (s : Engine) : Engine :=
  { s with
    player_ := s.player_.Move
    bullets_ := s.bullets_.map ops.BulletMove
    enemies_ := s.enemies_.map (fun enemy => ops.EnemyMove (ops.EnemyAccelerate enemy player_pos)) }

/-- The state `update` has reached when it calls `HandleDeaths`, when there is one. -/
def Engine.beforeDeaths (ops : EntityOps) (env : Env) (moves : Finset Direction)
    (s : Engine) : Option Engine :=
  let player_pos := s.player_.position_
  ((((s.accelerate moves).HandlePlayerAtBoundary).moveAll ops player_pos).HandleCollisions ops).SpawnEnemy env

/-- `Engine::update(moves)`. -/
def Engine.update (ops : EntityOps) (env : Env) (moves : Finset Direction)
    (s : Engine) : Option Outcome :=
  (s.beforeDeaths ops env moves).bind (Engine.HandleDeaths ops)

/-! ## Weapons and shooting (`engine.cpp`) -/

/-- The enumeration `ProjectileType`. -/
inductive ProjectileType where
  | bullet
  | beam
deriving DecidableEq, Repr

/-- A `ProjectileBlueprint(radius, damage, speed, is_explosive)`; the engine
reads `radius_` and `damage_`. -/
structure ProjectileBlueprint where
  radius_ : ℚ
  damage_ : Int
  speed_ : ℚ
  is_explosive_ : Bool
deriving DecidableEq

/-- The part of a `Weapon` the engine reads, through `get_projectile_type_` and
`get_projectile_blueprint_`. -/
structure Weapon where
  projectile_type_ : ProjectileType
  projectile_blueprint_ : ProjectileBlueprint
deriving DecidableEq

/-- The methods of `Player` that `HandleShoot` and `Reloaded` call and whose
bodies are not among the sources (`player.cpp` defines none of them).  The
weapon inventory they read is not part of the `Player` record.  `FireBullet`
returns the player as well, since it need not be `const`; `ReloadWeapon` and
`GetWeaponReloadStatus` read the clock, whose reading is their first argument. -/
structure WeaponOps where
  GetCurrentWeapon : Player → Weapon
  FireBullet : Player → Vec2 → Player × Bullet
  ReloadWeapon : Int → Player → Player
  GetWeaponReloadStatus : Int → Player → ℚ

/-- Dot product, `glm::dot(a, b)`. -/
def Vec2.dot (a b : Vec2) : ℚ := a.x * b.x + a.y * b.y

/-- The test `sqrt(x) <= c`; the square root of a negative number is a NaN,
which compares false. -/
def sqrtLe (x c : ℚ) : Bool := decide (0 ≤ x ∧ 0 ≤ c ∧ x ≤ c * c)

/-- The vector `cursor / glm::length(cursor)` of `ShootBeam`.  The value of
`glm::length(cursor)` is the input `cursor_length`: the square root of a
rational need not be rational. -/
def laserUnitVector (cursor : Vec2) (cursor_length : ℚ) : Vec2 :=
  ⟨cursor.x / cursor_length, cursor.y / cursor_length⟩

/-- `Engine::ShootBeam(cursor, projectile_blueprint)` with exact arithmetic.
The square `pow(glm::length(player_to_enemy), 2)` is the squared length. -/
def Engine.ShootBeam (ops : EntityOps) (s : Engine) (cursor : Vec2) (cursor_length : ℚ)
    (projectile_blueprint : ProjectileBlueprint) : Engine :=
  let laser_unit_vector := laserUnitVector cursor cursor_length
  { s with
    enemies_ := s.enemies_.map (fun enemy =>
      let player_to_enemy := enemy.position_.sub s.player_.position_
      let dot_product := player_to_enemy.dot laser_unit_vector
      if dot_product ≤ 0 then enemy
      else if sqrtLe (player_to_enemy.normSq - dot_product * dot_product)
          (enemy.radius_ + projectile_blueprint.radius_) then
        enemy.Hit ops projectile_blueprint.damage_ (enemy.position_.sub laser_unit_vector)
      else enemy) }

/-- The vector `cursor / glm::length(cursor)` of `ShootBeam` in the arithmetic
of the compiled program: the length is computed in `float` and each component
of the quotient is rounded to `float`.  It is the direction of the beam when
the computed length is not `0`; `Engine.ShootBeam32` treats the length `0`,
where the quotient is a NaN or infinite, apart. -/
def laserUnitVector32 (cursor : Vec2) : Vec2 := cursor.div32 cursor.length32

/-- `Engine::ShootBeam(cursor, projectile_blueprint)` in the arithmetic of the
compiled program.  The difference of the positions, its `glm::length`, the
`glm::dot` and the sum of the radii are computed in `float`; in
`sqrt(pow(player_to_enemy_dist, 2) - pow(dot_product, 2))` both `float`
operands are promoted to `double`, the squares, their difference and the
square root are computed in `double`, and the result is rounded to the `float`
`perp_dist`.  A negative difference makes the square root a NaN, and a
`glm::length(cursor)` of `0` makes the direction a NaN or infinite; in both
cases no comparison holds and the enemy is not hit. -/
def Engine.ShootBeam32 (ops : EntityOps) (s : Engine) (cursor : Vec2)
    (projectile_blueprint : ProjectileBlueprint) : Engine :=
  let laser_unit_vector := laserUnitVector32 cursor
  { s with
    enemies_ := s.enemies_.map (fun enemy =>
      let player_to_enemy := enemy.position_.sub32 s.player_.position_
      let player_to_enemy_dist := player_to_enemy.length32
      let dot_product := player_to_enemy.dot32 laser_unit_vector
      let radicand := f64 (f64 (player_to_enemy_dist * player_to_enemy_dist) -
        f64 (dot_product * dot_product))
      if cursor.length32 = 0 then enemy
      else if dot_product ≤ 0 then enemy
      else if radicand < 0 then enemy
      else if f32 (sqrt64 radicand) ≤ f32 (enemy.radius_ + projectile_blueprint.radius_) then
        enemy.Hit ops projectile_blueprint.damage_ (enemy.position_.sub32 laser_unit_vector)
      else enemy) }

/-- `Engine::AddBullet(bullet)`: `bullets_.emplace_back(bullet)`. -/
def Engine.AddBullet (s : Engine) (bullet : Bullet) : Engine :=
  { s with bullets_ := s.bullets_ ++ [bullet] }

/-- `Engine::HandleShoot(cursor)`, with the clock reading `now` that
`ReloadWeapon` takes; returns the engine and the projectile type. -/
def Engine.HandleShoot (ops : EntityOps) (w : WeaponOps) (now : Int) (s : Engine)
    (cursor : Vec2) (cursor_length : ℚ) : Engine × ProjectileType :=
  let weapon := w.GetCurrentWeapon s.player_
  let type := weapon.projectile_type_
  let s1 :=
    if type ≠ ProjectileType.beam then
      let fired := w.FireBullet s.player_ cursor
      ({ s with player_ := fired.1 }).AddBullet fired.2
    else s.ShootBeam ops cursor cursor_length weapon.projectile_blueprint_
  ({ s1 with player_ := w.ReloadWeapon now s1.player_ }, type)

/-- `Engine::Reloaded()`: `player_.GetWeaponReloadStatus() == 1.0f`, at the
clock reading `now`. -/
def Engine.Reloaded (w : WeaponOps) (now : Int) (s : Engine) : Bool :=
  decide (w.GetWeaponReloadStatus now s.player_ = 1)

/-- `ShooterApp::mouseDown(event)` on the engine it owns:
`engine_.HandleShoot(event.getPos())`, the result discarded. -/
def mouseDown (ops : EntityOps) (w : WeaponOps) (now : Int) (engine_ : Engine)
    (pos : Int × Int) (cursor_length : ℚ) : Engine :=
  (engine_.HandleShoot ops w now ⟨(pos.1 : ℚ), (pos.2 : ℚ)⟩ cursor_length).1

/-! ## Spawn points (`Engine::CreateEnemySpawn`) -/

/-- First loop of `CreateEnemySpawn`, from `x_coord` on:
`for (; x_coord != board_dimensions_.x + x_unit; x_coord += x_unit)`, the
`int` operands converted to `size_t`.  The points are built by
`emplace_back(x_coord, 0)` and `emplace_back(x_coord, board_dimensions_.y)`,
which convert the `size_t` counter and the `int` height to the `float`
components of a `glm::vec2`.  `fuel` bounds the number of iterations;
`none` when it runs out. -/
def spawnLoopX (s : Engine) (x_unit : Int) : Nat → Nat → List Vec2 → Option (List Vec2)
  | 0, _, _ => none
  | fuel + 1, x_coord, enemy_spawns =>
    if x_coord ≠ size_t_cast (s.board_dimensions_.1 + x_unit) then
      spawnLoopX s x_unit fuel ((x_coord + size_t_cast x_unit) % 2 ^ 64)
        (enemy_spawns ++ [⟨f32 (x_coord : ℚ), 0⟩,
          ⟨f32 (x_coord : ℚ), f32 (s.board_dimensions_.2 : ℚ)⟩])
    else some enemy_spawns

/-- Second loop of `CreateEnemySpawn`, from `y_coord` on:
`for (; y_coord != board_dimensions_.y; y_coord += y_unit)`. -/
def spawnLoopY (s : Engine) (y_unit : Int) : Nat → Nat → List Vec2 → Option (List Vec2)
  | 0, _, _ => none
  | fuel + 1, y_coord, enemy_spawns =>
    if y_coord ≠ size_t_cast s.board_dimensions_.2 then
      spawnLoopY s y_unit fuel ((y_coord + size_t_cast y_unit) % 2 ^ 64)
        (enemy_spawns ++ [⟨0, f32 (y_coord : ℚ)⟩,
          ⟨f32 (s.board_dimensions_.1 : ℚ), f32 (y_coord : ℚ)⟩])
    else some enemy_spawns

/-- `Engine::CreateEnemySpawn()`; each loop may take up to `fuel` iterations. -/
def Engine.CreateEnemySpawn (fuel : Nat) (s : Engine) : Option Engine :=
  let x_unit := Int.tdiv s.board_dimensions_.1 20
  let y_unit := Int.tdiv s.board_dimensions_.2 20
  (spawnLoopX s x_unit fuel 0 s.enemy_spawns_).bind fun spawns1 =>
    (spawnLoopY s y_unit fuel (size_t_cast y_unit) spawns1).map fun spawns2 =>
      { s with enemy_spawns_ := spawns2 }

/-- The first loop of `CreateEnemySpawn` run for exactly `n` iterations from
`x_coord`: the loop counter and the list reached, `none` if the loop condition
fails before. -/
def spawnIterX (s : Engine) (x_unit : Int) : Nat → Nat → List Vec2 → Option (Nat × List Vec2)
  | 0, x_coord, enemy_spawns => some (x_coord, enemy_spawns)
  | n + 1, x_coord, enemy_spawns =>
    if x_coord ≠ size_t_cast (s.board_dimensions_.1 + x_unit) then
      spawnIterX s x_unit n ((x_coord + size_t_cast x_unit) % 2 ^ 64)
        (enemy_spawns ++ [⟨f32 (x_coord : ℚ), 0⟩,
          ⟨f32 (x_coord : ℚ), f32 (s.board_dimensions_.2 : ℚ)⟩])
    else none

/-- The player after the acceleration, boundary-check and `Move` steps of
`update`. -/
def Engine.playerStep (moves : Finset Direction) (s : Engine) : Player :=
  ((s.accelerate moves).HandlePlayerAtBoundary).player_.Move

/-- The state of `update` after the movement step, before `HandleCollisions`. -/
def Engine.afterMove (ops : EntityOps) (moves : Finset Direction) (s : Engine) : Engine :=
  ((s.accelerate moves).HandlePlayerAtBoundary).moveAll ops s.player_.position_

/-! ## Reference descriptions used in the statements -/

/-- What the bullet sweep of `HandleDeaths` does for one bullet besides erasing
it: a dead explosive bullet explodes at its position and the position is
recorded in `explosives_`. -/
def Engine.explodeIfDead (ops : EntityOps) (s : Engine) (bullet : Bullet) : Engine :=
  if ops.IsDead bullet.toEntity && bullet.is_explosive_ then
    { s.Explode ops bullet.position_ with explosives_ := s.explosives_ ++ [bullet.position_] }
  else s

/-- The explosions of the bullet sweep, in the order the sweep meets the
bullets: from the last bullet to the first. -/
def Engine.explosionsApplied (ops : EntityOps) (s : Engine) : Engine :=
  s.bullets_.reverse.foldl (Engine.explodeIfDead ops) s

/-- The points `CreateEnemySpawn` stores when the steps are `u` and `v`: those
of `spawnPoints` with every coordinate converted to `float`. -/
def spawnPointsStored (u v : Nat) (W H : ℚ) : List Vec2 :=
  (List.range' 0 21).flatMap (fun i =>
      [(⟨f32 ((i * u : Nat) : ℚ), 0⟩ : Vec2), ⟨f32 ((i * u : Nat) : ℚ), f32 H⟩]) ++
    (List.range' 1 19).flatMap (fun i =>
      [(⟨0, f32 ((i * v : Nat) : ℚ)⟩ : Vec2), ⟨f32 W, f32 ((i * v : Nat) : ℚ)⟩])

/-- A point of the perimeter of the rectangle `[0, W] x [0, H]`. -/
def onPerimeter (W H : Int) (q : Vec2) : Bool :=
  decide (0 ≤ q.x ∧ q.x ≤ (W : ℚ) ∧ 0 ≤ q.y ∧ q.y ≤ (H : ℚ) ∧
    (q.x = 0 ∨ q.x = (W : ℚ) ∨ q.y = 0 ∨ q.y = (H : ℚ)))

/-- The points `CreateEnemySpawn` appends when the steps are `u` and `v`: for
the multiples `0, u, .., 20 u` a point on the line `y = 0` and one on `y = H`,
then for the multiples `v, .., 19 v` a point on `x = 0` and one on `x = W`. -/
def spawnPoints (u v : Nat) (W H : ℚ) : List Vec2 :=
  (List.range' 0 21).flatMap (fun i =>
      [(⟨((i * u : Nat) : ℚ), 0⟩ : Vec2), ⟨((i * u : Nat) : ℚ), H⟩]) ++
    (List.range' 1 19).flatMap (fun i =>
      [(⟨0, ((i * v : Nat) : ℚ)⟩ : Vec2), ⟨W, ((i * v : Nat) : ℚ)⟩])

/-- The horizontal test of `HandlePlayerAtBoundary`: the disc extends past the
left edge with negative `x` velocity, or past the right edge with positive
`x` velocity. -/
def pastEdgeX (s : Engine) : Bool :=
  decide ((s.player_.position_.x - s.player_.radius_ < 0 ∧ s.player_.velocity_.x < 0) ∨
    (s.player_.position_.x + s.player_.radius_ > (s.board_dimensions_.1 : ℚ) ∧
      s.player_.velocity_.x > 0))

/-- The vertical test of `HandlePlayerAtBoundary`. -/
def pastEdgeY (s : Engine) : Bool :=
  decide ((s.player_.position_.y - s.player_.radius_ < 0 ∧ s.player_.velocity_.y < 0) ∨
    (s.player_.position_.y + s.player_.radius_ > (s.board_dimensions_.2 : ℚ) ∧
      s.player_.velocity_.y > 0))

/-- The velocity `v` multiplied `n` times by the `float` `0.9f`, each of the
`n` products rounded to `float`. -/
def frictionProduct32 (v : Vec2) : Nat → Vec2
  | 0 => v
  | n + 1 => Vec2.scale32 (f32 (f64 (9 / 10))) (frictionProduct32 v n)

/-- The threshold test of `Player::Move` on a velocity:
`glm::length(v) < 0.1` with the length computed in `float`. -/
def belowThreshold32 (v : Vec2) : Bool := decide (v.length32 < f64 (1 / 10))

/-- The largest level `SpawnEnemy` can draw at difficulty `d`, reached when
`rand()` returns `RAND_MAX`: `0.1f + d * 0.18f` in `float`. -/
def spawnLevelMax (d : Nat) : ℚ := f32 (f32 (1 / 10) + f32 ((d : ℚ) * f32 (18 / 100)))

/-- The range test of `Explode` for an entity at `position` with the given
`radius`: `glm::length(position - explosion_position) <= 50 + radius`, every
operation in `float`. -/
def inBlast32 (position : Vec2) (radius : ℚ) (explosion_position : Vec2) : Bool :=
  decide ((position.sub32 explosion_position).length32 ≤ f32 (50 + radius))

/-- The projection of `ShootBeam` for an enemy, as computed:
`glm::dot(enemy position - player position, cursor / glm::length(cursor))`. -/
def beamProjection32 (player_position cursor : Vec2) (enemy : Enemy) : ℚ :=
  (enemy.position_.sub32 player_position).dot32 (laserUnitVector32 cursor)

/-- The `double` difference `pow(player_to_enemy_dist, 2) - pow(dot_product, 2)`
of `ShootBeam` for an enemy, as computed. -/
def beamRadicand (player_position cursor : Vec2) (enemy : Enemy) : ℚ :=
  f64 (f64 ((enemy.position_.sub32 player_position).length32 *
      (enemy.position_.sub32 player_position).length32) -
    f64 (beamProjection32 player_position cursor enemy *
      beamProjection32 player_position cursor enemy))

/-- The hit test of `ShootBeam` for an enemy, as computed: the cursor has a
non-zero computed length, the computed projection is positive, the computed
difference of squares is not negative and the `float` `perp_dist` is at most
the `float` sum of the radii. -/
def beamHits32 (player_position cursor : Vec2) (beam_radius : ℚ) (enemy : Enemy) : Bool :=
  decide (cursor.length32 ≠ 0 ∧ 0 < beamProjection32 player_position cursor enemy ∧
    0 ≤ beamRadicand player_position cursor enemy ∧
    f32 (sqrt64 (beamRadicand player_position cursor enemy)) ≤
      f32 (enemy.radius_ + beam_radius))

/-- Sample entity methods: the spec's `Hit` without knockback and the spec's
`IsDead`; a collision deals the other party's damage and uses a bullet up;
movement is plain Euler integration; enemies do not accelerate. -/
def sampleOps : EntityOps where
  IsDead := specIsDead
  Hit := specHit (fun e _ => e.velocity_)
  EnemyCollide := fun e b =>
    ({ e with toEntity := specHit (fun e _ => e.velocity_) e.toEntity b.damage_ b.position_ },
      { b with hit_points_ := 0 })
  PlayerCollide := fun p e =>
    ({ p with toEntity := specHit (fun e _ => e.velocity_) p.toEntity e.damage_ e.position_ }, e)
  BulletMove := fun b => { b with position_ := b.position_.add b.velocity_ }
  EnemyAccelerate := fun e _ => e
  EnemyMove := fun e => { e with position_ := e.position_.add e.velocity_ }

/-- Sample surroundings: a nanosecond clock read 65 s after the start of the
session, and a `rand()` with `RAND_MAX = 32767`. -/
def sampleEnv : Env where
  ticksPerMs := 1000000
  now1 := 65000000000
  now2 := 65000000400
  now3 := 65000900000
  rand := fun k => (7919 * k + 13) % 32768
  RAND_MAX := 32767

/-- Sample engine on a 200 x 200 board: no bullets, no enemies, the last wave
6 s before the sample clock readings. -/
def sampleEngine : Engine where
  player_ := ⟨⟨⟨100, 100⟩, ⟨0, 0⟩, 10, 50⟩, 0⟩
  board_dimensions_ := (200, 200)
  enemy_spawns_ := [⟨0, 0⟩, ⟨0, 200⟩, ⟨10, 0⟩, ⟨10, 200⟩, ⟨200, 0⟩, ⟨200, 200⟩]
  bullets_ := []
  enemies_ := []
  begin_time_ := 0
  last_enemy_wave_ := 59000000000
  explosives_ := []
  score_ := 0

/-- Sample engine for the death sweep: a dead rocket at `(100, 100)`, a live
bullet, and five enemies: two already at 0 hit points, one with 40 and one with
100 inside the blast, one with 30 far away. -/
def deathsEngine : Engine :=
  { sampleEngine with
    bullets_ := [⟨⟨⟨100, 100⟩, ⟨0, 0⟩, 15, 0⟩, 0, true⟩, ⟨⟨⟨20, 20⟩, ⟨1, 0⟩, 10, 1⟩, 10, false⟩]
    enemies_ := [⟨⟨⟨10, 10⟩, ⟨0, 0⟩, 10, 0⟩, 10, 1 / 2⟩,
      ⟨⟨⟨120, 100⟩, ⟨0, 0⟩, 10, 40⟩, 10, 1 / 2⟩,
      ⟨⟨⟨190, 190⟩, ⟨0, 0⟩, 10, 0⟩, 10, 1 / 2⟩,
      ⟨⟨⟨130, 100⟩, ⟨0, 0⟩, 10, 100⟩, 10, 1 / 2⟩,
      ⟨⟨⟨10, 190⟩, ⟨0, 0⟩, 10, 30⟩, 10, 1 / 2⟩]
    score_ := 70 }

/-- Sample engine for an explosion at `(100, 100)`: enemies with 20 and with
100 hit points inside the blast, one with 30 outside; the player, with 50 hit
points, stands at the centre. -/
def blastEngine : Engine :=
  { sampleEngine with
    enemies_ := [⟨⟨⟨120, 100⟩, ⟨0, 0⟩, 10, 20⟩, 10, 1 / 2⟩,
      ⟨⟨⟨130, 100⟩, ⟨0, 0⟩, 10, 100⟩, 10, 1 / 2⟩,
      ⟨⟨⟨10, 190⟩, ⟨0, 0⟩, 10, 30⟩, 10, 1 / 2⟩] }

/-- Sample weapon methods: the current weapon is the Pistol of the constructor
(a bullet weapon, blueprint radius 10, damage 1, speed 10); the fired bullet
starts at the player and heads for the cursor; `ReloadWeapon` stores the clock
reading; the reload status is the time since the last shot as a fraction of
one second, 1 after a second or more (the comment of `player.h`). -/
def sampleWeapons : WeaponOps where
  GetCurrentWeapon := fun _ => ⟨ProjectileType.bullet, ⟨10, 1, 10, false⟩⟩
  FireBullet := fun p cursor => (p, ⟨⟨p.position_, cursor.sub p.position_, 10, 1⟩, 1, false⟩)
  ReloadWeapon := fun now p => { p with last_fire_ := now }
  GetWeaponReloadStatus := fun now p =>
    if now - p.last_fire_ ≥ 1000 then 1 else ((now - p.last_fire_ : Int) : ℚ) / 1000

/-- Sample weapon methods with the Laser of `CreateWeapons` as current weapon
(a beam, blueprint radius 5, damage 10). -/
def laserWeapons : WeaponOps :=
  { sampleWeapons with
    GetCurrentWeapon := fun _ => ⟨ProjectileType.beam, ⟨5, 10, 0, false⟩⟩ }

/-- Sample entity methods whose enemies show the target they are given:
`Accelerate(target)` sets the velocity to `target - position`. -/
def homingOps : EntityOps :=
  { sampleOps with
    EnemyAccelerate := fun e target => { e with velocity_ := target.sub e.position_ }
    EnemyMove := fun e => e }

/-- Sample engine with a moving player, velocity `(10, 0)` at `(100, 100)`, and
one enemy at `(100, 50)`. -/
def chaseEngine : Engine :=
  { sampleEngine with
    player_ := ⟨⟨⟨100, 100⟩, ⟨10, 0⟩, 10, 50⟩, 0⟩
    enemies_ := [⟨⟨⟨100, 50⟩, ⟨0, 0⟩, 10, 30⟩, 10, 1 / 2⟩] }

/-- Sample engine for the beam: the player at `(100, 100)`; enemies of radius 10
at `(160, 180)`, ahead on the ray of direction `(30, 40)`, at `(65, 70)`, half
way from the player to the point `(30, 40)`, and at `(100, 200)`, ahead but 60
away from the ray. -/
def beamEngine : Engine :=
  { sampleEngine with
    enemies_ := [⟨⟨⟨160, 180⟩, ⟨0, 0⟩, 10, 30⟩, 10, 1 / 2⟩,
      ⟨⟨⟨65, 70⟩, ⟨0, 0⟩, 10, 30⟩, 10, 1 / 2⟩,
      ⟨⟨⟨100, 200⟩, ⟨0, 0⟩, 10, 30⟩, 10, 1 / 2⟩] }

/-- Sample engine with one enemy of radius 10 at `(101, 104)`, on the ray from
the player at `(100, 100)` in the direction `(1, 4)`. -/
def rayEngine : Engine :=
  { sampleEngine with enemies_ := [⟨⟨⟨101, 104⟩, ⟨0, 0⟩, 10, 30⟩, 10, 1 / 2⟩] }

/-! ## Geometry lemmas -/

/-- The square-free test `lengthLt` is the comparison of the real Euclidean
length `√(x² + y²)` with `c`. -/
theorem Vec2.lengthLt_iff (v : Vec2) (c : ℚ) :
    v.lengthLt c = true ↔ Real.sqrt ((v.x : ℝ) ^ 2 + (v.y : ℝ) ^ 2) < (c : ℝ) := by
  have hsq : ((v.normSq : ℚ) : ℝ) = (v.x : ℝ) ^ 2 + (v.y : ℝ) ^ 2 := by
    simp only [Vec2.normSq]
    push_cast
    ring
  simp only [Vec2.lengthLt, decide_eq_true_eq]
  rw [← hsq]
  constructor
  · rintro ⟨hc, h⟩
    have hc' : (0 : ℝ) < (c : ℝ) := by exact_mod_cast hc
    rw [Real.sqrt_lt' hc']
    have : ((v.normSq : ℚ) : ℝ) < ((c * c : ℚ) : ℝ) := by exact_mod_cast h
    simpa [pow_two] using this
  · intro h
    have hc' : (0 : ℝ) < (c : ℝ) := lt_of_le_of_lt (Real.sqrt_nonneg _) h
    have hc : 0 < c := by exact_mod_cast hc'
    refine ⟨hc, ?_⟩
    rw [Real.sqrt_lt' hc'] at h
    have : ((v.normSq : ℚ) : ℝ) < ((c * c : ℚ) : ℝ) := by
      push_cast
      simpa [pow_two] using h
    exact_mod_cast this

/-- The square-free test `lengthLe` is the comparison of the real Euclidean
length `√(x² + y²)` with `c`. -/
theorem Vec2.lengthLe_iff (v : Vec2) (c : ℚ) :
    v.lengthLe c = true ↔ Real.sqrt ((v.x : ℝ) ^ 2 + (v.y : ℝ) ^ 2) ≤ (c : ℝ) := by
  have hsq : ((v.normSq : ℚ) : ℝ) = (v.x : ℝ) ^ 2 + (v.y : ℝ) ^ 2 := by
    simp only [Vec2.normSq]
    push_cast
    ring
  simp only [Vec2.lengthLe, decide_eq_true_eq]
  rw [← hsq, Real.sqrt_le_iff]
  constructor
  · rintro ⟨hc, h⟩
    refine ⟨by exact_mod_cast hc, ?_⟩
    have : ((v.normSq : ℚ) : ℝ) ≤ ((c * c : ℚ) : ℝ) := by exact_mod_cast h
    simpa [pow_two] using this
  · rintro ⟨hc, h⟩
    refine ⟨by exact_mod_cast hc, ?_⟩
    have : ((v.normSq : ℚ) : ℝ) ≤ ((c * c : ℚ) : ℝ) := by
      push_cast
      simpa [pow_two] using h
    exact_mod_cast this

/-! ## Rounding lemmas -/

theorem roundEven_intCast (n : Int) : roundEven (n : ℚ) = n := by
  unfold roundEven
  rw [Int.floor_intCast, sub_self, if_pos (by norm_num)]

theorem roundEven_of_lt (x : ℚ) (n : Int) (h1 : (n : ℚ) - 1 / 2 < x) (h2 : x < (n : ℚ) + 1 / 2) :
    roundEven x = n := by
  unfold roundEven
  rcases le_or_lt (n : ℚ) x with h | h
  · have hf : ⌊x⌋ = n := by
      rw [Int.floor_eq_iff]
      constructor
      · exact h
      · linarith
    rw [hf, if_pos (by linarith)]
  · have hf : ⌊x⌋ = n - 1 := by
      rw [Int.floor_eq_iff]
      push_cast
      constructor
      · linarith
      · linarith
    rw [hf]
    push_cast
    rw [if_neg (by linarith), if_pos (by linarith)]
    ring

theorem roundEven_bounds (x : ℚ) :
    (roundEven x : ℚ) - 1 / 2 ≤ x ∧ x ≤ (roundEven x : ℚ) + 1 / 2 := by
  have h1 := Int.floor_le x
  have h2 := Int.lt_floor_add_one x
  unfold roundEven
  split
  · constructor <;> linarith
  · split
    · push_cast
      constructor <;> linarith
    · split
      · constructor <;> linarith
      · push_cast
        constructor <;> linarith

theorem roundEven_mono {x y : ℚ} (h : x ≤ y) : roundEven x ≤ roundEven y := by
  by_contra hc
  push_neg at hc
  have h1 : (roundEven y : ℚ) + 1 ≤ roundEven x := by exact_mod_cast hc
  have hx := (roundEven_bounds x).1
  have hy := (roundEven_bounds y).2
  have hxy : x = y := by linarith
  rw [hxy] at hc
  exact lt_irrefl _ hc

theorem roundEven_tie (n : Int) :
    roundEven ((n : ℚ) + 1 / 2) = if n % 2 = 0 then n else n + 1 := by
  have hf : ⌊(n : ℚ) + 1 / 2⌋ = n := by
    rw [Int.floor_eq_iff]
    constructor <;> linarith
  unfold roundEven
  rw [hf, if_neg (by norm_num), if_neg (by norm_num)]

theorem two_zpow_pos (k : Int) : (0 : ℚ) < (2 : ℚ) ^ k := zpow_pos (by norm_num) k

theorem log_two_eq (x : ℚ) (e : Int) (h1 : (2 : ℚ) ^ e ≤ x) (h2 : x < (2 : ℚ) ^ (e + 1)) :
    Int.log 2 x = e := by
  have hx : 0 < x := lt_of_lt_of_le (two_zpow_pos e) h1
  have a : e ≤ Int.log 2 x := by
    rw [← Int.zpow_le_iff_le_log (by norm_num) hx]
    simpa using h1
  have b : Int.log 2 x < e + 1 := by
    rw [← Int.lt_zpow_iff_log_lt (by norm_num) hx]
    simpa using h2
  omega

theorem ulpExp_eq (p : Nat) (emin : Int) (x : ℚ) (e : Int) (h1 : (2 : ℚ) ^ e ≤ |x|)
    (h2 : |x| < (2 : ℚ) ^ (e + 1)) (he : emin ≤ e) : ulpExp p emin x = e - ((p : Int) - 1) := by
  unfold ulpExp
  rw [log_two_eq |x| e h1 h2, max_eq_left he]

/-- Evaluation of a rounding: the exponent `e` and the integer significand `n`
are supplied and checked. -/
theorem roundFloat_eq (p : Nat) (emin : Int) (x : ℚ) (e n : Int) (h1 : (2 : ℚ) ^ e ≤ |x|)
    (h2 : |x| < (2 : ℚ) ^ (e + 1)) (he : emin ≤ e)
    (h3 : ((n : ℚ) - 1 / 2) * (2 : ℚ) ^ (e - ((p : Int) - 1)) < x)
    (h4 : x < ((n : ℚ) + 1 / 2) * (2 : ℚ) ^ (e - ((p : Int) - 1))) :
    roundFloat p emin x = (n : ℚ) * (2 : ℚ) ^ (e - ((p : Int) - 1)) := by
  unfold roundFloat
  rw [ulpExp_eq p emin x e h1 h2 he]
  have hu := two_zpow_pos (e - ((p : Int) - 1))
  rw [roundEven_of_lt _ n ((lt_div_iff₀ hu).2 h3) ((div_lt_iff₀ hu).2 h4)]

/-- Evaluation of a rounding at a tie: the value is half way between two
neighbours and goes to the one with the even significand. -/
theorem roundFloat_tie (p : Nat) (emin : Int) (x : ℚ) (e n : Int) (h1 : (2 : ℚ) ^ e ≤ |x|)
    (h2 : |x| < (2 : ℚ) ^ (e + 1)) (he : emin ≤ e)
    (h3 : x = ((n : ℚ) + 1 / 2) * (2 : ℚ) ^ (e - ((p : Int) - 1))) (hn : n % 2 = 0) :
    roundFloat p emin x = (n : ℚ) * (2 : ℚ) ^ (e - ((p : Int) - 1)) := by
  unfold roundFloat
  rw [ulpExp_eq p emin x e h1 h2 he]
  have hu := two_zpow_pos (e - ((p : Int) - 1))
  have hq : x / (2 : ℚ) ^ (e - ((p : Int) - 1)) = (n : ℚ) + 1 / 2 := by
    rw [h3, mul_div_assoc, div_self hu.ne.symm, mul_one]
  rw [hq, roundEven_tie, if_pos hn]

theorem roundFloat_zero (p : Nat) (emin : Int) : roundFloat p emin 0 = 0 := by
  unfold roundFloat
  rw [zero_div]
  have : roundEven 0 = 0 := by simpa using roundEven_intCast 0
  rw [this]
  simp

theorem roundFloat_nonneg (p : Nat) (emin : Int) {x : ℚ} (h : 0 ≤ x) : 0 ≤ roundFloat p emin x := by
  unfold roundFloat
  have hu := two_zpow_pos (ulpExp p emin x)
  have h0 : roundEven 0 = 0 := by simpa using roundEven_intCast 0
  have : (0 : Int) ≤ roundEven (x / (2 : ℚ) ^ ulpExp p emin x) := by
    rw [← h0]
    exact roundEven_mono (div_nonneg h hu.le)
  have h' : (0 : ℚ) ≤ (roundEven (x / (2 : ℚ) ^ ulpExp p emin x) : ℚ) := by exact_mod_cast this
  exact mul_nonneg h' hu.le

theorem roundFloat_nonpos (p : Nat) (emin : Int) {x : ℚ} (h : x ≤ 0) : roundFloat p emin x ≤ 0 := by
  unfold roundFloat
  have hu := two_zpow_pos (ulpExp p emin x)
  have h0 : roundEven 0 = 0 := by simpa using roundEven_intCast 0
  have : roundEven (x / (2 : ℚ) ^ ulpExp p emin x) ≤ (0 : Int) := by
    rw [← h0]
    exact roundEven_mono (div_nonpos_of_nonpos_of_nonneg h hu.le)
  have h' : (roundEven (x / (2 : ℚ) ^ ulpExp p emin x) : ℚ) ≤ 0 := by exact_mod_cast this
  exact mul_nonpos_of_nonpos_of_nonneg h' hu.le

/-- A value `n * 2^k` with `|n| < 2^p` and `k` not below the least exponent of
the format is representable: rounding returns it. -/
theorem roundFloat_exact (p : Nat) (emin : Int) (n k : Int) (hn : |n| < 2 ^ p)
    (hk : emin - ((p : Int) - 1) ≤ k) :
    roundFloat p emin ((n : ℚ) * (2 : ℚ) ^ k) = (n : ℚ) * (2 : ℚ) ^ k := by
  rcases eq_or_ne n 0 with h0 | h0
  · subst h0
    simp [roundFloat_zero]
  have hle : ulpExp p emin ((n : ℚ) * (2 : ℚ) ^ k) ≤ k := by
    unfold ulpExp
    have hpos : (0 : ℚ) < |(n : ℚ) * (2 : ℚ) ^ k| := by
      rw [abs_pos]
      exact mul_ne_zero (by exact_mod_cast h0) (two_zpow_pos k).ne.symm
    have hlog : Int.log 2 |(n : ℚ) * (2 : ℚ) ^ k| < (p : Int) + k := by
      rw [← Int.lt_zpow_iff_log_lt (by norm_num) hpos]
      rw [abs_mul, abs_of_pos (two_zpow_pos k), zpow_add₀ (by norm_num)]
      have : |(n : ℚ)| < (2 : ℚ) ^ (p : Int) := by
        rw [zpow_natCast]
        exact_mod_cast hn
      simpa using mul_lt_mul_of_pos_right this (two_zpow_pos k)
    rcases max_cases (Int.log 2 |(n : ℚ) * (2 : ℚ) ^ k|) emin with ⟨h, -⟩ | ⟨h, -⟩ <;>
      rw [h] <;> omega
  obtain ⟨d, hd⟩ : ∃ d : Nat, k = ulpExp p emin ((n : ℚ) * (2 : ℚ) ^ k) + d :=
    ⟨(k - ulpExp p emin ((n : ℚ) * (2 : ℚ) ^ k)).toNat, by omega⟩
  unfold roundFloat
  generalize ulpExp p emin ((n : ℚ) * (2 : ℚ) ^ k) = u at hd
  have hq : (n : ℚ) * (2 : ℚ) ^ k / (2 : ℚ) ^ u = ((n * 2 ^ d : Int) : ℚ) := by
    rw [hd, zpow_add₀ (by norm_num), zpow_natCast]
    push_cast
    field_simp
    ring
  rw [hq, roundEven_intCast, hd, zpow_add₀ (by norm_num), zpow_natCast]
  push_cast
  ring

/-- Integers of magnitude below `2^p` are representable. -/
theorem roundFloat_intCast (p : Nat) (emin : Int) (n : Int) (hn : |n| < 2 ^ p)
    (hk : emin - ((p : Int) - 1) ≤ 0) : roundFloat p emin (n : ℚ) = n := by
  simpa using roundFloat_exact p emin n 0 hn hk

theorem lt_two_zpow_log (x : ℚ) : |x| < (2 : ℚ) ^ (Int.log 2 |x| + 1) := by
  simpa using Int.lt_zpow_succ_log_self (R := ℚ) (b := 2) (by norm_num) |x|

theorem two_zpow_log_le {x : ℚ} (h : x ≠ 0) : (2 : ℚ) ^ (Int.log 2 |x|) ≤ |x| := by
  simpa using Int.zpow_log_le_self (R := ℚ) (b := 2) (by norm_num) (abs_pos.2 h)

/-- Rounding is monotone on the non-negative rationals. -/
theorem roundFloat_mono (p : Nat) (emin : Int) (hp : 0 < p) {x y : ℚ} (hx : 0 ≤ x) (h : x ≤ y) :
    roundFloat p emin x ≤ roundFloat p emin y := by
  rcases eq_or_lt_of_le hx with h0 | hpos
  · rw [← h0, roundFloat_zero]
    exact roundFloat_nonneg p emin (hx.trans h)
  have hypos : 0 < y := lt_of_lt_of_le hpos h
  have hlog : Int.log 2 |x| ≤ Int.log 2 |y| := by
    rw [abs_of_pos hpos, abs_of_pos hypos]
    exact Int.log_mono_right hpos h
  have hexp : ulpExp p emin x ≤ ulpExp p emin y := by
    unfold ulpExp
    have := max_le_max hlog (le_refl emin)
    omega
  rcases eq_or_lt_of_le hexp with heq | hlt
  · unfold roundFloat
    rw [heq]
    have hu := two_zpow_pos (ulpExp p emin y)
    have : roundEven (x / (2 : ℚ) ^ ulpExp p emin y) ≤ roundEven (y / (2 : ℚ) ^ ulpExp p emin y) :=
      roundEven_mono (div_le_div_of_nonneg_right h hu.le)
    have h' : (roundEven (x / (2 : ℚ) ^ ulpExp p emin y) : ℚ) ≤
        (roundEven (y / (2 : ℚ) ^ ulpExp p emin y) : ℚ) := by exact_mod_cast this
    exact mul_le_mul_of_nonneg_right h' hu.le
  · -- the exponents differ: a power of two lies between the two roundings
    have hylog : ulpExp p emin y = Int.log 2 |y| - ((p : Int) - 1) := by
      unfold ulpExp at hlt ⊢
      rcases max_cases (Int.log 2 |y|) emin with ⟨h1, -⟩ | ⟨h1, h2⟩
      · rw [h1]
      · rw [h1] at hlt
        have := le_max_right (Int.log 2 |x|) emin
        omega
    have hxup : x < (2 : ℚ) ^ (ulpExp p emin x + (p : Int)) := by
      have h1 : x < (2 : ℚ) ^ (Int.log 2 |x| + 1) :=
        lt_of_le_of_lt (le_abs_self x) (lt_two_zpow_log x)
      have h2 : Int.log 2 |x| + 1 ≤ ulpExp p emin x + (p : Int) := by
        unfold ulpExp
        have := le_max_left (Int.log 2 |x|) emin
        omega
      exact lt_of_lt_of_le h1 (zpow_le_zpow_right₀ (by norm_num) h2)
    have hylow : (2 : ℚ) ^ (ulpExp p emin y + ((p : Int) - 1)) ≤ y := by
      have h1 : (2 : ℚ) ^ (Int.log 2 |y|) ≤ y := by
        have := two_zpow_log_le hypos.ne.symm
        rwa [abs_of_pos hypos] at this ⊢
      rw [hylog]
      have : Int.log 2 |y| - ((p : Int) - 1) + ((p : Int) - 1) = Int.log 2 |y| := by ring
      rw [this]
      exact h1
    have hux := two_zpow_pos (ulpExp p emin x)
    have huy := two_zpow_pos (ulpExp p emin y)
    have hrx : roundFloat p emin x ≤ (2 : ℚ) ^ (ulpExp p emin x + (p : Int)) := by
      unfold roundFloat
      have hq : x / (2 : ℚ) ^ ulpExp p emin x ≤ (((2 : Int) ^ p : Int) : ℚ) := by
        rw [div_le_iff₀ hux]
        push_cast
        rw [← zpow_natCast, ← zpow_add₀ (by norm_num), add_comm]
        exact hxup.le
      have := roundEven_mono hq
      rw [roundEven_intCast] at this
      have h' : (roundEven (x / (2 : ℚ) ^ ulpExp p emin x) : ℚ) ≤ (((2 : Int) ^ p : Int) : ℚ) := by
        exact_mod_cast this
      calc (roundEven (x / (2 : ℚ) ^ ulpExp p emin x) : ℚ) * (2 : ℚ) ^ ulpExp p emin x
          ≤ (((2 : Int) ^ p : Int) : ℚ) * (2 : ℚ) ^ ulpExp p emin x :=
            mul_le_mul_of_nonneg_right h' hux.le
        _ = (2 : ℚ) ^ (ulpExp p emin x + (p : Int)) := by
            push_cast
            rw [← zpow_natCast, ← zpow_add₀ (by norm_num), add_comm]
    obtain ⟨q, hq⟩ : ∃ q : Nat, (p : Int) - 1 = q := ⟨p - 1, by omega⟩
    have hry : (2 : ℚ) ^ (ulpExp p emin y + ((p : Int) - 1)) ≤ roundFloat p emin y := by
      unfold roundFloat
      have hq2 : (((2 : Int) ^ q : Int) : ℚ) ≤ y / (2 : ℚ) ^ ulpExp p emin y := by
        rw [le_div_iff₀ huy]
        push_cast
        rw [← zpow_natCast, ← zpow_add₀ (by norm_num), add_comm, ← hq]
        exact hylow
      have := roundEven_mono hq2
      rw [roundEven_intCast] at this
      have h' : (((2 : Int) ^ q : Int) : ℚ) ≤ (roundEven (y / (2 : ℚ) ^ ulpExp p emin y) : ℚ) := by
        exact_mod_cast this
      calc (2 : ℚ) ^ (ulpExp p emin y + ((p : Int) - 1))
          = (((2 : Int) ^ q : Int) : ℚ) * (2 : ℚ) ^ ulpExp p emin y := by
            push_cast
            rw [← zpow_natCast, ← zpow_add₀ (by norm_num), add_comm, ← hq]
        _ ≤ _ := mul_le_mul_of_nonneg_right h' huy.le
    have hmid : (2 : ℚ) ^ (ulpExp p emin x + (p : Int)) ≤
        (2 : ℚ) ^ (ulpExp p emin y + ((p : Int) - 1)) :=
      zpow_le_zpow_right₀ (by norm_num) (by omega)
    exact hrx.trans (hmid.trans hry)

/-- Evaluation of a rounded square root: the exponent `e` of the root and the
integer significand `n` are supplied and checked. -/
theorem roundSqrt_eq (p : Nat) (emin : Int) (s : ℚ) (e : Int) (n : Nat)
    (h1 : (2 : ℚ) ^ (2 * e) ≤ s) (h2 : s < (2 : ℚ) ^ (2 * e + 2)) (he : emin ≤ e)
    (h3 : (2 * (n : ℚ) - 1) ^ 2 * ((2 : ℚ) ^ (e - ((p : Int) - 1))) ^ 2 < 4 * s)
    (h4 : 4 * s < (2 * (n : ℚ) + 1) ^ 2 * ((2 : ℚ) ^ (e - ((p : Int) - 1))) ^ 2)
    (hn : 0 < n) :
    roundSqrt p emin s = (n : ℚ) * (2 : ℚ) ^ (e - ((p : Int) - 1)) := by
  have hs : 0 < s := lt_of_lt_of_le (two_zpow_pos _) h1
  have hlog : Int.log 2 s / 2 = e := by
    have a : 2 * e ≤ Int.log 2 s := by
      rw [← Int.zpow_le_iff_le_log (by norm_num) hs]
      simpa using h1
    have b : Int.log 2 s < 2 * e + 2 := by
      rw [← Int.lt_zpow_iff_log_lt (by norm_num) hs]
      simpa using h2
    omega
  unfold roundSqrt
  rw [if_neg (not_le.2 hs)]
  simp only [hlog, max_eq_left he]
  have hu := two_zpow_pos (e - ((p : Int) - 1))
  generalize (2 : ℚ) ^ (e - ((p : Int) - 1)) = u at h3 h4 hu ⊢
  have huu : 0 < u * u := mul_pos hu hu
  have ht3 : (2 * (n : ℚ) - 1) ^ 2 < 4 * (s / (u * u)) := by
    rw [← mul_div_assoc, lt_div_iff₀ huu]
    nlinarith
  have ht4 : 4 * (s / (u * u)) < (2 * (n : ℚ) + 1) ^ 2 := by
    rw [← mul_div_assoc, div_lt_iff₀ huu]
    nlinarith
  generalize s / (u * u) = t at ht3 ht4 ⊢
  have ht0 : 0 ≤ t := by nlinarith [sq_nonneg (2 * (n : ℚ) - 1)]
  have hm1 : ((Nat.sqrt ⌊t⌋₊ : Nat) : ℚ) ^ 2 ≤ t := by
    have := Nat.sqrt_le' ⌊t⌋₊
    have h' : ((Nat.sqrt ⌊t⌋₊ ^ 2 : Nat) : ℚ) ≤ (⌊t⌋₊ : ℚ) := by exact_mod_cast this
    push_cast at h'
    exact h'.trans (Nat.floor_le ht0)
  have hm2 : t < (((Nat.sqrt ⌊t⌋₊ : Nat) : ℚ) + 1) ^ 2 := by
    have := Nat.lt_succ_sqrt' ⌊t⌋₊
    have h' : ((⌊t⌋₊ + 1 : Nat) : ℚ) ≤ ((Nat.succ (Nat.sqrt ⌊t⌋₊) ^ 2 : Nat) : ℚ) := by
      exact_mod_cast this
    push_cast at h'
    have := Nat.lt_floor_add_one t
    linarith
  generalize Nat.sqrt ⌊t⌋₊ = m at hm1 hm2 ⊢
  have hmn : m ≤ n := by
    by_contra hc
    push_neg at hc
    have : (n : ℚ) + 1 ≤ m := by exact_mod_cast hc
    nlinarith
  have hnm : n ≤ m + 1 := by
    by_contra hc
    push_neg at hc
    have : (m : ℚ) + 2 ≤ n := by exact_mod_cast hc
    nlinarith
  have hcase : m = n ∨ n = m + 1 := by omega
  rcases hcase with h | h
  · subst h
    rw [if_pos ht4]
  · subst h
    have h5 : (2 * ((m + 1 : Nat) : ℚ) - 1) ^ 2 = (2 * (m : ℚ) + 1) ^ 2 := by
      push_cast
      ring
    rw [h5] at ht3
    rw [if_neg (not_lt.2 ht3.le), if_pos ht3]

theorem roundSqrt_zero (p : Nat) (emin : Int) : roundSqrt p emin 0 = 0 := by
  unfold roundSqrt
  rw [if_pos (le_refl 0)]

theorem roundSqrt_nonneg (p : Nat) (emin : Int) (s : ℚ) : 0 ≤ roundSqrt p emin s := by
  unfold roundSqrt
  split
  · exact le_refl 0
  · exact mul_nonneg (Nat.cast_nonneg _) (two_zpow_pos _).le

theorem Vec2.length32_nonneg (v : Vec2) : 0 ≤ v.length32 := roundSqrt_nonneg 24 (-126) _

/-- The integer significand the square root rounds to is within one half of
the root of the scaled argument. -/
theorem sqrt_significand_bounds (t : ℚ) (ht : (2 : ℚ) ^ 46 ≤ t)
    (n : Nat) (hn : n = (if 4 * t < (2 * ((Nat.sqrt ⌊t⌋₊ : Nat) : ℚ) + 1) ^ 2 then Nat.sqrt ⌊t⌋₊
      else if (2 * ((Nat.sqrt ⌊t⌋₊ : Nat) : ℚ) + 1) ^ 2 < 4 * t then Nat.sqrt ⌊t⌋₊ + 1
      else if Nat.sqrt ⌊t⌋₊ % 2 = 0 then Nat.sqrt ⌊t⌋₊ else Nat.sqrt ⌊t⌋₊ + 1)) :
    (2 : ℚ) ^ 23 ≤ (n : ℚ) ∧ ((n : ℚ) - 1 / 2) ^ 2 ≤ t ∧ t ≤ ((n : ℚ) + 1 / 2) ^ 2 := by
  have ht0 : 0 ≤ t := le_trans (by norm_num) ht
  have hm1 : ((Nat.sqrt ⌊t⌋₊ : Nat) : ℚ) ^ 2 ≤ t := by
    have := Nat.sqrt_le' ⌊t⌋₊
    have h' : ((Nat.sqrt ⌊t⌋₊ ^ 2 : Nat) : ℚ) ≤ (⌊t⌋₊ : ℚ) := by exact_mod_cast this
    push_cast at h'
    exact h'.trans (Nat.floor_le ht0)
  have hm2 : t < (((Nat.sqrt ⌊t⌋₊ : Nat) : ℚ) + 1) ^ 2 := by
    have := Nat.lt_succ_sqrt' ⌊t⌋₊
    have h' : ((⌊t⌋₊ + 1 : Nat) : ℚ) ≤ ((Nat.succ (Nat.sqrt ⌊t⌋₊) ^ 2 : Nat) : ℚ) := by
      exact_mod_cast this
    push_cast at h'
    have := Nat.lt_floor_add_one t
    linarith
  have hmN : 2 ^ 23 ≤ Nat.sqrt ⌊t⌋₊ := by
    rw [Nat.le_sqrt]
    apply Nat.le_floor
    have : (((2 ^ 23 * 2 ^ 23 : Nat) : ℕ) : ℚ) = (2 : ℚ) ^ 46 := by norm_num
    rw [this]
    exact ht
  generalize Nat.sqrt ⌊t⌋₊ = m at hm1 hm2 hmN hn
  have hmq : (2 : ℚ) ^ 23 ≤ (m : ℚ) := by exact_mod_cast hmN
  have hm0 : (1 : ℚ) ≤ (m : ℚ) := le_trans (by norm_num) hmq
  by_cases h1 : 4 * t < (2 * (m : ℚ) + 1) ^ 2
  · rw [if_pos h1] at hn
    subst hn
    refine ⟨hmq, by nlinarith, by nlinarith⟩
  · rw [if_neg h1] at hn
    by_cases h2 : (2 * (m : ℚ) + 1) ^ 2 < 4 * t
    · rw [if_pos h2] at hn
      subst hn
      push_cast
      refine ⟨by linarith, by nlinarith, by nlinarith⟩
    · rw [if_neg h2] at hn
      have heq : 4 * t = (2 * (m : ℚ) + 1) ^ 2 := le_antisymm (not_lt.1 h2) (not_lt.1 h1)
      split at hn
      · subst hn
        refine ⟨hmq, by nlinarith, by nlinarith⟩
      · subst hn
        push_cast
        refine ⟨by linarith, by nlinarith, by nlinarith⟩

/-- The `float` square root of a value not below `2^-252` has a relative error
of at most `2^-23`; stated on the squares. -/
theorem sqrt32_sq_bounds (s : ℚ) (hs : 1 / 2 ^ 252 ≤ s) :
    s * (1 - 1 / 2 ^ 23) ^ 2 ≤ sqrt32 s * sqrt32 s ∧
    sqrt32 s * sqrt32 s ≤ s * (1 + 1 / 2 ^ 23) ^ 2 := by
  have hs0 : 0 < s := lt_of_lt_of_le (by norm_num) hs
  have hlog : (-252 : Int) ≤ Int.log 2 s := by
    rw [← Int.zpow_le_iff_le_log (by norm_num) hs0]
    have : ((2 : Nat) : ℚ) ^ (-252 : Int) = 1 / 2 ^ 252 := by
      rw [zpow_neg]
      norm_num
    rw [this]
    exact hs
  have he : (-126 : Int) ≤ Int.log 2 s / 2 := by omega
  have hlow : (2 : ℚ) ^ (2 * (Int.log 2 s / 2)) ≤ s := by
    have h1 : (2 : ℚ) ^ (Int.log 2 s) ≤ s := by
      simpa using Int.zpow_log_le_self (R := ℚ) (b := 2) (by norm_num) hs0
    exact le_trans (zpow_le_zpow_right₀ (by norm_num) (by omega)) h1
  unfold sqrt32 roundSqrt
  rw [if_neg (not_le.2 hs0)]
  simp only [max_eq_left he]
  generalize Int.log 2 s / 2 = e at hlow
  have hu := two_zpow_pos (e - (((24 : Nat) : Int) - 1))
  have huu : (2 : ℚ) ^ (e - (((24 : Nat) : Int) - 1)) * (2 : ℚ) ^ (e - (((24 : Nat) : Int) - 1)) =
      (2 : ℚ) ^ (2 * e) / 2 ^ 46 := by
    rw [← zpow_add₀ (by norm_num : (2 : ℚ) ≠ 0)]
    have : e - (((24 : Nat) : Int) - 1) + (e - (((24 : Nat) : Int) - 1)) = 2 * e + -(46 : Int) := by
      push_cast
      ring
    rw [this, zpow_add₀ (by norm_num : (2 : ℚ) ≠ 0), zpow_neg]
    norm_num
    ring
  have ht : (2 : ℚ) ^ 46 ≤ s / ((2 : ℚ) ^ (e - (((24 : Nat) : Int) - 1)) *
      (2 : ℚ) ^ (e - (((24 : Nat) : Int) - 1))) := by
    rw [huu, le_div_iff₀ (by positivity)]
    have h2e := two_zpow_pos (2 * e)
    calc (2 : ℚ) ^ 46 * ((2 : ℚ) ^ (2 * e) / 2 ^ 46) = (2 : ℚ) ^ (2 * e) := by field_simp
      _ ≤ s := hlow
  obtain ⟨hn, hlo, hhi⟩ := sqrt_significand_bounds _ ht _ rfl
  generalize (if 4 * (s / ((2 : ℚ) ^ (e - (((24 : Nat) : Int) - 1)) *
      (2 : ℚ) ^ (e - (((24 : Nat) : Int) - 1)))) < _ then _ else _ : Nat) = n at hn hlo hhi
  have hsu : s = s / ((2 : ℚ) ^ (e - (((24 : Nat) : Int) - 1)) *
      (2 : ℚ) ^ (e - (((24 : Nat) : Int) - 1))) *
      ((2 : ℚ) ^ (e - (((24 : Nat) : Int) - 1)) * (2 : ℚ) ^ (e - (((24 : Nat) : Int) - 1))) := by
    field_simp
  generalize s / ((2 : ℚ) ^ (e - (((24 : Nat) : Int) - 1)) *
      (2 : ℚ) ^ (e - (((24 : Nat) : Int) - 1))) = t at ht hlo hhi hsu
  generalize (2 : ℚ) ^ (e - (((24 : Nat) : Int) - 1)) = u at hu hsu
  have ht0 : 0 ≤ t := le_trans (by norm_num) ht
  have hn0 : (0 : ℚ) ≤ (n : ℚ) - 1 / 2 := by linarith [show (2 : ℚ) ^ 23 = 8388608 by norm_num]
  -- n ≤ (n - 1/2)(1 + 2^-23) and (n + 1/2)(1 - 2^-23) ≤ n
  have h23 : (2 : ℚ) ^ 23 = 8388608 := by norm_num
  have hup : (n : ℚ) ≤ ((n : ℚ) - 1 / 2) * (1 + 1 / 2 ^ 23) := by
    rw [h23] at hn
    norm_num
    linarith
  have hdn : ((n : ℚ) + 1 / 2) * (1 - 1 / 2 ^ 23) ≤ (n : ℚ) := by
    rw [h23] at hn
    norm_num
    linarith
  have hnn : (0 : ℚ) ≤ (n : ℚ) := by linarith
  have hsq1 : (n : ℚ) * (n : ℚ) ≤ t * (1 + 1 / 2 ^ 23) ^ 2 := by
    have h1 : (n : ℚ) * (n : ℚ) ≤ (((n : ℚ) - 1 / 2) * (1 + 1 / 2 ^ 23)) *
        (((n : ℚ) - 1 / 2) * (1 + 1 / 2 ^ 23)) := mul_self_le_mul_self hnn hup
    have h2 : (((n : ℚ) - 1 / 2) * (1 + 1 / 2 ^ 23)) * (((n : ℚ) - 1 / 2) * (1 + 1 / 2 ^ 23)) =
        ((n : ℚ) - 1 / 2) ^ 2 * (1 + 1 / 2 ^ 23) ^ 2 := by ring
    have h3 : ((n : ℚ) - 1 / 2) ^ 2 * (1 + 1 / 2 ^ 23) ^ 2 ≤ t * (1 + 1 / 2 ^ 23) ^ 2 :=
      mul_le_mul_of_nonneg_right hlo (by positivity)
    linarith
  have hsq2 : t * (1 - 1 / 2 ^ 23) ^ 2 ≤ (n : ℚ) * (n : ℚ) := by
    have h0 : (0 : ℚ) ≤ ((n : ℚ) + 1 / 2) * (1 - 1 / 2 ^ 23) :=
      mul_nonneg (by linarith) (by norm_num)
    have h1 : (((n : ℚ) + 1 / 2) * (1 - 1 / 2 ^ 23)) * (((n : ℚ) + 1 / 2) * (1 - 1 / 2 ^ 23)) ≤
        (n : ℚ) * (n : ℚ) := mul_self_le_mul_self h0 hdn
    have h2 : (((n : ℚ) + 1 / 2) * (1 - 1 / 2 ^ 23)) * (((n : ℚ) + 1 / 2) * (1 - 1 / 2 ^ 23)) =
        ((n : ℚ) + 1 / 2) ^ 2 * (1 - 1 / 2 ^ 23) ^ 2 := by ring
    have h3 : t * (1 - 1 / 2 ^ 23) ^ 2 ≤ ((n : ℚ) + 1 / 2) ^ 2 * (1 - 1 / 2 ^ 23) ^ 2 :=
      mul_le_mul_of_nonneg_right hhi (by positivity)
    linarith
  have huu0 : 0 ≤ u * u := mul_self_nonneg u
  have e1 : (n : ℚ) * u * ((n : ℚ) * u) = (n : ℚ) * (n : ℚ) * (u * u) := by ring
  rw [e1]
  constructor
  · calc s * (1 - 1 / 2 ^ 23) ^ 2 = t * (1 - 1 / 2 ^ 23) ^ 2 * (u * u) := by rw [hsu]; ring
      _ ≤ (n : ℚ) * (n : ℚ) * (u * u) := mul_le_mul_of_nonneg_right hsq2 huu0
  · calc (n : ℚ) * (n : ℚ) * (u * u) ≤ t * (1 + 1 / 2 ^ 23) ^ 2 * (u * u) :=
        mul_le_mul_of_nonneg_right hsq1 huu0
      _ = s * (1 + 1 / 2 ^ 23) ^ 2 := by rw [hsu]; ring

theorem f32_zero : f32 0 = 0 := roundFloat_zero 24 (-126)

theorem f32_nonneg {x : ℚ} (h : 0 ≤ x) : 0 ≤ f32 x := roundFloat_nonneg 24 (-126) h

theorem f32_nonpos {x : ℚ} (h : x ≤ 0) : f32 x ≤ 0 := roundFloat_nonpos 24 (-126) h

theorem f32_mono {x y : ℚ} (hx : 0 ≤ x) (h : x ≤ y) : f32 x ≤ f32 y :=
  roundFloat_mono 24 (-126) (by norm_num) hx h

/-- A `float` value `n * 2^k`, with `|n| < 2^24` and `k ≥ -149`, is left as
it is by the rounding. -/
theorem f32_exact (n k : Int) (hn : |n| < 2 ^ 24) (hk : -149 ≤ k) :
    f32 ((n : ℚ) * (2 : ℚ) ^ k) = (n : ℚ) * (2 : ℚ) ^ k :=
  roundFloat_exact 24 (-126) n k hn (by norm_num; exact hk)

/-- Integers of magnitude below `2^24` are `float` values. -/
theorem f32_intCast (n : Int) (hn : |n| < 2 ^ 24) : f32 (n : ℚ) = n :=
  roundFloat_intCast 24 (-126) n hn (by norm_num)

theorem f32_natCast (n : Nat) (hn : n < 2 ^ 24) : f32 (n : ℚ) = n := by
  have := f32_intCast (n : Int) (by rw [abs_of_nonneg (Int.natCast_nonneg n)]; exact_mod_cast hn)
  simpa using this

theorem roundEven_abs_sub_le (x : ℚ) : |(roundEven x : ℚ) - x| ≤ 1 / 2 := by
  obtain ⟨h1, h2⟩ := roundEven_bounds x
  rw [abs_le]
  constructor <;> linarith

/-- The rounding error is at most half a unit in the last place: a relative
error of `2^-p` in the normal range, an absolute error of `2^(emin - p)` below
it. -/
theorem roundFloat_error (p : Nat) (emin : Int) (x : ℚ) :
    |roundFloat p emin x - x| ≤ |x| * (2 : ℚ) ^ (-(p : Int)) + (2 : ℚ) ^ (emin - (p : Int)) := by
  have hu := two_zpow_pos (ulpExp p emin x)
  have hrel : 0 ≤ |x| * (2 : ℚ) ^ (-(p : Int)) := mul_nonneg (abs_nonneg x) (two_zpow_pos _).le
  have habs : 0 ≤ (2 : ℚ) ^ (emin - (p : Int)) := (two_zpow_pos _).le
  have hhalf : |roundFloat p emin x - x| ≤ (2 : ℚ) ^ (ulpExp p emin x - 1) := by
    have e1 : roundFloat p emin x - x =
        ((roundEven (x / (2 : ℚ) ^ ulpExp p emin x) : ℚ) - x / (2 : ℚ) ^ ulpExp p emin x) *
          (2 : ℚ) ^ ulpExp p emin x := by
      unfold roundFloat
      field_simp
    rw [e1, abs_mul, abs_of_pos hu, zpow_sub₀ (by norm_num : (2 : ℚ) ≠ 0), zpow_one]
    have := roundEven_abs_sub_le (x / (2 : ℚ) ^ ulpExp p emin x)
    calc |(roundEven (x / (2 : ℚ) ^ ulpExp p emin x) : ℚ) - x / (2 : ℚ) ^ ulpExp p emin x| *
          (2 : ℚ) ^ ulpExp p emin x
        ≤ 1 / 2 * (2 : ℚ) ^ ulpExp p emin x := mul_le_mul_of_nonneg_right this hu.le
      _ = (2 : ℚ) ^ ulpExp p emin x / 2 := by ring
  rcases eq_or_ne x 0 with h0 | h0
  · rw [h0, roundFloat_zero]
    simp only [sub_zero, abs_zero, zero_mul, zero_add]
    exact habs
  rcases max_cases (Int.log 2 |x|) emin with ⟨h1, -⟩ | ⟨h1, -⟩
  · have hk : ulpExp p emin x - 1 = Int.log 2 |x| + -(p : Int) := by
      unfold ulpExp
      rw [h1]
      ring
    rw [hk, zpow_add₀ (by norm_num : (2 : ℚ) ≠ 0)] at hhalf
    have hlog := two_zpow_log_le h0
    have : (2 : ℚ) ^ Int.log 2 |x| * (2 : ℚ) ^ (-(p : Int)) ≤ |x| * (2 : ℚ) ^ (-(p : Int)) :=
      mul_le_mul_of_nonneg_right hlog (two_zpow_pos _).le
    linarith
  · have hk : ulpExp p emin x - 1 = emin - (p : Int) := by
      unfold ulpExp
      rw [h1]
      ring
    rw [hk] at hhalf
    linarith

/-- The error of a rounding to `float`. -/
theorem f32_error (x : ℚ) : |f32 x - x| ≤ |x| / 2 ^ 24 + 1 / 2 ^ 150 := by
  have h := roundFloat_error 24 (-126) x
  have e1 : (2 : ℚ) ^ (-((24 : Nat) : Int)) = 1 / 2 ^ 24 := by norm_num [zpow_neg]
  have e2 : (2 : ℚ) ^ ((-126 : Int) - ((24 : Nat) : Int)) = 1 / 2 ^ 150 := by
    have : ((-126 : Int) - ((24 : Nat) : Int)) = -(150 : Int) := by norm_num
    rw [this, zpow_neg]
    norm_num
  rw [e1, e2] at h
  unfold f32
  calc |roundFloat 24 (-126) x - x| ≤ |x| * (1 / 2 ^ 24) + 1 / 2 ^ 150 := h
    _ = |x| / 2 ^ 24 + 1 / 2 ^ 150 := by ring

theorem abs_le_add_of_abs_sub_le {a x e : ℚ} (h : |a - x| ≤ e) : |a| ≤ |x| + e := by
  have := abs_add (a - x) x
  simp only [sub_add_cancel] at this
  linarith

theorem le_of_abs_sub_le {a x e : ℚ} (h : |a - x| ≤ e) : a ≤ x + e := by
  have := (abs_le.1 h).2
  linarith

theorem ge_of_abs_sub_le {a x e : ℚ} (h : |a - x| ≤ e) : x - e ≤ a := by
  have := (abs_le.1 h).1
  linarith

/-- The square of a rounded coordinate difference, from above. -/
theorem sq_round_upper {a dx c : ℚ} (ha : |a - dx| ≤ |dx| / 2 ^ 24 + 1 / 2 ^ 150)
    (hc : 50 ≤ c) (hdx : |dx| ≤ c) :
    a * a ≤ dx * dx * (1 + 1 / 2 ^ 24) ^ 2 + 3 * c * (1 / 2 ^ 150) := by
  have h1 : |a| ≤ |dx| * (1 + 1 / 2 ^ 24) + 1 / 2 ^ 150 := by
    have := abs_le_add_of_abs_sub_le ha
    linarith
  have h2 : a * a ≤ (|dx| * (1 + 1 / 2 ^ 24) + 1 / 2 ^ 150) *
      (|dx| * (1 + 1 / 2 ^ 24) + 1 / 2 ^ 150) := by
    rw [← abs_mul_abs_self a]
    exact mul_self_le_mul_self (abs_nonneg a) h1
  have h3 : |dx| * |dx| = dx * dx := abs_mul_abs_self dx
  have h4 : (|dx| * (1 + 1 / 2 ^ 24) + 1 / 2 ^ 150) * (|dx| * (1 + 1 / 2 ^ 24) + 1 / 2 ^ 150) =
      |dx| * |dx| * (1 + 1 / 2 ^ 24) ^ 2 + |dx| * (2 * (1 + 1 / 2 ^ 24) * (1 / 2 ^ 150)) +
        (1 / 2 ^ 150) ^ 2 := by ring
  rw [h4, h3] at h2
  have h0 : (0 : ℚ) ≤ |dx| := abs_nonneg dx
  have h5 : |dx| * (2 * (1 + 1 / 2 ^ 24) * (1 / 2 ^ 150)) ≤
      c * (2 * (1 + 1 / 2 ^ 24) * (1 / 2 ^ 150)) :=
    mul_le_mul_of_nonneg_right hdx (by norm_num)
  linarith

/-- Pure algebra: the accumulated rounding of the distance computation, from
above. -/
theorem blast_upper {dx dy a b A B S D R c : ℚ}
    (ha : |a - dx| ≤ |dx| / 2 ^ 24 + 1 / 2 ^ 150)
    (hb : |b - dy| ≤ |dy| / 2 ^ 24 + 1 / 2 ^ 150)
    (hA : |A - a * a| ≤ |a * a| / 2 ^ 24 + 1 / 2 ^ 150)
    (hB : |B - b * b| ≤ |b * b| / 2 ^ 24 + 1 / 2 ^ 150)
    (hA0 : 0 ≤ A) (hB0 : 0 ≤ B)
    (hS : |S - (A + B)| ≤ |A + B| / 2 ^ 24 + 1 / 2 ^ 150)
    (hD : D * D ≤ S * (1 + 1 / 2 ^ 23) ^ 2)
    (hR : |R - c| ≤ |c| / 2 ^ 24 + 1 / 2 ^ 150) (hc : 50 ≤ c)
    (hd : dx * dx + dy * dy ≤ c * c * (1 - 1 / 2 ^ 20)) : D ≤ R := by
  have hc0 : (0 : ℚ) ≤ c := by linarith
  have hcc : (0 : ℚ) ≤ c * c := mul_self_nonneg c
  have hdxc : |dx| ≤ c :=
    abs_le_of_sq_le_sq (by rw [pow_two, pow_two]; linarith [mul_self_nonneg dy]) hc0
  have hdyc : |dy| ≤ c :=
    abs_le_of_sq_le_sq (by rw [pow_two, pow_two]; linarith [mul_self_nonneg dx]) hc0
  have ha2 := sq_round_upper ha hc hdxc
  have hb2 := sq_round_upper hb hc hdyc
  have hA1 : A ≤ a * a * (1 + 1 / 2 ^ 24) + 1 / 2 ^ 150 := by
    have := le_of_abs_sub_le hA
    rw [abs_of_nonneg (mul_self_nonneg a)] at this
    linarith
  have hB1 : B ≤ b * b * (1 + 1 / 2 ^ 24) + 1 / 2 ^ 150 := by
    have := le_of_abs_sub_le hB
    rw [abs_of_nonneg (mul_self_nonneg b)] at this
    linarith
  have hS1 : S ≤ (A + B) * (1 + 1 / 2 ^ 24) + 1 / 2 ^ 150 := by
    have := le_of_abs_sub_le hS
    rw [abs_of_nonneg (add_nonneg hA0 hB0)] at this
    linarith
  have hR1 : c * (1 - 1 / 2 ^ 24) - 1 / 2 ^ 150 ≤ R := by
    have := ge_of_abs_sub_le hR
    rw [abs_of_nonneg hc0] at this
    linarith
  have hR0 : 0 ≤ R := by linarith
  have hk : (0 : ℚ) ≤ 1 + 1 / 2 ^ 24 := by norm_num
  -- the chain for `S`
  have h1 : (a * a + b * b) * (1 + 1 / 2 ^ 24) ≤
      ((dx * dx + dy * dy) * (1 + 1 / 2 ^ 24) ^ 2 + 6 * c * (1 / 2 ^ 150)) *
        (1 + 1 / 2 ^ 24) := mul_le_mul_of_nonneg_right (by linarith) hk
  have hAB : A + B ≤ (dx * dx + dy * dy) * (1 + 1 / 2 ^ 24) ^ 3 + 7 * c * (1 / 2 ^ 150) := by
    linarith
  have h2 : (A + B) * (1 + 1 / 2 ^ 24) ≤
      ((dx * dx + dy * dy) * (1 + 1 / 2 ^ 24) ^ 3 + 7 * c * (1 / 2 ^ 150)) *
        (1 + 1 / 2 ^ 24) := mul_le_mul_of_nonneg_right hAB hk
  have hS2 : S ≤ (dx * dx + dy * dy) * (1 + 1 / 2 ^ 24) ^ 4 + 8 * c * (1 / 2 ^ 150) := by
    linarith
  have h3 : (dx * dx + dy * dy) * (1 + 1 / 2 ^ 24) ^ 4 ≤
      c * c * (1 - 1 / 2 ^ 20) * (1 + 1 / 2 ^ 24) ^ 4 :=
    mul_le_mul_of_nonneg_right hd (by norm_num)
  have h4 : S * (1 + 1 / 2 ^ 23) ^ 2 ≤
      (c * c * (1 - 1 / 2 ^ 20) * (1 + 1 / 2 ^ 24) ^ 4 + 8 * c * (1 / 2 ^ 150)) *
        (1 + 1 / 2 ^ 23) ^ 2 :=
    mul_le_mul_of_nonneg_right (by linarith) (by norm_num)
  have hRR : (c * (1 - 1 / 2 ^ 24) - 1 / 2 ^ 150) * (c * (1 - 1 / 2 ^ 24) - 1 / 2 ^ 150) ≤
      R * R := mul_self_le_mul_self (by linarith) hR1
  have h5 : (c * (1 - 1 / 2 ^ 24) - 1 / 2 ^ 150) * (c * (1 - 1 / 2 ^ 24) - 1 / 2 ^ 150) =
      c * c * (1 - 1 / 2 ^ 24) ^ 2 - c * (2 * (1 - 1 / 2 ^ 24) * (1 / 2 ^ 150)) +
        (1 / 2 ^ 150) ^ 2 := by ring
  have h6 : c * 50 ≤ c * c := mul_le_mul_of_nonneg_left hc hc0
  have hsq : D * D ≤ R * R := by linarith
  exact (abs_le_of_sq_le_sq' (by rw [pow_two, pow_two]; exact hsq) hR0).2

/-- The square of a rounded coordinate difference, from below. -/
theorem sq_round_lower {a dx : ℚ} (ha : |a - dx| ≤ |dx| / 2 ^ 24 + 1 / 2 ^ 150) :
    dx * dx * (1 - 1 / 2 ^ 24) ^ 2 - (dx * dx + 2500) / 100 * (2 * (1 / 2 ^ 150)) ≤ a * a := by
  have h0 : (0 : ℚ) ≤ |dx| := abs_nonneg dx
  have h3 : |dx| * |dx| = dx * dx := abs_mul_abs_self dx
  have h1 : |dx| * (1 - 1 / 2 ^ 24) - 1 / 2 ^ 150 ≤ |a| := by
    have h := abs_sub_abs_le_abs_sub dx a
    rw [abs_sub_comm dx a] at h
    linarith
  have h50 : 0 ≤ (|dx| - 50) * (|dx| - 50) := mul_self_nonneg _
  have h50' : (|dx| - 50) * (|dx| - 50) = |dx| * |dx| - 100 * |dx| + 2500 := by ring
  have haa : a * a = |a| * |a| := (abs_mul_abs_self a).symm
  rcases le_or_lt 0 (|dx| * (1 - 1 / 2 ^ 24) - 1 / 2 ^ 150) with ht | ht
  · have h2 : (|dx| * (1 - 1 / 2 ^ 24) - 1 / 2 ^ 150) * (|dx| * (1 - 1 / 2 ^ 24) - 1 / 2 ^ 150) ≤
        |a| * |a| := mul_self_le_mul_self ht h1
    have h4 : (|dx| * (1 - 1 / 2 ^ 24) - 1 / 2 ^ 150) * (|dx| * (1 - 1 / 2 ^ 24) - 1 / 2 ^ 150) =
        |dx| * |dx| * (1 - 1 / 2 ^ 24) ^ 2 - |dx| * (2 * (1 - 1 / 2 ^ 24) * (1 / 2 ^ 150)) +
          (1 / 2 ^ 150) ^ 2 := by ring
    rw [h4, h3] at h2
    rw [h50', h3] at h50
    rw [haa]
    have h5 : (0 : ℚ) ≤ (1 / 2 ^ 150) ^ 2 := by positivity
    have h6 : |dx| * (2 * (1 - 1 / 2 ^ 24) * (1 / 2 ^ 150)) ≤ |dx| * (2 * (1 / 2 ^ 150)) :=
      mul_le_mul_of_nonneg_left (by norm_num) h0
    have h7 : |dx| * (2 * (1 / 2 ^ 150)) ≤ (dx * dx + 2500) / 100 * (2 * (1 / 2 ^ 150)) :=
      mul_le_mul_of_nonneg_right (by linarith) (by norm_num)
    linarith
  · have hpos : 0 ≤ |dx| * (1 - 1 / 2 ^ 24) := mul_nonneg h0 (by norm_num)
    have h2 : |dx| * (1 - 1 / 2 ^ 24) * (|dx| * (1 - 1 / 2 ^ 24)) ≤
        |dx| * (1 - 1 / 2 ^ 24) * (1 / 2 ^ 150) :=
      mul_le_mul_of_nonneg_left (by linarith) hpos
    have h4 : |dx| * (1 - 1 / 2 ^ 24) * (|dx| * (1 - 1 / 2 ^ 24)) =
        |dx| * |dx| * (1 - 1 / 2 ^ 24) ^ 2 := by ring
    rw [h4, h3] at h2
    have h6 : |dx| * (1 - 1 / 2 ^ 24) * (1 / 2 ^ 150) ≤ |dx| * (2 * (1 / 2 ^ 150)) := by
      rw [mul_assoc]
      exact mul_le_mul_of_nonneg_left (by norm_num) h0
    rw [h50', h3] at h50
    have h7 : |dx| * (2 * (1 / 2 ^ 150)) ≤ (dx * dx + 2500) / 100 * (2 * (1 / 2 ^ 150)) :=
      mul_le_mul_of_nonneg_right (by linarith) (by norm_num)
    have h8 : 0 ≤ a * a := mul_self_nonneg a
    linarith

/-- Pure algebra: the accumulated rounding of the distance computation, from
below. -/
theorem blast_lower {dx dy a b A B S D R c : ℚ}
    (ha : |a - dx| ≤ |dx| / 2 ^ 24 + 1 / 2 ^ 150)
    (hb : |b - dy| ≤ |dy| / 2 ^ 24 + 1 / 2 ^ 150)
    (hA : |A - a * a| ≤ |a * a| / 2 ^ 24 + 1 / 2 ^ 150)
    (hB : |B - b * b| ≤ |b * b| / 2 ^ 24 + 1 / 2 ^ 150)
    (hA0 : 0 ≤ A) (hB0 : 0 ≤ B)
    (hS : |S - (A + B)| ≤ |A + B| / 2 ^ 24 + 1 / 2 ^ 150)
    (hD0 : 0 ≤ D) (hD : S * (1 - 1 / 2 ^ 23) ^ 2 ≤ D * D)
    (hR : |R - c| ≤ |c| / 2 ^ 24 + 1 / 2 ^ 150) (hc : 50 ≤ c)
    (hd : c * c * (1 + 1 / 2 ^ 20) ≤ dx * dx + dy * dy) : R < D := by
  have hc0 : (0 : ℚ) ≤ c := by linarith
  have h50c : 50 * c ≤ c * c := mul_le_mul_of_nonneg_right hc hc0
  have ha2 := sq_round_lower ha
  have hb2 := sq_round_lower hb
  have hA1 : a * a * (1 - 1 / 2 ^ 24) - 1 / 2 ^ 150 ≤ A := by
    have := ge_of_abs_sub_le hA
    rw [abs_of_nonneg (mul_self_nonneg a)] at this
    linarith
  have hB1 : b * b * (1 - 1 / 2 ^ 24) - 1 / 2 ^ 150 ≤ B := by
    have := ge_of_abs_sub_le hB
    rw [abs_of_nonneg (mul_self_nonneg b)] at this
    linarith
  have hS1 : (A + B) * (1 - 1 / 2 ^ 24) - 1 / 2 ^ 150 ≤ S := by
    have := ge_of_abs_sub_le hS
    rw [abs_of_nonneg (add_nonneg hA0 hB0)] at this
    linarith
  have hR1 : R ≤ c * (1 + 1 / 2 ^ 24) + 1 / 2 ^ 150 := by
    have := le_of_abs_sub_le hR
    rw [abs_of_nonneg hc0] at this
    linarith
  have hk : (0 : ℚ) ≤ 1 - 1 / 2 ^ 24 := by norm_num
  have hq0 : 0 ≤ (dx * dx + dy * dy + 5000) / 100 * (2 * (1 / 2 ^ 150)) :=
    mul_nonneg (div_nonneg (by linarith [mul_self_nonneg dx, mul_self_nonneg dy]) (by norm_num))
      (by norm_num)
  have h1 : ((dx * dx + dy * dy) * (1 - 1 / 2 ^ 24) ^ 2 -
      (dx * dx + dy * dy + 5000) / 100 * (2 * (1 / 2 ^ 150))) * (1 - 1 / 2 ^ 24) ≤
      (a * a + b * b) * (1 - 1 / 2 ^ 24) := mul_le_mul_of_nonneg_right (by linarith) hk
  have hAB : (dx * dx + dy * dy) * (1 - 1 / 2 ^ 24) ^ 3 -
      (dx * dx + dy * dy + 5000) / 100 * (2 * (1 / 2 ^ 150)) - 2 * (1 / 2 ^ 150) ≤ A + B := by
    have e : ((dx * dx + dy * dy) * (1 - 1 / 2 ^ 24) ^ 2 -
        (dx * dx + dy * dy + 5000) / 100 * (2 * (1 / 2 ^ 150))) * (1 - 1 / 2 ^ 24) =
        (dx * dx + dy * dy) * (1 - 1 / 2 ^ 24) ^ 3 -
          (dx * dx + dy * dy + 5000) / 100 * (2 * (1 / 2 ^ 150)) * (1 - 1 / 2 ^ 24) := by ring
    have e2 : (dx * dx + dy * dy + 5000) / 100 * (2 * (1 / 2 ^ 150)) * (1 - 1 / 2 ^ 24) ≤
        (dx * dx + dy * dy + 5000) / 100 * (2 * (1 / 2 ^ 150)) :=
      mul_le_of_le_one_right hq0 (by norm_num)
    linarith
  have h2 : ((dx * dx + dy * dy) * (1 - 1 / 2 ^ 24) ^ 3 -
      (dx * dx + dy * dy + 5000) / 100 * (2 * (1 / 2 ^ 150)) - 2 * (1 / 2 ^ 150)) *
        (1 - 1 / 2 ^ 24) ≤ (A + B) * (1 - 1 / 2 ^ 24) := mul_le_mul_of_nonneg_right hAB hk
  have hQ : 2500 ≤ dx * dx + dy * dy := by linarith
  have hS2 : (dx * dx + dy * dy) * ((1 - 1 / 2 ^ 24) ^ 4 - 1 / 2 ^ 150) ≤ S := by
    have e : ((dx * dx + dy * dy) * (1 - 1 / 2 ^ 24) ^ 3 -
        (dx * dx + dy * dy + 5000) / 100 * (2 * (1 / 2 ^ 150)) - 2 * (1 / 2 ^ 150)) *
          (1 - 1 / 2 ^ 24) =
        (dx * dx + dy * dy) * (1 - 1 / 2 ^ 24) ^ 4 -
          ((dx * dx + dy * dy + 5000) / 100 * (2 * (1 / 2 ^ 150)) + 2 * (1 / 2 ^ 150)) *
            (1 - 1 / 2 ^ 24) := by ring
    have e2 : ((dx * dx + dy * dy + 5000) / 100 * (2 * (1 / 2 ^ 150)) + 2 * (1 / 2 ^ 150)) *
        (1 - 1 / 2 ^ 24) ≤
        (dx * dx + dy * dy + 5000) / 100 * (2 * (1 / 2 ^ 150)) + 2 * (1 / 2 ^ 150) :=
      mul_le_of_le_one_right (by linarith) (by norm_num)
    linarith
  have h3 : c * c * (1 + 1 / 2 ^ 20) * ((1 - 1 / 2 ^ 24) ^ 4 - 1 / 2 ^ 150) ≤
      (dx * dx + dy * dy) * ((1 - 1 / 2 ^ 24) ^ 4 - 1 / 2 ^ 150) :=
    mul_le_mul_of_nonneg_right hd (by norm_num)
  have h4 : c * c * (1 + 1 / 2 ^ 20) * ((1 - 1 / 2 ^ 24) ^ 4 - 1 / 2 ^ 150) *
      (1 - 1 / 2 ^ 23) ^ 2 ≤ S * (1 - 1 / 2 ^ 23) ^ 2 :=
    mul_le_mul_of_nonneg_right (by linarith) (by norm_num)
  rcases lt_or_le R 0 with hneg | hR0
  · exact lt_of_lt_of_le hneg hD0
  · by_contra hcon
    have hDR : D ≤ R := not_lt.1 hcon
    have hDD : D * D ≤ R * R := mul_self_le_mul_self hD0 hDR
    have hRR : R * R ≤ (c * (1 + 1 / 2 ^ 24) + 1 / 2 ^ 150) * (c * (1 + 1 / 2 ^ 24) + 1 / 2 ^ 150) :=
      mul_self_le_mul_self hR0 hR1
    have h5 : (c * (1 + 1 / 2 ^ 24) + 1 / 2 ^ 150) * (c * (1 + 1 / 2 ^ 24) + 1 / 2 ^ 150) =
        c * c * (1 + 1 / 2 ^ 24) ^ 2 + c * (2 * (1 + 1 / 2 ^ 24) * (1 / 2 ^ 150)) +
          (1 / 2 ^ 150) ^ 2 := by ring
    have h6 : c * c * (1 + 1 / 2 ^ 20) * ((1 - 1 / 2 ^ 24) ^ 4 - 1 / 2 ^ 150) *
        (1 - 1 / 2 ^ 23) ^ 2 =
        c * c * ((1 + 1 / 2 ^ 20) * ((1 - 1 / 2 ^ 24) ^ 4 - 1 / 2 ^ 150) *
          (1 - 1 / 2 ^ 23) ^ 2) := by ring
    rw [h5] at hRR
    rw [h6] at h4
    linarith

/-- A `float` is `0` or at least the least subnormal in magnitude. -/
theorem f32_zero_or_ge (x : ℚ) : f32 x = 0 ∨ 1 / 2 ^ 149 ≤ |f32 x| := by
  unfold f32 roundFloat
  have hu : -149 ≤ ulpExp 24 (-126) x := by
    unfold ulpExp
    have := le_max_right (Int.log 2 |x|) (-126)
    push_cast
    omega
  by_cases hn : roundEven (x / (2 : ℚ) ^ ulpExp 24 (-126) x) = 0
  · left
    rw [hn]
    simp
  · right
    have h1 : (1 : ℚ) ≤ |((roundEven (x / (2 : ℚ) ^ ulpExp 24 (-126) x) : Int) : ℚ)| := by
      rw [← Int.cast_abs]
      exact_mod_cast Int.one_le_abs hn
    have h2 : (2 : ℚ) ^ (-149 : Int) ≤ (2 : ℚ) ^ ulpExp 24 (-126) x :=
      zpow_le_zpow_right₀ (by norm_num) hu
    have h3 : (2 : ℚ) ^ (-149 : Int) = 1 / 2 ^ 149 := by norm_num [zpow_neg]
    rw [abs_mul, abs_of_pos (two_zpow_pos _)]
    calc (1 : ℚ) / 2 ^ 149 = 1 * (2 : ℚ) ^ (-149 : Int) := by rw [h3, one_mul]
      _ ≤ _ := mul_le_mul h1 h2 (two_zpow_pos _).le (abs_nonneg _)

/-- The square of the `float` length is within the relative error `2^-23`
(squared) of the `float` dot product it is the root of. -/
theorem Vec2.length32_sq_bounds (v : Vec2) :
    v.dot32 v * (1 - 1 / 2 ^ 23) ^ 2 ≤ v.length32 * v.length32 ∧
    v.length32 * v.length32 ≤ v.dot32 v * (1 + 1 / 2 ^ 23) ^ 2 := by
  have h0 : 0 ≤ v.dot32 v :=
    f32_nonneg (add_nonneg (f32_nonneg (mul_self_nonneg _)) (f32_nonneg (mul_self_nonneg _)))
  rcases f32_zero_or_ge (f32 (v.x * v.x) + f32 (v.y * v.y)) with hz | hg
  · have hz' : v.dot32 v = 0 := hz
    have hl : v.length32 = 0 := by
      unfold Vec2.length32 sqrt32
      rw [hz', roundSqrt_zero]
    rw [hz', hl]
    norm_num
  · have hg' : 1 / 2 ^ 149 ≤ v.dot32 v := by
      have : |v.dot32 v| = v.dot32 v := abs_of_nonneg h0
      rw [← this]
      exact hg
    exact sqrt32_sq_bounds _ (le_trans (by norm_num) hg')


/-- Evaluation of a rounding to `float`: the exponent `e` and the significand
`n` of the result are supplied and checked. -/
theorem f32_eq (x v : ℚ) (e n : Int) (h1 : (2 : ℚ) ^ e ≤ |x|) (h2 : |x| < (2 : ℚ) ^ (e + 1))
    (he : -126 ≤ e) (h3 : ((n : ℚ) - 1 / 2) * (2 : ℚ) ^ (e - 23) < x)
    (h4 : x < ((n : ℚ) + 1 / 2) * (2 : ℚ) ^ (e - 23)) (hv : v = (n : ℚ) * (2 : ℚ) ^ (e - 23)) :
    f32 x = v := by
  rw [hv, f32]
  exact roundFloat_eq 24 (-126) x e n h1 h2 he (by simpa using h3) (by simpa using h4)

/-- Evaluation of a rounding to `double`. -/
theorem f64_eq (x v : ℚ) (e n : Int) (h1 : (2 : ℚ) ^ e ≤ |x|) (h2 : |x| < (2 : ℚ) ^ (e + 1))
    (he : -1022 ≤ e) (h3 : ((n : ℚ) - 1 / 2) * (2 : ℚ) ^ (e - 52) < x)
    (h4 : x < ((n : ℚ) + 1 / 2) * (2 : ℚ) ^ (e - 52)) (hv : v = (n : ℚ) * (2 : ℚ) ^ (e - 52)) :
    f64 x = v := by
  rw [hv, f64]
  exact roundFloat_eq 53 (-1022) x e n h1 h2 he (by simpa using h3) (by simpa using h4)

/-- Evaluation of a `float` square root. -/
theorem sqrt32_eq (s v : ℚ) (e : Int) (n : Nat) (h1 : (2 : ℚ) ^ (2 * e) ≤ s)
    (h2 : s < (2 : ℚ) ^ (2 * e + 2)) (he : -126 ≤ e)
    (h3 : (2 * (n : ℚ) - 1) ^ 2 * ((2 : ℚ) ^ (e - 23)) ^ 2 < 4 * s)
    (h4 : 4 * s < (2 * (n : ℚ) + 1) ^ 2 * ((2 : ℚ) ^ (e - 23)) ^ 2) (hn : 0 < n)
    (hv : v = (n : ℚ) * (2 : ℚ) ^ (e - 23)) : sqrt32 s = v := by
  rw [hv, sqrt32]
  exact roundSqrt_eq 24 (-126) s e n h1 h2 he (by simpa using h3) (by simpa using h4) hn

/-- The literal `0.9`, converted to `float`, is `15099494 / 2^24`. -/
theorem f32_f64_nine_tenths : f32 (f64 (9 / 10)) = 7549747 / 8388608 := by
  have h1 := roundFloat_eq 53 (-1022) (9 / 10) (-1) 8106479329266893 (by norm_num [abs_of_pos])
    (by norm_num [abs_of_pos]) (by norm_num) (by norm_num) (by norm_num)
  have h2 := roundFloat_eq 24 (-126) (8106479329266893 / 9007199254740992) (-1) 15099494
    (by norm_num [abs_of_pos]) (by norm_num [abs_of_pos]) (by norm_num) (by norm_num)
    (by norm_num)
  have e1 : f64 (9 / 10) = 8106479329266893 / 9007199254740992 := by
    rw [f64, h1]
    norm_num
  rw [e1, f32, h2]
  norm_num

/-- The `double` literal `0.1` is `7205759403792794 / 2^56`. -/
theorem f64_tenth : f64 (1 / 10) = 3602879701896397 / 36028797018963968 := by
  have h := roundFloat_eq 53 (-1022) (1 / 10) (-4) 7205759403792794 (by norm_num [abs_of_pos])
    (by norm_num [abs_of_pos]) (by norm_num) (by norm_num) (by norm_num)
  rw [f64, h]
  norm_num

/-! ## Friction (`Player::Move`) -/

theorem Player.Move_position (p : Player) : p.Move.position_ = p.position_.add p.velocity_ := by
  unfold Player.Move
  dsimp only
  split <;> rfl

theorem Vec2.scale32_zero (k : ℚ) : Vec2.scale32 k ⟨0, 0⟩ = ⟨0, 0⟩ := by
  simp [Vec2.scale32, f32_zero]

theorem Player.Move32_velocity (p : Player) :
    p.Move32.velocity_ =
      if belowThreshold32 (Vec2.scale32 (f32 (f64 (9 / 10))) p.velocity_) = true then ⟨0, 0⟩
      else Vec2.scale32 (f32 (f64 (9 / 10))) p.velocity_ := by
  unfold Player.Move32 belowThreshold32
  dsimp only
  by_cases h : (Vec2.scale32 (f32 (f64 (9 / 10))) p.velocity_).length32 < f64 (1 / 10)
  · rw [if_pos h, if_pos (decide_eq_true h)]
  · rw [if_neg h, if_neg (by simpa using h)]

theorem Player.Move32_velocity_zero (p : Player) (h : p.velocity_ = ⟨0, 0⟩) :
    p.Move32.velocity_ = ⟨0, 0⟩ := by
  rw [Player.Move32_velocity, h, Vec2.scale32_zero]
  split <;> rfl

/-- The velocity after `n` calls of `Move`: the `n`-fold rounded product as
long as no computed length was below the threshold, `(0, 0)` from the first
such length on. -/
theorem Player.iterate_Move32_velocity (p : Player) (n : Nat) :
    ((∀ k, 1 ≤ k → k ≤ n → belowThreshold32 (frictionProduct32 p.velocity_ k) = false) →
      (Player.Move32^[n] p).velocity_ = frictionProduct32 p.velocity_ n) ∧
    ((∃ k, 1 ≤ k ∧ k ≤ n ∧ belowThreshold32 (frictionProduct32 p.velocity_ k) = true) →
      (Player.Move32^[n] p).velocity_ = ⟨0, 0⟩) := by
  induction n with
  | zero =>
    refine ⟨fun _ => rfl, ?_⟩
    rintro ⟨k, h1, h2, -⟩
    omega
  | succ m ih =>
    rw [Function.iterate_succ_apply']
    constructor
    · intro h
      have hm := ih.1 (fun k h1 h2 => h k h1 (by omega))
      have hlast := h (m + 1) (by omega) (le_refl _)
      rw [Player.Move32_velocity, hm]
      rw [frictionProduct32] at hlast
      rw [hlast]
      rfl
    · rintro ⟨k, h1, h2, hk⟩
      by_cases hprev : ∃ k, 1 ≤ k ∧ k ≤ m ∧
          belowThreshold32 (frictionProduct32 p.velocity_ k) = true
      · exact Player.Move32_velocity_zero _ (ih.2 hprev)
      · have hall : ∀ k, 1 ≤ k → k ≤ m →
            belowThreshold32 (frictionProduct32 p.velocity_ k) = false := by
          intro j hj1 hj2
          by_contra hc
          exact hprev ⟨j, hj1, hj2, by simpa using hc⟩
        have hkm : k = m + 1 := by
          by_contra hne
          have := hall k h1 (by omega)
          rw [this] at hk
          exact Bool.noConfusion hk
        subst hkm
        rw [Player.Move32_velocity, ih.1 hall]
        rw [frictionProduct32] at hk
        rw [hk]
        rfl

/-- One component through `n` rounded products by `0.9f`: the result differs
from the exact product by `0.9^n` by at most `n (|x| / 2^23 + 2^-150)`. -/
theorem friction_component_error (g : Nat → ℚ)
    (hg : ∀ k, g (k + 1) = f32 (g k * f32 (f64 (9 / 10)))) (n : Nat) :
    |g n - g 0 * (9 / 10) ^ n| ≤ (n : ℚ) * (|g 0| / 2 ^ 23 + 1 / 2 ^ 150) := by
  induction n with
  | zero => simp
  | succ k ih =>
    rw [hg k, f32_f64_nine_tenths]
    have h1 := f32_error (g k * (7549747 / 8388608))
    have hpow : (0 : ℚ) ≤ (9 / 10) ^ k := by positivity
    have hpow1 : ((9 : ℚ) / 10) ^ k ≤ 1 := pow_le_one₀ (by norm_num) (by norm_num)
    have hgk : |g k| ≤ |g 0| + (k : ℚ) * (|g 0| / 2 ^ 23 + 1 / 2 ^ 150) := by
      have h2 : |g k| ≤ |g k - g 0 * (9 / 10) ^ k| + |g 0 * (9 / 10) ^ k| := by
        have := abs_add (g k - g 0 * (9 / 10) ^ k) (g 0 * (9 / 10) ^ k)
        simpa using this
      have h3 : |g 0 * (9 / 10) ^ k| ≤ |g 0| := by
        rw [abs_mul, abs_of_nonneg hpow]
        exact mul_le_of_le_one_right (abs_nonneg _) hpow1
      linarith
    have hE0 : (0 : ℚ) ≤ (k : ℚ) * (|g 0| / 2 ^ 23 + 1 / 2 ^ 150) := by positivity
    have hmul : |g k * (7549747 / 8388608)| = |g k| * (7549747 / 8388608) := by
      rw [abs_mul, abs_of_pos (by norm_num : (0 : ℚ) < 7549747 / 8388608)]
    have hc : |g k * (7549747 / 8388608) - g k * (9 / 10)| = |g k| * (1 / 41943040) := by
      have : g k * (7549747 / 8388608) - g k * (9 / 10) = g k * (-(1 / 41943040)) := by ring
      rw [this, abs_mul, abs_neg, abs_of_pos (by norm_num : (0 : ℚ) < 1 / 41943040)]
    have hstep : |g k * (9 / 10) - g 0 * (9 / 10) ^ (k + 1)| =
        9 / 10 * |g k - g 0 * (9 / 10) ^ k| := by
      have : g k * (9 / 10) - g 0 * (9 / 10) ^ (k + 1) = 9 / 10 * (g k - g 0 * (9 / 10) ^ k) := by
        ring
      rw [this, abs_mul, abs_of_pos (by norm_num : (0 : ℚ) < 9 / 10)]
    have htri : |f32 (g k * (7549747 / 8388608)) - g 0 * (9 / 10) ^ (k + 1)| ≤
        |f32 (g k * (7549747 / 8388608)) - g k * (7549747 / 8388608)| +
          |g k * (7549747 / 8388608) - g k * (9 / 10)| +
          |g k * (9 / 10) - g 0 * (9 / 10) ^ (k + 1)| := by
      have a1 := abs_sub_le (f32 (g k * (7549747 / 8388608))) (g k * (7549747 / 8388608))
        (g 0 * (9 / 10) ^ (k + 1))
      have a2 := abs_sub_le (g k * (7549747 / 8388608)) (g k * (9 / 10))
        (g 0 * (9 / 10) ^ (k + 1))
      linarith
    rw [hmul] at h1
    rw [hc, hstep] at htri
    have h0 : (0 : ℚ) ≤ |g 0| := abs_nonneg _
    have hk0 : (0 : ℚ) ≤ |g k| := abs_nonneg _
    push_cast
    nlinarith

/-- C5, amended.  After `n` calls of `Player::Move` with no acceleration in
between, the velocity is the starting velocity `v` multiplied `n` times by the
`float` `0.9f`, each product rounded to `float`, as long as none of the lengths
computed on the way was below `0.1`; it is exactly `(0, 0)` from the first
call whose computed length is below `0.1` on, at every later call as well.
The rounded product is in general not `v * 0.9^n`; each of its components
differs from that of `v * 0.9^n` by at most `n (|v| / 2^23 + 2^-150)` for the
component `v` of the starting velocity. -/
theorem Player_Move_friction (p : Player) (n : Nat) :
    ((∀ k, 1 ≤ k → k ≤ n → belowThreshold32 (frictionProduct32 p.velocity_ k) = false) →
      (Player.Move32^[n] p).velocity_ = frictionProduct32 p.velocity_ n) ∧
    ((∃ k, 1 ≤ k ∧ k ≤ n ∧ belowThreshold32 (frictionProduct32 p.velocity_ k) = true) →
      (Player.Move32^[n] p).velocity_ = ⟨0, 0⟩) ∧
    |(frictionProduct32 p.velocity_ n).x - p.velocity_.x * (9 / 10) ^ n| ≤
      (n : ℚ) * (|p.velocity_.x| / 2 ^ 23 + 1 / 2 ^ 150) ∧
    |(frictionProduct32 p.velocity_ n).y - p.velocity_.y * (9 / 10) ^ n| ≤
      (n : ℚ) * (|p.velocity_.y| / 2 ^ 23 + 1 / 2 ^ 150) :=
  ⟨(Player.iterate_Move32_velocity p n).1, (Player.iterate_Move32_velocity p n).2,
    friction_component_error (fun k => (frictionProduct32 p.velocity_ k).x) (fun _ => rfl) n,
    friction_component_error (fun k => (frictionProduct32 p.velocity_ k).y) (fun _ => rfl) n⟩

theorem friction_sample_1 : f32 (7549747 / 8388608) = 7549747 / 8388608 :=
  f32_eq _ _ (-1) 15099494 (by norm_num [abs_of_pos]) (by norm_num [abs_of_pos]) (by norm_num)
    (by norm_num) (by norm_num) (by norm_num)

theorem friction_sample_2 : f32 (56998679764009 / 70368744177664) = 1698693 / 2097152 :=
  f32_eq _ _ (-1) 13589544 (by norm_num [abs_of_pos]) (by norm_num [abs_of_pos]) (by norm_num)
    (by norm_num) (by norm_num) (by norm_num)

theorem friction_sample_3 : f32 (1698693 / 2097152) = 1698693 / 2097152 :=
  f32_eq _ _ (-1) 13589544 (by norm_num [abs_of_pos]) (by norm_num [abs_of_pos]) (by norm_num)
    (by norm_num) (by norm_num) (by norm_num)

theorem friction_sample_4 : sqrt32 (1698693 / 2097152) = 7549747 / 8388608 :=
  sqrt32_eq _ _ (-1) 15099494 (by norm_num) (by norm_num) (by norm_num) (by norm_num)
    (by norm_num) (by norm_num) (by norm_num)

theorem friction_sample_5 : f32 (2885557908249 / 4398046511104) = 5503765 / 8388608 :=
  f32_eq _ _ (-1) 11007530 (by norm_num [abs_of_pos]) (by norm_num [abs_of_pos]) (by norm_num)
    (by norm_num) (by norm_num) (by norm_num)

theorem friction_sample_6 : f32 (5503765 / 8388608) = 5503765 / 8388608 :=
  f32_eq _ _ (-1) 11007530 (by norm_num [abs_of_pos]) (by norm_num [abs_of_pos]) (by norm_num)
    (by norm_num) (by norm_num) (by norm_num)

theorem friction_sample_7 : sqrt32 (5503765 / 8388608) = 1698693 / 2097152 :=
  sqrt32_eq _ _ (-1) 13589544 (by norm_num) (by norm_num) (by norm_num) (by norm_num)
    (by norm_num) (by norm_num) (by norm_num)

/-- The first `Move` from velocity `(1, 0)`: the velocity becomes `(0.9f, 0)`. -/
theorem friction_sample_step_1 :
    Vec2.scale32 (f32 (f64 (9 / 10))) ⟨1, 0⟩ = ⟨7549747 / 8388608, 0⟩ ∧
    belowThreshold32 ⟨7549747 / 8388608, 0⟩ = false := by
  constructor
  · norm_num [Vec2.scale32, f32_f64_nine_tenths, f32_zero, friction_sample_1]
  · norm_num [belowThreshold32, Vec2.length32, Vec2.dot32, f32_zero, f64_tenth,
      friction_sample_2, friction_sample_3, friction_sample_4]

/-- The second `Move`: the velocity becomes `(13589544 / 2^24, 0)`. -/
theorem friction_sample_step_2 :
    Vec2.scale32 (f32 (f64 (9 / 10))) ⟨7549747 / 8388608, 0⟩ = ⟨1698693 / 2097152, 0⟩ ∧
    belowThreshold32 ⟨1698693 / 2097152, 0⟩ = false := by
  constructor
  · norm_num [Vec2.scale32, f32_f64_nine_tenths, f32_zero, friction_sample_2]
  · norm_num [belowThreshold32, Vec2.length32, Vec2.dot32, f32_zero, f64_tenth,
      friction_sample_5, friction_sample_6, friction_sample_7]

/-- C5 as stated fails: from the velocity `(1, 0)`, whose exact product
`(1, 0) * 0.9^2 = (0.81, 0)` has length `0.81 ≥ 0.1`, two calls of `Move` leave
the `float` `13589544 / 2^24 = 0.809999942779541...` in the `x` component, not
`0.81`. -/
theorem Player_Move_friction_counterexample :
    (Player.Move32^[2] ⟨⟨⟨3, 4⟩, ⟨1, 0⟩, 10, 50⟩, 0⟩).velocity_ = ⟨1698693 / 2097152, 0⟩ ∧
    Vec2.scale ((9 / 10) ^ 2) ⟨1, 0⟩ = ⟨81 / 100, 0⟩ ∧
    (Vec2.scale ((9 / 10) ^ 2) ⟨1, 0⟩).lengthLt (1 / 10) = false ∧
    (⟨1698693 / 2097152, 0⟩ : Vec2) ≠ ⟨81 / 100, 0⟩ := by
  refine ⟨?_, by norm_num [Vec2.scale], by norm_num [Vec2.scale, Vec2.lengthLt, Vec2.normSq],
    by norm_num⟩
  rw [Function.iterate_succ_apply', Function.iterate_succ_apply', Function.iterate_zero_apply,
    Player.Move32_velocity, Player.Move32_velocity]
  simp [friction_sample_step_1.1, friction_sample_step_1.2, friction_sample_step_2.1,
    friction_sample_step_2.2]

/-! ## Acceleration (`Player::Accelerate`) -/

theorem size_t_cast_of_nonneg {t : Int} (h0 : 0 ≤ t) (ht : t < 2 ^ 63) :
    size_t_cast t = t.toNat := by
  unfold size_t_cast
  rw [Int.emod_eq_of_lt h0 (lt_trans ht (by norm_num))]

theorem numEnemySpawn_of_nonneg {t : Int} (h0 : 0 ≤ t) (ht : t < 2 ^ 63) :
    (numEnemySpawn t : Int) = 1 + t / 30000 := by
  unfold numEnemySpawn
  rw [size_t_cast_of_nonneg h0 ht]
  push_cast
  rw [Int.toNat_of_nonneg h0]

theorem difficultyAt_of_nonneg {t : Int} (h0 : 0 ≤ t) (ht : t < 2 ^ 63) :
    (difficultyAt t : Int) = min 5 (1 + t / 20000) := by
  unfold difficultyAt
  rw [size_t_cast_of_nonneg h0 ht]
  dsimp only
  have hc : ((t.toNat / 20000 : Nat) : Int) = t / 20000 := by
    push_cast
    rw [Int.toNat_of_nonneg h0]
  split
  · next h =>
    have : (5 : Int) < 1 + t / 20000 := by rw [← hc]; exact_mod_cast h
    rw [min_eq_left (le_of_lt this)]
    rfl
  · next h =>
    have : 1 + t / 20000 ≤ (5 : Int) := by rw [← hc]; exact_mod_cast (Nat.le_of_not_lt h)
    rw [min_eq_right this]
    push_cast
    rw [Int.toNat_of_nonneg h0]

theorem difficultyAt_range (t : Int) : 1 ≤ difficultyAt t ∧ difficultyAt t ≤ 5 := by
  unfold difficultyAt
  dsimp only
  split <;> omega

theorem Engine.SpawnEnemy_of_wave (env : Env) (s : Engine)
    (hw : duration_cast_ms env (env.now2 - s.last_enemy_wave_) > 5000) :
    s.SpawnEnemy env =
      (spawnLoop env (difficultyAt (duration_cast_ms env (env.now1 - s.begin_time_)))
        (numEnemySpawn (duration_cast_ms env (env.now1 - s.begin_time_))) 0 s).map
        (fun s' => { s' with last_enemy_wave_ := env.now3 }) := by
  unfold Engine.SpawnEnemy
  dsimp only
  rw [if_pos hw]

theorem Engine.SpawnEnemy_of_no_wave (env : Env) (s : Engine)
    (hw : ¬ duration_cast_ms env (env.now2 - s.last_enemy_wave_) > 5000) :
    s.SpawnEnemy env = some s := by
  unfold Engine.SpawnEnemy
  dsimp only
  rw [if_neg hw]

/-- The spawn loop, on a non-empty spawn list, appends `n` enemies; each sits
on a spawn point chosen by `rand() % size`, at rest, with radius 10, damage 10,
and health and level drawn from the next two `rand()` results. -/
theorem spawnLoop_spec (env : Env) (d : Nat) (n : Nat) :
    ∀ (k : Nat) (s : Engine), s.enemy_spawns_ ≠ [] →
      ∃ new : List Enemy,
        spawnLoop env d n k s = some { s with enemies_ := s.enemies_ ++ new } ∧
        new.length = n ∧
        ∀ e ∈ new, ∃ j,
          s.enemy_spawns_[env.rand j % s.enemy_spawns_.length]? = some e.position_ ∧
          e.velocity_ = ⟨0, 0⟩ ∧ e.radius_ = 10 ∧ e.damage_ = 10 ∧
          e.hit_points_ = spawnHealth env d (env.rand (j + 1)) ∧
          e.level_ = spawnLevel env d (env.rand (j + 2)) := by
  induction n with
  | zero =>
    intro k s _
    exact ⟨[], by simp [spawnLoop], rfl, by simp⟩
  | succ m ih =>
    intro k s hs
    have hlen : s.enemy_spawns_.length ≠ 0 := by
      simpa [List.length_eq_zero] using hs
    have hidx : env.rand k % s.enemy_spawns_.length < s.enemy_spawns_.length :=
      Nat.mod_lt _ (Nat.pos_of_ne_zero hlen)
    have hget : s.enemy_spawns_[env.rand k % s.enemy_spawns_.length]? =
        some (s.enemy_spawns_[env.rand k % s.enemy_spawns_.length]) :=
      List.getElem?_eq_getElem hidx
    obtain ⟨new, hrun, hnew, hall⟩ := ih (k + 3)
      (s.AddEnemy (s.enemy_spawns_[env.rand k % s.enemy_spawns_.length]) 10
        (spawnHealth env d (env.rand (k + 1))) 10 (spawnLevel env d (env.rand (k + 2)))) hs
    refine ⟨⟨⟨s.enemy_spawns_[env.rand k % s.enemy_spawns_.length], ⟨0, 0⟩, 10,
      spawnHealth env d (env.rand (k + 1))⟩, 10, spawnLevel env d (env.rand (k + 2))⟩ :: new,
      ?_, by simp [hnew], ?_⟩
    · unfold spawnLoop
      rw [if_neg hlen]
      dsimp only
      rw [hget]
      dsimp only
      rw [hrun]
      simp [Engine.AddEnemy]
    · intro e he
      rcases List.mem_cons.1 he with rfl | he'
      · exact ⟨k, hget, rfl, rfl, rfl, rfl, rfl⟩
      · exact hall e he'

theorem truncToInt_of_nonneg {q : ℚ} (hq : 0 ≤ q) : truncToInt q = ⌊q⌋ := by
  unfold truncToInt
  rw [Int.tdiv_eq_ediv (Rat.num_nonneg.2 hq) (Int.natCast_nonneg _), Rat.floor_def]

/-- The literal `0.1f` is `13421773 / 2^27`, a little above `0.1`. -/
theorem f32_tenth : f32 (1 / 10) = 13421773 / 134217728 :=
  f32_eq _ _ (-4) 13421773 (by norm_num [abs_of_pos]) (by norm_num [abs_of_pos]) (by norm_num)
    (by norm_num) (by norm_num) (by norm_num)

/-- The literal `0.18f` is `12079596 / 2^26`, a little above `0.18`. -/
theorem f32_eighteen_hundredths : f32 (18 / 100) = 3019899 / 16777216 :=
  f32_eq _ _ (-3) 12079596 (by norm_num [abs_of_pos]) (by norm_num [abs_of_pos]) (by norm_num)
    (by norm_num) (by norm_num) (by norm_num)

theorem f32_one : f32 1 = 1 := by simpa using f32_natCast 1 (by norm_num)

/-- The quotient `static_cast<float>(rand()) / RAND_MAX` lies in `[0, 1]`. -/
theorem randRatio_bounds (env : Env) (r : Nat) (hR : 0 < env.RAND_MAX) (hr : r ≤ env.RAND_MAX) :
    0 ≤ randRatio env r ∧ randRatio env r ≤ 1 := by
  have h1 : (1 : ℚ) ≤ f32 (env.RAND_MAX : ℚ) := by
    rw [← f32_one]
    exact f32_mono (by norm_num) (by exact_mod_cast hR)
  have h2 : f32 (r : ℚ) ≤ f32 (env.RAND_MAX : ℚ) :=
    f32_mono (by positivity) (by exact_mod_cast hr)
  have h3 : (0 : ℚ) ≤ f32 (r : ℚ) := f32_nonneg (by positivity)
  have hq0 : (0 : ℚ) ≤ f32 (r : ℚ) / f32 (env.RAND_MAX : ℚ) := div_nonneg h3 (by linarith)
  have hq1 : f32 (r : ℚ) / f32 (env.RAND_MAX : ℚ) ≤ 1 := (div_le_one (by linarith)).2 h2
  unfold randRatio
  refine ⟨f32_nonneg hq0, ?_⟩
  rw [← f32_one]
  exact f32_mono hq0 hq1

/-- The product `difficulty * ratio`, rounded, lies in `[0, difficulty]`. -/
theorem difficulty_ratio_bounds (env : Env) (d r : Nat) (hd : d ≤ 5) (hR : 0 < env.RAND_MAX)
    (hr : r ≤ env.RAND_MAX) :
    0 ≤ f32 (f32 (d : ℚ) * randRatio env r) ∧ f32 (f32 (d : ℚ) * randRatio env r) ≤ (d : ℚ) := by
  obtain ⟨h0, h1⟩ := randRatio_bounds env r hR hr
  have hdq : f32 (d : ℚ) = d := f32_natCast d (by omega)
  have hd0 : (0 : ℚ) ≤ (d : ℚ) := by positivity
  rw [hdq]
  refine ⟨f32_nonneg (mul_nonneg hd0 h0), ?_⟩
  calc f32 ((d : ℚ) * randRatio env r) ≤ f32 (d : ℚ) :=
        f32_mono (mul_nonneg hd0 h0) (by nlinarith)
    _ = d := hdq

theorem spawnHealth_bounds (env : Env) (d r : Nat) (hd : d ≤ 5) (hR : 0 < env.RAND_MAX)
    (hr : r ≤ env.RAND_MAX) :
    0 ≤ spawnHealth env d r ∧ spawnHealth env d r ≤ 20 * (d : Int) := by
  obtain ⟨h0, h1⟩ := difficulty_ratio_bounds env d r hd hR hr
  have hq0 : (0 : ℚ) ≤ f32 (f32 (f32 (d : ℚ) * randRatio env r) * 20) :=
    f32_nonneg (by positivity)
  have hexact : f32 (((d * 20 : Nat) : ℚ)) = ((d * 20 : Nat) : ℚ) := f32_natCast _ (by omega)
  have hq1 : f32 (f32 (f32 (d : ℚ) * randRatio env r) * 20) ≤ ((20 * (d : Int) : Int) : ℚ) := by
    calc f32 (f32 (f32 (d : ℚ) * randRatio env r) * 20)
        ≤ f32 (((d * 20 : Nat) : ℚ)) :=
          f32_mono (by positivity) (by push_cast; linarith)
      _ = ((20 * (d : Int) : Int) : ℚ) := by
          rw [hexact]
          push_cast
          ring
  unfold spawnHealth
  rw [truncToInt_of_nonneg hq0]
  refine ⟨Int.floor_nonneg.2 hq0, ?_⟩
  have := le_trans (Int.floor_le _) hq1
  exact_mod_cast this

/-- The values of the largest level for the difficulties `0` to `5`. -/
theorem spawnLevelMax_values :
    spawnLevelMax 0 = 13421773 / 134217728 ∧ spawnLevelMax 1 = 9395241 / 33554432 ∧
    spawnLevelMax 2 = 15435039 / 33554432 ∧ spawnLevelMax 3 = 10737419 / 16777216 ∧
    spawnLevelMax 4 = 6878659 / 8388608 ∧ spawnLevelMax 5 = 1 := by
  have a0 : f32 (13421773 / 134217728) = 13421773 / 134217728 :=
    f32_eq _ _ (-4) 13421773 (by norm_num [abs_of_pos]) (by norm_num [abs_of_pos]) (by norm_num)
      (by norm_num) (by norm_num) (by norm_num)
  have a1 : f32 (3019899 / 16777216) = 3019899 / 16777216 :=
    f32_eq _ _ (-3) 12079596 (by norm_num [abs_of_pos]) (by norm_num [abs_of_pos]) (by norm_num)
      (by norm_num) (by norm_num) (by norm_num)
  have b1 : f32 (37580965 / 134217728) = 9395241 / 33554432 :=
    f32_eq _ _ (-2) 9395241 (by norm_num [abs_of_pos]) (by norm_num [abs_of_pos]) (by norm_num)
      (by norm_num) (by norm_num) (by norm_num)
  have a2 : f32 (3019899 / 8388608) = 3019899 / 8388608 :=
    f32_eq _ _ (-2) 12079596 (by norm_num [abs_of_pos]) (by norm_num [abs_of_pos]) (by norm_num)
      (by norm_num) (by norm_num) (by norm_num)
  have b2 : f32 (61740157 / 134217728) = 15435039 / 33554432 :=
    f32_eq _ _ (-2) 15435039 (by norm_num [abs_of_pos]) (by norm_num [abs_of_pos]) (by norm_num)
      (by norm_num) (by norm_num) (by norm_num)
  have a3 : f32 (9059697 / 16777216) = 9059697 / 16777216 :=
    f32_eq _ _ (-1) 9059697 (by norm_num [abs_of_pos]) (by norm_num [abs_of_pos]) (by norm_num)
      (by norm_num) (by norm_num) (by norm_num)
  have b3 : f32 (85899349 / 134217728) = 10737419 / 16777216 :=
    f32_eq _ _ (-1) 10737419 (by norm_num [abs_of_pos]) (by norm_num [abs_of_pos]) (by norm_num)
      (by norm_num) (by norm_num) (by norm_num)
  have a4 : f32 (3019899 / 4194304) = 3019899 / 4194304 :=
    f32_eq _ _ (-1) 12079596 (by norm_num [abs_of_pos]) (by norm_num [abs_of_pos]) (by norm_num)
      (by norm_num) (by norm_num) (by norm_num)
  have b4 : f32 (110058541 / 134217728) = 6878659 / 8388608 :=
    f32_eq _ _ (-1) 13757318 (by norm_num [abs_of_pos]) (by norm_num [abs_of_pos]) (by norm_num)
      (by norm_num) (by norm_num) (by norm_num)
  have a5 : f32 (15099495 / 16777216) = 15099495 / 16777216 :=
    f32_eq _ _ (-1) 15099495 (by norm_num [abs_of_pos]) (by norm_num [abs_of_pos]) (by norm_num)
      (by norm_num) (by norm_num) (by norm_num)
  have b5 : f32 (134217733 / 134217728) = 1 :=
    f32_eq _ _ 0 8388608 (by norm_num [abs_of_pos]) (by norm_num [abs_of_pos]) (by norm_num)
      (by norm_num) (by norm_num) (by norm_num)
  unfold spawnLevelMax
  rw [f32_tenth, f32_eighteen_hundredths]
  refine ⟨?_, ?_, ?_, ?_, ?_, ?_⟩
  · norm_num [f32_zero, a0]
  · norm_num [a1, b1]
  · norm_num [a2, b2]
  · norm_num [a3, b3]
  · norm_num [a4, b4]
  · norm_num [a5, b5]

/-- The largest level exceeds `0.1 + 0.18 d` by less than `2^-24`. -/
theorem spawnLevelMax_le (d : Nat) (hd : d ≤ 5) :
    spawnLevelMax d ≤ 1 / 10 + 18 / 100 * (d : ℚ) + 1 / 2 ^ 24 := by
  obtain ⟨h0, h1, h2, h3, h4, h5⟩ := spawnLevelMax_values
  interval_cases d
  · rw [h0]; norm_num
  · rw [h1]; norm_num
  · rw [h2]; norm_num
  · rw [h3]; norm_num
  · rw [h4]; norm_num
  · rw [h5]; norm_num

theorem spawnLevel_bounds (env : Env) (d r : Nat) (hd : d ≤ 5) (hR : 0 < env.RAND_MAX)
    (hr : r ≤ env.RAND_MAX) :
    1 / 10 ≤ spawnLevel env d r ∧ spawnLevel env d r ≤ spawnLevelMax d := by
  obtain ⟨h0, h1⟩ := difficulty_ratio_bounds env d r hd hR hr
  have hc : (0 : ℚ) ≤ f32 (18 / 100) := f32_nonneg (by norm_num)
  have ht : (0 : ℚ) ≤ f32 (1 / 10) := f32_nonneg (by norm_num)
  have hin0 : (0 : ℚ) ≤ f32 (f32 (f32 (d : ℚ) * randRatio env r) * f32 (18 / 100)) :=
    f32_nonneg (mul_nonneg h0 hc)
  have hin1 : f32 (f32 (f32 (d : ℚ) * randRatio env r) * f32 (18 / 100)) ≤
      f32 ((d : ℚ) * f32 (18 / 100)) :=
    f32_mono (mul_nonneg h0 hc) (mul_le_mul_of_nonneg_right h1 hc)
  have hidem : f32 (f32 (1 / 10)) = f32 (1 / 10) := by
    rw [f32_tenth]
    exact f32_eq _ _ (-4) 13421773 (by norm_num [abs_of_pos]) (by norm_num [abs_of_pos])
      (by norm_num) (by norm_num) (by norm_num) (by norm_num)
  unfold spawnLevel spawnLevelMax
  constructor
  · calc (1 : ℚ) / 10 ≤ f32 (1 / 10) := by rw [f32_tenth]; norm_num
      _ = f32 (f32 (1 / 10)) := hidem.symm
      _ ≤ _ := f32_mono ht (by linarith)
  · exact f32_mono (by linarith) (by linarith)

/-- C8. A wave: with a non-empty spawn list and an elapsed game time
`t = duration.count()` (milliseconds, non-negative, within the signed 64-bit
range), when more than 5000 ms have passed since the last wave `SpawnEnemy`
appends exactly `1 + ⌊t / 30000⌋` enemies to the enemy collection and sets the
last-wave marker to the clock reading taken after the loop, changing nothing
else; otherwise it leaves the whole engine, marker included, unchanged. -/
theorem SpawnEnemy_wave_count (env : Env) (s : Engine) (hs : s.enemy_spawns_ ≠ [])
    (h0 : 0 ≤ duration_cast_ms env (env.now1 - s.begin_time_))
    (ht : duration_cast_ms env (env.now1 - s.begin_time_) < 2 ^ 63) :
    (duration_cast_ms env (env.now2 - s.last_enemy_wave_) > 5000 →
      ∃ new : List Enemy,
        s.SpawnEnemy env =
          some { s with enemies_ := s.enemies_ ++ new, last_enemy_wave_ := env.now3 } ∧
        (new.length : Int) = 1 + duration_cast_ms env (env.now1 - s.begin_time_) / 30000) ∧
    (¬ duration_cast_ms env (env.now2 - s.last_enemy_wave_) > 5000 →
      s.SpawnEnemy env = some s) := by
  refine ⟨fun hw => ?_, fun hw => Engine.SpawnEnemy_of_no_wave env s hw⟩
  obtain ⟨new, hrun, hlen, -⟩ := spawnLoop_spec env
    (difficultyAt (duration_cast_ms env (env.now1 - s.begin_time_)))
    (numEnemySpawn (duration_cast_ms env (env.now1 - s.begin_time_))) 0 s hs
  refine ⟨new, ?_, ?_⟩
  · rw [Engine.SpawnEnemy_of_wave env s hw, hrun]
    rfl
  · rw [hlen, numEnemySpawn_of_nonneg h0 ht]

/-- C9, amended.  Ranges of a wave: with a non-empty spawn list, `RAND_MAX > 0`,
every `rand()` result in `[0, RAND_MAX]` and an elapsed game time `t ≥ 0`,
`SpawnEnemy` returns, and each enemy it appends has health in `[0, 20 d]` and
level in `[0.1, M d]`, where `d = min 5 (1 + ⌊t / 20000⌋)` and `M d` is the
`float` result of `0.1f + d * 0.18f`, which is above `0.1 + 0.18 d` for
`d = 1, .., 4` but by less than `2^-24`. -/
theorem SpawnEnemy_ranges (env : Env) (s : Engine) (hs : s.enemy_spawns_ ≠ [])
    (hR : 0 < env.RAND_MAX) (hrand : ∀ k, env.rand k ≤ env.RAND_MAX)
    (h0 : 0 ≤ duration_cast_ms env (env.now1 - s.begin_time_))
    (ht : duration_cast_ms env (env.now1 - s.begin_time_) < 2 ^ 63) :
    ∃ (s' : Engine) (new : List Enemy),
      s.SpawnEnemy env = some s' ∧ s'.enemies_ = s.enemies_ ++ new ∧
      (duration_cast_ms env (env.now2 - s.last_enemy_wave_) > 5000 →
        new.length = numEnemySpawn (duration_cast_ms env (env.now1 - s.begin_time_))) ∧
      (difficultyAt (duration_cast_ms env (env.now1 - s.begin_time_)) : Int) =
        min 5 (1 + duration_cast_ms env (env.now1 - s.begin_time_) / 20000) ∧
      ∀ e ∈ new,
        0 ≤ e.hit_points_ ∧
        e.hit_points_ ≤ 20 * min 5 (1 + duration_cast_ms env (env.now1 - s.begin_time_) / 20000) ∧
        1 / 10 ≤ e.level_ ∧
        e.level_ ≤ spawnLevelMax (difficultyAt (duration_cast_ms env (env.now1 - s.begin_time_))) ∧
        e.level_ ≤ 1 / 10 + 18 / 100 *
          ((min 5 (1 + duration_cast_ms env (env.now1 - s.begin_time_) / 20000) : Int) : ℚ) +
          1 / 2 ^ 24 := by
  have hd := difficultyAt_of_nonneg h0 ht
  have hd5 := (difficultyAt_range (duration_cast_ms env (env.now1 - s.begin_time_))).2
  by_cases hw : duration_cast_ms env (env.now2 - s.last_enemy_wave_) > 5000
  · obtain ⟨new, hrun, hlen, hall⟩ := spawnLoop_spec env
      (difficultyAt (duration_cast_ms env (env.now1 - s.begin_time_)))
      (numEnemySpawn (duration_cast_ms env (env.now1 - s.begin_time_))) 0 s hs
    refine ⟨_, new, by rw [Engine.SpawnEnemy_of_wave env s hw, hrun]; rfl, rfl,
      fun _ => hlen, hd, ?_⟩
    intro e he
    obtain ⟨j, -, -, -, -, hhp, hlv⟩ := hall e he
    rw [← hd, hhp, hlv]
    obtain ⟨a, b⟩ := spawnHealth_bounds env
      (difficultyAt (duration_cast_ms env (env.now1 - s.begin_time_))) _ hd5 hR (hrand (j + 1))
    obtain ⟨c, e'⟩ := spawnLevel_bounds env
      (difficultyAt (duration_cast_ms env (env.now1 - s.begin_time_))) _ hd5 hR (hrand (j + 2))
    refine ⟨a, b, c, e', ?_⟩
    have := spawnLevelMax_le _ hd5
    push_cast
    linarith
  · exact ⟨s, [], Engine.SpawnEnemy_of_no_wave env s hw, by simp, fun h => absurd h hw, hd,
      by simp⟩

theorem sample_duration :
    duration_cast_ms sampleEnv (sampleEnv.now1 - sampleEngine.begin_time_) = 65000 := by
  decide

theorem sample_since_wave :
    duration_cast_ms sampleEnv (sampleEnv.now2 - sampleEngine.last_enemy_wave_) > 5000 := by
  decide

/-- C8 at a concrete input: 65 s into the session and 6 s after the last wave,
exactly 3 enemies are appended. -/
theorem SpawnEnemy_wave_count_witness :
    ∃ new : List Enemy,
      sampleEngine.SpawnEnemy sampleEnv =
        some { sampleEngine with
          enemies_ := sampleEngine.enemies_ ++ new, last_enemy_wave_ := sampleEnv.now3 } ∧
      (new.length : Int) = 3 := by
  obtain ⟨new, hrun, hlen⟩ :=
    (SpawnEnemy_wave_count sampleEnv sampleEngine (by simp [sampleEngine])
      (by rw [sample_duration]; decide) (by rw [sample_duration]; decide)).1 sample_since_wave
  refine ⟨new, hrun, ?_⟩
  rw [hlen, sample_duration]
  decide

/-- C9 at a concrete input: 65 s into the session the wave has 3 enemies, each
with health in `[0, 80]` and level in `[0.1, 0.8200000524520874]`, the upper
end being the `float` `13757318 / 2^24`. -/
theorem SpawnEnemy_ranges_witness :
    ∃ (s' : Engine) (new : List Enemy),
      sampleEngine.SpawnEnemy sampleEnv = some s' ∧
      s'.enemies_ = sampleEngine.enemies_ ++ new ∧ new.length = 3 ∧
      ∀ e ∈ new, 0 ≤ e.hit_points_ ∧ e.hit_points_ ≤ 80 ∧
        1 / 10 ≤ e.level_ ∧ e.level_ ≤ 6878659 / 8388608 := by
  obtain ⟨s', new, hrun, henemies, hlen, hd, hall⟩ :=
    SpawnEnemy_ranges sampleEnv sampleEngine (by simp [sampleEngine]) (by decide)
      (fun k => Nat.le_of_lt_succ (Nat.mod_lt _ (by decide)))
      (by rw [sample_duration]; decide) (by rw [sample_duration]; decide)
  refine ⟨s', new, hrun, henemies, ?_, ?_⟩
  · rw [hlen sample_since_wave, sample_duration]
    decide
  · intro e he
    obtain ⟨h1, h2, h3, h4, -⟩ := hall e he
    rw [sample_duration] at h2 h4 hd
    have h5 : min (5 : Int) (1 + 65000 / 20000) = 4 := by decide
    rw [h5] at h2 hd
    have hd4 : difficultyAt 65000 = 4 := by exact_mod_cast hd
    rw [hd4, spawnLevelMax_values.2.2.2.2.1] at h4
    exact ⟨h1, by omega, h3, h4⟩

/-- The surroundings of the sample session with a `rand()` that returns
`RAND_MAX` at every call: the level drawn at difficulty 4. -/
theorem spawnLevel_sample :
    spawnLevel { sampleEnv with rand := fun _ => 32767 } 4 32767 = 6878659 / 8388608 := by
  have hr : f32 (32767 : ℚ) = 32767 := by simpa using f32_natCast 32767 (by norm_num)
  have h4 : f32 (4 : ℚ) = 4 := by simpa using f32_natCast 4 (by norm_num)
  have hm := spawnLevelMax_values.2.2.2.2.1
  unfold spawnLevelMax at hm
  unfold spawnLevel randRatio
  simp only [sampleEnv, Nat.cast_ofNat, hr, h4]
  rw [div_self (by norm_num), f32_one, mul_one, h4]
  exact hm

/-- C9 as stated fails: 65 s into the session (`d = 4`), when `rand()` returns
`RAND_MAX`, every enemy of the wave gets the level `0.8200000524520874`, above
the bound `0.1 + 0.18 * 4 = 0.82` of the claim. -/
theorem SpawnEnemy_ranges_counterexample :
    ∃ (s' : Engine) (new : List Enemy),
      sampleEngine.SpawnEnemy { sampleEnv with rand := fun _ => 32767 } = some s' ∧
      s'.enemies_ = sampleEngine.enemies_ ++ new ∧ new.length = 3 ∧
      ∀ e ∈ new, e.level_ = 6878659 / 8388608 ∧ ¬ e.level_ ≤ 82 / 100 := by
  have hdur : duration_cast_ms { sampleEnv with rand := fun _ => 32767 }
      (sampleEnv.now1 - sampleEngine.begin_time_) = 65000 := by decide
  have hw : duration_cast_ms { sampleEnv with rand := fun _ => 32767 }
      (sampleEnv.now2 - sampleEngine.last_enemy_wave_) > 5000 := by decide
  obtain ⟨new, hrun, hlen, hall⟩ := spawnLoop_spec { sampleEnv with rand := fun _ => 32767 }
    (difficultyAt 65000) (numEnemySpawn 65000) 0 sampleEngine (by simp [sampleEngine])
  have hd4 : difficultyAt 65000 = 4 := by decide
  have hn3 : numEnemySpawn 65000 = 3 := by decide
  refine ⟨{ sampleEngine with
    enemies_ := sampleEngine.enemies_ ++ new, last_enemy_wave_ := sampleEnv.now3 }, new, ?_, rfl,
    by rw [hlen, hn3], ?_⟩
  · rw [Engine.SpawnEnemy_of_wave _ sampleEngine hw]
    simp only [hdur, hrun]
    rfl
  · intro e he
    obtain ⟨j, -, -, -, -, -, hlv⟩ := hall e he
    rw [hd4] at hlv
    have : e.level_ = 6878659 / 8388608 := by
      rw [hlv]
      exact spawnLevel_sample
    rw [this]
    exact ⟨rfl, by norm_num⟩

/-- C10. The enemies-per-wave count and the difficulty tier of `SpawnEnemy` are
non-decreasing in the elapsed game time `t` (milliseconds, non-negative, within
the signed 64-bit range of the count); the count is `1 + ⌊t / 30000⌋`, the tier
is `min 5 (1 + ⌊t / 20000⌋)`, an integer between 1 and 5. -/
theorem spawn_scaling_monotone (t t' : Int) (h0 : 0 ≤ t) (hle : t ≤ t') (ht' : t' < 2 ^ 63) :
    numEnemySpawn t ≤ numEnemySpawn t' ∧
    difficultyAt t ≤ difficultyAt t' ∧
    (numEnemySpawn t : Int) = 1 + t / 30000 ∧
    (difficultyAt t : Int) = min 5 (1 + t / 20000) ∧
    1 ≤ difficultyAt t ∧ difficultyAt t ≤ 5 := by
  have ht : t < 2 ^ 63 := lt_of_le_of_lt hle ht'
  have h0' : 0 ≤ t' := le_trans h0 hle
  have hnum : (numEnemySpawn t : Int) ≤ numEnemySpawn t' := by
    rw [numEnemySpawn_of_nonneg h0 ht, numEnemySpawn_of_nonneg h0' ht']
    have := Int.ediv_le_ediv (by norm_num : (0 : Int) < 30000) hle
    omega
  have hdiff : (difficultyAt t : Int) ≤ difficultyAt t' := by
    rw [difficultyAt_of_nonneg h0 ht, difficultyAt_of_nonneg h0' ht']
    have := Int.ediv_le_ediv (by norm_num : (0 : Int) < 20000) hle
    exact min_le_min le_rfl (by omega)
  exact ⟨by exact_mod_cast hnum, by exact_mod_cast hdiff, numEnemySpawn_of_nonneg h0 ht,
    difficultyAt_of_nonneg h0 ht, (difficultyAt_range t).1, (difficultyAt_range t).2⟩

/-- C10 at concrete times: between 25 s and 65 s the count goes from 1 to 3
and the tier from 2 to 4. -/
theorem spawn_scaling_monotone_witness :
    numEnemySpawn 25000 ≤ numEnemySpawn 65000 ∧
    difficultyAt 25000 ≤ difficultyAt 65000 ∧
    (numEnemySpawn 25000 : Int) = 1 + 25000 / 30000 ∧
    (difficultyAt 25000 : Int) = min 5 (1 + 25000 / 20000) ∧
    1 ≤ difficultyAt 25000 ∧ difficultyAt 25000 ≤ 5 :=
  spawn_scaling_monotone 25000 65000 (by decide) (by decide) (by decide)

/-! ## Bullet–enemy collisions (`Engine::HandleEnemyBulletCollision`) -/

theorem size_t_dec_zero : size_t_dec 0 = 2 ^ 64 - 1 := by
  norm_num [size_t_dec]

theorem size_t_dec_succ (n : Nat) (h : n + 1 < 2 ^ 64) : size_t_dec (n + 1) = n := by
  unfold size_t_dec
  omega

theorem getElem?_append_cons_length {α : Type} (l : List α) (b : α) (post : List α) :
    (l ++ b :: post)[l.length]? = some b := by
  induction l with
  | nil => simp
  | cons a t ih => simpa using ih

theorem eraseIdx_append_cons_length {α : Type} (l : List α) (b : α) (post : List α) :
    (l ++ b :: post).eraseIdx l.length = l ++ post := by
  induction l with
  | nil => rfl
  | cons a t ih => simp [ih]

theorem sweepBullets_stop (ops : EntityOps) (fuel idx : Nat) (s : Engine)
    (h : ¬ idx < s.bullets_.length) : sweepBullets ops (fuel + 1) idx s = some s := by
  unfold sweepBullets
  rw [dif_neg h]

theorem sweepBullets_step (ops : EntityOps) (fuel idx : Nat) (s : Engine) (b : Bullet)
    (h : s.bullets_[idx]? = some b) :
    sweepBullets ops (fuel + 1) idx s =
      if ops.IsDead b.toEntity then
        sweepBullets ops fuel (size_t_dec idx)
          { s.explodeIfDead ops b with bullets_ := s.bullets_.eraseIdx idx }
      else sweepBullets ops fuel (size_t_dec idx) s := by
  obtain ⟨hlt, hget⟩ := List.getElem?_eq_some.1 h
  rw [sweepBullets, dif_pos hlt]
  simp only [hget]
  unfold Engine.explodeIfDead
  cases hd : ops.IsDead b.toEntity
  · simp
  · cases he : b.is_explosive_
    · simp
    · simp [Engine.Explode]

theorem sweepEnemies_stop (ops : EntityOps) (fuel idx : Nat) (s : Engine)
    (h : ¬ idx < s.enemies_.length) : sweepEnemies ops (fuel + 1) idx s = some s := by
  unfold sweepEnemies
  rw [dif_neg h]

theorem sweepEnemies_step (ops : EntityOps) (fuel idx : Nat) (s : Engine) (e : Enemy)
    (h : s.enemies_[idx]? = some e) :
    sweepEnemies ops (fuel + 1) idx s =
      if ops.IsDead e.toEntity then
        sweepEnemies ops fuel (size_t_dec idx)
          { s with enemies_ := s.enemies_.eraseIdx idx, score_ := s.score_ + 10 }
      else sweepEnemies ops fuel (size_t_dec idx) s := by
  obtain ⟨hlt, hget⟩ := List.getElem?_eq_some.1 h
  rw [sweepEnemies, dif_pos hlt]
  simp only [hget]

theorem Engine.explodeIfDead_bullets (ops : EntityOps) (s : Engine) (b : Bullet)
    (bs : List Bullet) :
    Engine.explodeIfDead ops { s with bullets_ := bs } b =
      { Engine.explodeIfDead ops s b with bullets_ := bs } := by
  unfold Engine.explodeIfDead
  split <;> rfl

theorem foldl_explodeIfDead_bullets (ops : EntityOps) (l : List Bullet) (s : Engine)
    (bs : List Bullet) :
    l.foldl (Engine.explodeIfDead ops) { s with bullets_ := bs } =
      { l.foldl (Engine.explodeIfDead ops) s with bullets_ := bs } := by
  induction l generalizing s with
  | nil => rfl
  | cons b r ih =>
    simp only [List.foldl]
    rw [Engine.explodeIfDead_bullets, ih]

theorem Engine.explodeIfDead_alive (ops : EntityOps) (s : Engine) (b : Bullet)
    (h : ops.IsDead b.toEntity = false) : Engine.explodeIfDead ops s b = s := by
  simp [Engine.explodeIfDead, h]

/-- The bullet loop, started below a prefix `rpre.reverse` of the bullets that
is still to be visited: the dead bullets of the prefix are erased and their
explosions applied, in the order visited. -/
theorem sweepBullets_spec (ops : EntityOps) :
    ∀ (rpre post : List Bullet) (s : Engine) (fuel : Nat),
      s.bullets_ = rpre.reverse ++ post → s.bullets_.length < 2 ^ 64 → rpre.length < fuel →
      sweepBullets ops fuel (size_t_dec rpre.length) s =
        some { rpre.foldl (Engine.explodeIfDead ops) s with
          bullets_ := rpre.reverse.filter (fun b => !ops.IsDead b.toEntity) ++ post } := by
  intro rpre
  induction rpre with
  | nil =>
    intro post s fuel hb hlen hfuel
    obtain ⟨f, rfl⟩ : ∃ f, fuel = f + 1 := ⟨fuel - 1, by omega⟩
    have hstop : ¬ size_t_dec ([] : List Bullet).length < s.bullets_.length := by
      rw [List.length_nil, size_t_dec_zero]
      omega
    rw [sweepBullets_stop ops f _ s hstop]
    simp only [List.reverse_nil, List.nil_append] at hb
    simp only [List.foldl, List.reverse_nil, List.filter_nil, List.nil_append, ← hb]
  | cons b r ih =>
    intro post s fuel hb hlen hfuel
    obtain ⟨f, rfl⟩ : ∃ f, fuel = f + 1 := ⟨fuel - 1, by omega⟩
    have hb' : s.bullets_ = r.reverse ++ b :: post := by
      rw [hb]
      simp
    have hlen' : r.length + 1 < 2 ^ 64 := by
      rw [hb'] at hlen
      simp only [List.length_append, List.length_reverse, List.length_cons] at hlen
      omega
    have hget : s.bullets_[r.length]? = some b := by
      rw [hb']
      simpa using getElem?_append_cons_length r.reverse b post
    rw [List.length_cons, size_t_dec_succ r.length hlen', sweepBullets_step ops f _ s b hget]
    have hfuel' : r.length < f := by
      simpa using hfuel
    cases hd : ops.IsDead b.toEntity
    · rw [if_neg (by simp)]
      rw [ih (b :: post) s f hb' hlen hfuel']
      simp [List.filter_append, hd, Engine.explodeIfDead_alive ops s b hd]
    · rw [if_pos rfl]
      have herase : s.bullets_.eraseIdx r.length = r.reverse ++ post := by
        rw [hb']
        simpa using eraseIdx_append_cons_length r.reverse b post
      rw [herase]
      have hlen2 : (r.reverse ++ post).length < 2 ^ 64 := by
        rw [hb'] at hlen
        simp only [List.length_append, List.length_reverse, List.length_cons] at hlen ⊢
        omega
      rw [ih post { s.explodeIfDead ops b with bullets_ := r.reverse ++ post } f rfl hlen2 hfuel']
      rw [foldl_explodeIfDead_bullets]
      simp [List.filter_append, hd]

/-- The enemy loop, started below a prefix `rpre.reverse` of the enemies that
is still to be visited: the dead enemies of the prefix are erased and the score
grows by 10 for each. -/
theorem sweepEnemies_spec (ops : EntityOps) :
    ∀ (rpre post : List Enemy) (s : Engine) (fuel : Nat),
      s.enemies_ = rpre.reverse ++ post → s.enemies_.length < 2 ^ 64 → rpre.length < fuel →
      sweepEnemies ops fuel (size_t_dec rpre.length) s =
        some { s with
          enemies_ := rpre.reverse.filter (fun e => !ops.IsDead e.toEntity) ++ post
          score_ := s.score_ + 10 * ((rpre.reverse.filter (fun e => ops.IsDead e.toEntity)).length : Int) } := by
  intro rpre
  induction rpre with
  | nil =>
    intro post s fuel hb hlen hfuel
    obtain ⟨f, rfl⟩ : ∃ f, fuel = f + 1 := ⟨fuel - 1, by omega⟩
    have hstop : ¬ size_t_dec ([] : List Enemy).length < s.enemies_.length := by
      rw [List.length_nil, size_t_dec_zero]
      omega
    rw [sweepEnemies_stop ops f _ s hstop]
    simp only [List.reverse_nil, List.nil_append] at hb
    simp [← hb]
  | cons e r ih =>
    intro post s fuel hb hlen hfuel
    obtain ⟨f, rfl⟩ : ∃ f, fuel = f + 1 := ⟨fuel - 1, by omega⟩
    have hb' : s.enemies_ = r.reverse ++ e :: post := by
      rw [hb]
      simp
    have hlen' : r.length + 1 < 2 ^ 64 := by
      rw [hb'] at hlen
      simp only [List.length_append, List.length_reverse, List.length_cons] at hlen
      omega
    have hget : s.enemies_[r.length]? = some e := by
      rw [hb']
      simpa using getElem?_append_cons_length r.reverse e post
    rw [List.length_cons, size_t_dec_succ r.length hlen', sweepEnemies_step ops f _ s e hget]
    have hfuel' : r.length < f := by
      simpa using hfuel
    cases hd : ops.IsDead e.toEntity
    · rw [if_neg (by simp)]
      rw [ih (e :: post) s f hb' hlen hfuel']
      simp [List.filter_append, hd]
    · rw [if_pos rfl]
      have herase : s.enemies_.eraseIdx r.length = r.reverse ++ post := by
        rw [hb']
        simpa using eraseIdx_append_cons_length r.reverse e post
      rw [herase]
      have hlen2 : (r.reverse ++ post).length < 2 ^ 64 := by
        rw [hb'] at hlen
        simp only [List.length_append, List.length_reverse, List.length_cons] at hlen ⊢
        omega
      rw [ih post { s with enemies_ := r.reverse ++ post, score_ := s.score_ + 10 } f rfl hlen2
        hfuel']
      simp only [List.reverse_cons, List.filter_append, List.filter_cons, hd, List.filter_nil,
        List.length_append, List.length_cons, List.length_nil]
      simp
      ring

theorem Engine.explodeIfDead_frame (ops : EntityOps) (s : Engine) (b : Bullet) :
    (Engine.explodeIfDead ops s b).score_ = s.score_ ∧
    (Engine.explodeIfDead ops s b).bullets_ = s.bullets_ ∧
    (Engine.explodeIfDead ops s b).enemies_.length = s.enemies_.length := by
  unfold Engine.explodeIfDead
  split
  · simp [Engine.Explode]
  · simp

theorem foldl_explodeIfDead_frame (ops : EntityOps) (l : List Bullet) (s : Engine) :
    (l.foldl (Engine.explodeIfDead ops) s).score_ = s.score_ ∧
    (l.foldl (Engine.explodeIfDead ops) s).bullets_ = s.bullets_ ∧
    (l.foldl (Engine.explodeIfDead ops) s).enemies_.length = s.enemies_.length := by
  induction l generalizing s with
  | nil => exact ⟨rfl, rfl, rfl⟩
  | cons b r ih =>
    simp only [List.foldl]
    obtain ⟨h1, h2, h3⟩ := ih (Engine.explodeIfDead ops s b)
    obtain ⟨g1, g2, g3⟩ := Engine.explodeIfDead_frame ops s b
    exact ⟨h1.trans g1, h2.trans g2, h3.trans g3⟩

/-- The bullet sweep, on a vector within the `size_t` range, ends: it applies
the explosions and keeps the bullets that are not dead. -/
theorem Engine.sweepDeadBullets_eq (ops : EntityOps) (s : Engine)
    (hb : s.bullets_.length < 2 ^ 64) :
    s.sweepDeadBullets ops =
      some { s.explosionsApplied ops with
        bullets_ := s.bullets_.filter (fun b => !ops.IsDead b.toEntity) } := by
  unfold Engine.sweepDeadBullets Engine.explosionsApplied
  have h := sweepBullets_spec ops s.bullets_.reverse [] s (s.bullets_.length + 1)
    (by simp) hb (by simp)
  simpa using h

/-- The enemy sweep, on a vector within the `size_t` range, ends: it keeps the
enemies that are not dead and adds 10 to the score for each dead one. -/
theorem Engine.sweepDeadEnemies_eq (ops : EntityOps) (s : Engine)
    (he : s.enemies_.length < 2 ^ 64) :
    s.sweepDeadEnemies ops =
      some { s with
        enemies_ := s.enemies_.filter (fun e => !ops.IsDead e.toEntity)
        score_ := s.score_ + 10 * (s.enemies_.countP (fun e => ops.IsDead e.toEntity) : Int) } := by
  unfold Engine.sweepDeadEnemies
  have h := sweepEnemies_spec ops s.enemies_.reverse [] s (s.enemies_.length + 1)
    (by simp) he (by simp)
  simpa [List.countP_eq_length_filter] using h

theorem Engine.HandleDeaths_eq (ops : EntityOps) (s : Engine)
    (hb : s.bullets_.length < 2 ^ 64) (he : s.enemies_.length < 2 ^ 64) :
    s.HandleDeaths ops =
      some {
        engine :=
          { s.explosionsApplied ops with
            bullets_ := s.bullets_.filter (fun b => !ops.IsDead b.toEntity)
            enemies_ := (s.explosionsApplied ops).enemies_.filter
              (fun e => !ops.IsDead e.toEntity)
            score_ := s.score_ + 10 *
              ((s.explosionsApplied ops).enemies_.countP (fun e => ops.IsDead e.toEntity) : Int) }
        exited := ops.IsDead (s.explosionsApplied ops).player_.toEntity } := by
  obtain ⟨hscore, -, hlen⟩ := foldl_explodeIfDead_frame ops s.bullets_.reverse s
  have he' : (s.explosionsApplied ops).enemies_.length < 2 ^ 64 := by
    unfold Engine.explosionsApplied
    rw [hlen]
    exact he
  have hscore' : (s.explosionsApplied ops).score_ = s.score_ := hscore
  unfold Engine.HandleDeaths
  rw [Engine.sweepDeadBullets_eq ops s hb, Option.some_bind,
    Engine.sweepDeadEnemies_eq ops { s.explosionsApplied ops with
      bullets_ := s.bullets_.filter (fun b => !ops.IsDead b.toEntity) } he']
  simp [hscore']

theorem spawnLoop_score (env : Env) (d : Nat) (n : Nat) :
    ∀ (k : Nat) (s s' : Engine), spawnLoop env d n k s = some s' → s'.score_ = s.score_ := by
  induction n with
  | zero =>
    intro k s s' h
    simp only [spawnLoop, Option.some.injEq] at h
    rw [← h]
  | succ m ih =>
    intro k s s' h
    unfold spawnLoop at h
    split at h
    · exact Option.noConfusion h
    · dsimp only at h
      split at h
      · exact Option.noConfusion h
      · exact (ih _ _ _ h).trans rfl

theorem Engine.SpawnEnemy_score (env : Env) (s s' : Engine) (h : s.SpawnEnemy env = some s') :
    s'.score_ = s.score_ := by
  unfold Engine.SpawnEnemy at h
  dsimp only at h
  split at h
  · rw [Option.map_eq_some'] at h
    obtain ⟨s1, h1, h2⟩ := h
    rw [← h2]
    exact spawnLoop_score env _ _ 0 s s1 h1
  · rw [Option.some.injEq] at h
    rw [h]

theorem Engine.HandlePlayerAtBoundary_score (s : Engine) :
    s.HandlePlayerAtBoundary.score_ = s.score_ := by
  unfold Engine.HandlePlayerAtBoundary
  dsimp only
  split <;> split <;> rfl

/-- Every step of `update` before `HandleDeaths` leaves the score as it was. -/
theorem Engine.beforeDeaths_score (ops : EntityOps) (env : Env) (moves : Finset Direction)
    (s s0 : Engine) (h : s.beforeDeaths ops env moves = some s0) : s0.score_ = s.score_ := by
  unfold Engine.beforeDeaths at h
  dsimp only at h
  rw [Engine.SpawnEnemy_score env _ _ h]
  show ((s.accelerate moves).HandlePlayerAtBoundary).score_ = s.score_
  rw [Engine.HandlePlayerAtBoundary_score]
  rfl

/-- C3. Score.  On vectors within the `size_t` range `HandleDeaths` returns,
and the score it leaves is the score before plus exactly 10 times the number
of enemies that are dead when the enemy sweep starts, that is in the state
`s1` the bullet sweep (with its explosions) has produced; the bullet sweep
itself leaves the score alone.  Nothing is asked about how an enemy died.  In
`update`, the steps before `HandleDeaths` do not change the score: when
`update` on a state `pre` reaches `HandleDeaths` in state `s`, the score of `s`
is that of `pre`, and `update` returns what `HandleDeaths` returns. -/
theorem HandleDeaths_score (ops : EntityOps) (s : Engine)
    (hb : s.bullets_.length < 2 ^ 64) (he : s.enemies_.length < 2 ^ 64) :
    ∃ (s1 : Engine) (out : Outcome),
      s.sweepDeadBullets ops = some s1 ∧ s1.score_ = s.score_ ∧
      s.HandleDeaths ops = some out ∧
      out.engine.score_ =
        s.score_ + 10 * (s1.enemies_.countP (fun e => ops.IsDead e.toEntity) : Int) ∧
      ∀ (pre : Engine) (env : Env) (moves : Finset Direction),
        pre.beforeDeaths ops env moves = some s →
          s.score_ = pre.score_ ∧ pre.update ops env moves = some out := by
  refine ⟨_, _, Engine.sweepDeadBullets_eq ops s hb, ?_, Engine.HandleDeaths_eq ops s hb he,
    rfl, ?_⟩
  · exact (foldl_explodeIfDead_frame ops s.bullets_.reverse s).1
  · intro pre env moves hpre
    refine ⟨Engine.beforeDeaths_score ops env moves pre s hpre, ?_⟩
    unfold Engine.update
    rw [hpre, Option.some_bind, Engine.HandleDeaths_eq ops s hb he]

/-- C4. Sweep.  On vectors within the `size_t` range `HandleDeaths` returns;
the bullets it leaves are exactly the bullets that were not dead, in their
original order, and the enemies it leaves are exactly the enemies that are not
dead after the explosions of the dead explosive bullets have been applied, in
their original order: no dead bullet or enemy remains and no live one is
removed.  Empty collections are included. -/
theorem HandleDeaths_sweep (ops : EntityOps) (s : Engine)
    (hb : s.bullets_.length < 2 ^ 64) (he : s.enemies_.length < 2 ^ 64) :
    ∃ out : Outcome,
      s.HandleDeaths ops = some out ∧
      out.engine.bullets_ = s.bullets_.filter (fun b => !ops.IsDead b.toEntity) ∧
      out.engine.enemies_ =
        (s.explosionsApplied ops).enemies_.filter (fun e => !ops.IsDead e.toEntity) ∧
      (∀ b, b ∈ out.engine.bullets_ ↔ b ∈ s.bullets_ ∧ ops.IsDead b.toEntity = false) ∧
      (∀ e, e ∈ out.engine.enemies_ ↔
        e ∈ (s.explosionsApplied ops).enemies_ ∧ ops.IsDead e.toEntity = false) ∧
      out.engine.bullets_.Sublist s.bullets_ ∧
      out.engine.enemies_.Sublist (s.explosionsApplied ops).enemies_ := by
  refine ⟨_, Engine.HandleDeaths_eq ops s hb he, rfl, rfl, ?_, ?_, ?_, ?_⟩
  · intro b
    simp [List.mem_filter]
  · intro e
    simp [List.mem_filter]
  · exact List.filter_sublist _
  · exact List.filter_sublist _

/-- The sample death sweep: the rocket's blast kills the enemy with 40 hit
points and leaves 60 to the one with 100. -/
theorem deathsEngine_blast :
    (deathsEngine.explosionsApplied sampleOps).enemies_ =
      [⟨⟨⟨10, 10⟩, ⟨0, 0⟩, 10, 0⟩, 10, 1 / 2⟩,
       ⟨⟨⟨120, 100⟩, ⟨0, 0⟩, 10, 0⟩, 10, 1 / 2⟩,
       ⟨⟨⟨190, 190⟩, ⟨0, 0⟩, 10, 0⟩, 10, 1 / 2⟩,
       ⟨⟨⟨130, 100⟩, ⟨0, 0⟩, 10, 60⟩, 10, 1 / 2⟩,
       ⟨⟨⟨10, 190⟩, ⟨0, 0⟩, 10, 30⟩, 10, 1 / 2⟩] := by
  norm_num [deathsEngine, sampleEngine, Engine.explosionsApplied, Engine.explodeIfDead,
    Engine.Explode, Enemy.Hit, sampleOps, specHit, specIsDead, Vec2.sub, Vec2.lengthLe,
    Vec2.normSq]

/-- C3 at a concrete input: three enemies are dead when the enemy sweep of the
sample starts (two were dead before, one died in the blast), and the score
goes from 70 to 100. -/
theorem HandleDeaths_score_witness :
    ∃ out : Outcome, deathsEngine.HandleDeaths sampleOps = some out ∧
      out.engine.score_ = 70 + 30 := by
  obtain ⟨s1, out, h1, -, h3, h4, -⟩ :=
    HandleDeaths_score sampleOps deathsEngine (by simp [deathsEngine]) (by simp [deathsEngine])
  refine ⟨out, h3, ?_⟩
  rw [Engine.sweepDeadBullets_eq sampleOps deathsEngine (by simp [deathsEngine]),
    Option.some.injEq] at h1
  rw [h4, ← h1]
  simp only [deathsEngine_blast]
  simp [deathsEngine, sampleOps, specIsDead]

/-- C4 at a concrete input: the sample sweep keeps the one live bullet and the
two enemies that survive the blast. -/
theorem HandleDeaths_sweep_witness :
    ∃ out : Outcome, deathsEngine.HandleDeaths sampleOps = some out ∧
      out.engine.bullets_ = [⟨⟨⟨20, 20⟩, ⟨1, 0⟩, 10, 1⟩, 10, false⟩] ∧
      out.engine.enemies_ =
        [⟨⟨⟨130, 100⟩, ⟨0, 0⟩, 10, 60⟩, 10, 1 / 2⟩, ⟨⟨⟨10, 190⟩, ⟨0, 0⟩, 10, 30⟩, 10, 1 / 2⟩] := by
  obtain ⟨out, h1, h2, h3, -⟩ :=
    HandleDeaths_sweep sampleOps deathsEngine (by simp [deathsEngine]) (by simp [deathsEngine])
  refine ⟨out, h1, ?_, ?_⟩
  · rw [h2]
    simp [deathsEngine, sampleOps, specIsDead]
  · rw [h3, deathsEngine_blast]
    simp [sampleOps, specIsDead]

/-! ## Explosions (`Engine::Explode`) -/

theorem Engine.Explode32_getElem? (ops : EntityOps) (s : Engine) (P : Vec2) (j : Nat)
    (e : Enemy) (h : s.enemies_[j]? = some e) :
    (s.Explode32 ops P).enemies_[j]? =
      some (if inBlast32 e.position_ e.radius_ P = true then e.Hit ops 40 P else e) := by
  by_cases hin : (e.position_.sub32 P).length32 ≤ f32 (50 + e.radius_)
  · simp [Engine.Explode32, inBlast32, List.getElem?_map, h, hin]
  · simp [Engine.Explode32, inBlast32, List.getElem?_map, h, hin]

theorem Engine.Explode32_player (ops : EntityOps) (s : Engine) (P : Vec2) :
    (s.Explode32 ops P).player_ =
      if inBlast32 s.player_.position_ s.player_.radius_ P = true then s.player_.Hit ops 10 P
      else s.player_ := by
  by_cases hin : (s.player_.position_.sub32 P).length32 ≤ f32 (50 + s.player_.radius_)
  · simp [Engine.Explode32, inBlast32, hin]
  · simp [Engine.Explode32, inBlast32, hin]

/-- An entity whose exact squared distance to the explosion point is at most
`(50 + radius)² (1 - 2^-20)` passes the `float` range test of `Explode`. -/
theorem inBlast32_of_within (position P : Vec2) (radius : ℚ) (hr : 0 ≤ radius)
    (h : (position.sub P).normSq ≤ (50 + radius) * (50 + radius) * (1 - 1 / 2 ^ 20)) :
    inBlast32 position radius P = true := by
  have hb := Vec2.length32_sq_bounds (position.sub32 P)
  have hle : (position.sub32 P).length32 ≤ f32 (50 + radius) :=
    blast_upper (f32_error (position.x - P.x)) (f32_error (position.y - P.y))
      (f32_error _) (f32_error _) (f32_nonneg (mul_self_nonneg _)) (f32_nonneg (mul_self_nonneg _))
      (f32_error _) hb.2 (f32_error (50 + radius)) (by linarith) h
  simp [inBlast32, hle]

/-- An entity whose exact squared distance to the explosion point is at least
`(50 + radius)² (1 + 2^-20)` fails the `float` range test of `Explode`. -/
theorem inBlast32_of_beyond (position P : Vec2) (radius : ℚ) (hr : 0 ≤ radius)
    (h : (50 + radius) * (50 + radius) * (1 + 1 / 2 ^ 20) ≤ (position.sub P).normSq) :
    inBlast32 position radius P = false := by
  have hb := Vec2.length32_sq_bounds (position.sub32 P)
  have hlt : f32 (50 + radius) < (position.sub32 P).length32 :=
    blast_lower (f32_error (position.x - P.x)) (f32_error (position.y - P.y))
      (f32_error _) (f32_error _) (f32_nonneg (mul_self_nonneg _)) (f32_nonneg (mul_self_nonneg _))
      (f32_error _) (Vec2.length32_nonneg _) hb.1 (f32_error (50 + radius)) (by linarith) h
  simp [inBlast32, not_le.2 hlt]

/-- C2, amended.  `Explode(P)` applies `Hit(40, P)` once to every enemy for
which the `float` computation of `glm::length(position - P)` gives at most
the `float` sum `50 + radius`, however many there are, and `Hit(10, P)` to the
player under the same test; the other enemies and the player otherwise are
unchanged.  When `Hit` has the effect the spec gives it on the hit points
(reduced by the damage, clamped at 0), such an enemy is left with
`max 0 (hit points - 40)`, so it loses exactly 40 when it had at least 40, and
the player likewise with 10.  The `float` test agrees with the exact distance
outside a thin band: an enemy of radius `r ≥ 0` whose exact squared distance
to `P` is at most `(50 + r)² (1 - 2^-20)` is hit, and one whose exact squared
distance is at least `(50 + r)² (1 + 2^-20)` is left unchanged. -/
theorem Explode_splash (ops : EntityOps) (s : Engine) (P : Vec2)
    (hHit : ∀ e d src, (ops.Hit e d src).hit_points_ = max 0 (e.hit_points_ - d)) :
    (s.Explode32 ops P).enemies_.length = s.enemies_.length ∧
    (∀ (j : Nat) (e : Enemy), s.enemies_[j]? = some e →
      (inBlast32 e.position_ e.radius_ P = true →
        (s.Explode32 ops P).enemies_[j]? = some (e.Hit ops 40 P) ∧
        (e.Hit ops 40 P).hit_points_ = max 0 (e.hit_points_ - 40) ∧
        (40 ≤ e.hit_points_ → e.hit_points_ - (e.Hit ops 40 P).hit_points_ = 40)) ∧
      (inBlast32 e.position_ e.radius_ P = false →
        (s.Explode32 ops P).enemies_[j]? = some e)) ∧
    (inBlast32 s.player_.position_ s.player_.radius_ P = true →
      (s.Explode32 ops P).player_ = s.player_.Hit ops 10 P ∧
      (s.player_.Hit ops 10 P).hit_points_ = max 0 (s.player_.hit_points_ - 10) ∧
      (10 ≤ s.player_.hit_points_ →
        s.player_.hit_points_ - (s.player_.Hit ops 10 P).hit_points_ = 10)) ∧
    (inBlast32 s.player_.position_ s.player_.radius_ P = false →
      (s.Explode32 ops P).player_ = s.player_) ∧
    (∀ (j : Nat) (e : Enemy), s.enemies_[j]? = some e → 0 ≤ e.radius_ →
      (e.position_.sub P).normSq ≤ (50 + e.radius_) * (50 + e.radius_) * (1 - 1 / 2 ^ 20) →
      (s.Explode32 ops P).enemies_[j]? = some (e.Hit ops 40 P)) ∧
    (∀ (j : Nat) (e : Enemy), s.enemies_[j]? = some e → 0 ≤ e.radius_ →
      (50 + e.radius_) * (50 + e.radius_) * (1 + 1 / 2 ^ 20) ≤ (e.position_.sub P).normSq →
      (s.Explode32 ops P).enemies_[j]? = some e) := by
  have hE : ∀ (e : Enemy) (d : Int), (e.Hit ops d P).hit_points_ = max 0 (e.hit_points_ - d) :=
    fun e d => hHit e.toEntity d P
  have hP : ∀ (p : Player) (d : Int), (p.Hit ops d P).hit_points_ = max 0 (p.hit_points_ - d) :=
    fun p d => hHit p.toEntity d P
  refine ⟨by simp [Engine.Explode32], ?_, ?_, ?_, ?_, ?_⟩
  · intro j e he
    rw [Engine.Explode32_getElem? ops s P j e he]
    constructor
    · intro hin
      refine ⟨by rw [if_pos hin], hE e 40, ?_⟩
      intro h40
      rw [hE e 40, max_eq_right (by omega)]
      omega
    · intro hout
      rw [if_neg (by simp [hout])]
  · intro hin
    refine ⟨by rw [Engine.Explode32_player, if_pos hin], hP s.player_ 10, ?_⟩
    intro h10
    rw [hP s.player_ 10, max_eq_right (by omega)]
    omega
  · intro hout
    rw [Engine.Explode32_player, if_neg (by simp [hout])]
  · intro j e he hr hd
    rw [Engine.Explode32_getElem? ops s P j e he,
      if_pos (inBlast32_of_within e.position_ P e.radius_ hr hd)]
  · intro j e he hr hd
    rw [Engine.Explode32_getElem? ops s P j e he, inBlast32_of_beyond e.position_ P e.radius_ hr hd]
    simp

/-- The `float` length of the vector `(30, 0)` is `30`. -/
theorem length32_sample : Vec2.length32 ⟨30, 0⟩ = 30 := by
  have h900 : f32 900 = 900 := by simpa using f32_natCast 900 (by norm_num)
  have hs : sqrt32 900 = 30 :=
    sqrt32_eq _ _ 4 15728640 (by norm_num) (by norm_num) (by norm_num) (by norm_num)
      (by norm_num) (by norm_num) (by norm_num)
  norm_num [Vec2.length32, Vec2.dot32, f32_zero, h900, hs]

/-- C2 at a concrete input: in the sample blast the enemy with 100 hit points,
30 away from the centre, is hit once and loses exactly 40. -/
theorem Explode_splash_witness :
    (blastEngine.Explode32 sampleOps ⟨100, 100⟩).enemies_[1]? =
      some (Enemy.Hit sampleOps ⟨⟨⟨130, 100⟩, ⟨0, 0⟩, 10, 100⟩, 10, 1 / 2⟩ 40 ⟨100, 100⟩) ∧
    (Enemy.Hit sampleOps ⟨⟨⟨130, 100⟩, ⟨0, 0⟩, 10, 100⟩, 10, 1 / 2⟩ 40 ⟨100, 100⟩).hit_points_ =
      max 0 (100 - 40) ∧
    ((40 : Int) ≤ 100 →
      100 - (Enemy.Hit sampleOps ⟨⟨⟨130, 100⟩, ⟨0, 0⟩, 10, 100⟩, 10, 1 / 2⟩ 40
        ⟨100, 100⟩).hit_points_ = 40) := by
  have h30 : f32 30 = 30 := by simpa using f32_natCast 30 (by norm_num)
  have h60 : f32 60 = 60 := by simpa using f32_natCast 60 (by norm_num)
  exact ((Explode_splash sampleOps blastEngine ⟨100, 100⟩ (fun _ _ _ => rfl)).2.1 1
    ⟨⟨⟨130, 100⟩, ⟨0, 0⟩, 10, 100⟩, 10, 1 / 2⟩ (by simp [blastEngine])).1
    (by norm_num [inBlast32, Vec2.sub32, f32_zero, h30, h60, length32_sample])

/-- The `float` length of the vector `(60, 2^-10)` is `60`: the sum
`3600 + 2^-20` of the squares rounds to `3600`. -/
theorem length32_sample_rounded : Vec2.length32 ⟨60, 1 / 1024⟩ = 60 := by
  have h1 : f32 3600 = 3600 := by simpa using f32_natCast 3600 (by norm_num)
  have h2 : f32 (1 / 1048576) = 1 / 1048576 := by
    have := f32_exact 1 (-20) (by norm_num) (by norm_num)
    norm_num at this
    simpa using this
  have h3 : f32 (3774873601 / 1048576) = 3600 :=
    f32_eq _ _ 11 14745600 (by norm_num [abs_of_pos]) (by norm_num [abs_of_pos]) (by norm_num)
      (by norm_num) (by norm_num) (by norm_num)
  have hs : sqrt32 3600 = 60 :=
    sqrt32_eq _ _ 5 15728640 (by norm_num) (by norm_num) (by norm_num) (by norm_num)
      (by norm_num) (by norm_num) (by norm_num)
  norm_num [Vec2.length32, Vec2.dot32, h1, h2, h3, hs]

/-- C2 as stated fails: an enemy of radius 10 at `(160, 100 + 2^-10)` is
farther than `50 + 10` from the explosion point `(100, 100)`, its squared
distance being `3600 + 2^-20`, yet the distance computed in `float` is `60`
and `Explode` hits it, whatever `Hit` does. -/
theorem Explode_splash_counterexample :
    Vec2.lengthLe (Vec2.sub ⟨160, 102401 / 1024⟩ ⟨100, 100⟩) (50 + 10) = false ∧
    (Vec2.sub ⟨160, 102401 / 1024⟩ ⟨100, 100⟩).normSq = 3600 + 1 / 2 ^ 20 ∧
    ∀ ops : EntityOps,
      (Engine.Explode32 ops
        { sampleEngine with enemies_ := [⟨⟨⟨160, 102401 / 1024⟩, ⟨0, 0⟩, 10, 100⟩, 10, 1 / 2⟩] }
        ⟨100, 100⟩).enemies_ =
      [Enemy.Hit ops ⟨⟨⟨160, 102401 / 1024⟩, ⟨0, 0⟩, 10, 100⟩, 10, 1 / 2⟩ 40 ⟨100, 100⟩] := by
  have h60 : f32 60 = 60 := by simpa using f32_natCast 60 (by norm_num)
  have hy : f32 (1 / 1024) = 1 / 1024 := by
    have := f32_exact 1 (-10) (by norm_num) (by norm_num)
    norm_num at this
    simpa using this
  refine ⟨by norm_num [Vec2.sub, Vec2.lengthLe, Vec2.normSq],
    by norm_num [Vec2.sub, Vec2.normSq], fun ops => ?_⟩
  have hin : (Vec2.sub32 ⟨160, 102401 / 1024⟩ ⟨100, 100⟩).length32 ≤ f32 (50 + 10) := by
    norm_num [Vec2.sub32, h60, hy, length32_sample_rounded]
  simp only [Engine.Explode32, List.map_cons, List.map_nil]
  rw [if_pos hin]

/-! ## Spawn points (`Engine::CreateEnemySpawn`) -/

theorem size_t_cast_natCast (n : Nat) (h : n < 2 ^ 64) : size_t_cast (n : Int) = n := by
  unfold size_t_cast
  rw [Int.emod_eq_of_lt (Int.natCast_nonneg n) (by exact_mod_cast h)]
  simp

/-- The two points the first loop appends for the counter value `x`. -/
theorem spawnLoopX_stop (s : Engine) (x_unit : Int) (fuel x : Nat) (acc : List Vec2)
    (h : x = size_t_cast (s.board_dimensions_.1 + x_unit)) :
    spawnLoopX s x_unit (fuel + 1) x acc = some acc := by
  rw [spawnLoopX, if_neg (by simpa using h)]

theorem spawnLoopX_step (s : Engine) (x_unit : Int) (fuel x : Nat) (acc : List Vec2)
    (h : x ≠ size_t_cast (s.board_dimensions_.1 + x_unit)) :
    spawnLoopX s x_unit (fuel + 1) x acc =
      spawnLoopX s x_unit fuel ((x + size_t_cast x_unit) % 2 ^ 64)
        (acc ++ [⟨f32 (x : ℚ), 0⟩, ⟨f32 (x : ℚ), f32 (s.board_dimensions_.2 : ℚ)⟩]) := by
  rw [spawnLoopX, if_pos h]

theorem spawnLoopY_stop (s : Engine) (y_unit : Int) (fuel y : Nat) (acc : List Vec2)
    (h : y = size_t_cast s.board_dimensions_.2) :
    spawnLoopY s y_unit (fuel + 1) y acc = some acc := by
  rw [spawnLoopY, if_neg (by simpa using h)]

theorem spawnLoopY_step (s : Engine) (y_unit : Int) (fuel y : Nat) (acc : List Vec2)
    (h : y ≠ size_t_cast s.board_dimensions_.2) :
    spawnLoopY s y_unit (fuel + 1) y acc =
      spawnLoopY s y_unit fuel ((y + size_t_cast y_unit) % 2 ^ 64)
        (acc ++ [⟨0, f32 (y : ℚ)⟩, ⟨f32 (s.board_dimensions_.1 : ℚ), f32 (y : ℚ)⟩]) := by
  rw [spawnLoopY, if_pos h]

/-- The first loop, when the exit value is the `n`-th multiple of the step `u`:
started at the `k`-th multiple it runs `n - k` iterations and appends the two
points of each multiple in between. -/
theorem spawnLoopX_spec (s : Engine) (x_unit : Int) (u n : Nat) (hu : 0 < u)
    (hstep : size_t_cast x_unit = u)
    (hexit : size_t_cast (s.board_dimensions_.1 + x_unit) = n * u) (hn : n * u < 2 ^ 64) :
    ∀ (m k : Nat) (acc : List Vec2) (fuel : Nat), k + m = n → m < fuel →
      spawnLoopX s x_unit fuel (k * u) acc =
        some (acc ++ (List.range' k m).flatMap (fun i =>
          [(⟨f32 ((i * u : Nat) : ℚ), 0⟩ : Vec2),
            ⟨f32 ((i * u : Nat) : ℚ), f32 (s.board_dimensions_.2 : ℚ)⟩])) := by
  intro m
  induction m with
  | zero =>
    intro k acc fuel hk hfuel
    obtain ⟨f, rfl⟩ : ∃ f, fuel = f + 1 := ⟨fuel - 1, by omega⟩
    have hkn : k = n := by omega
    rw [spawnLoopX_stop s x_unit f _ acc (by rw [hexit, hkn])]
    simp
  | succ m ih =>
    intro k acc fuel hk hfuel
    obtain ⟨f, rfl⟩ : ∃ f, fuel = f + 1 := ⟨fuel - 1, by omega⟩
    have hlt : k < n := by omega
    have hne : k * u ≠ size_t_cast (s.board_dimensions_.1 + x_unit) := by
      rw [hexit]
      exact fun h => absurd (Nat.eq_of_mul_eq_mul_right hu h) (by omega)
    have hle : (k + 1) * u ≤ n * u := Nat.mul_le_mul_right u (by omega)
    have hnext : (k * u + size_t_cast x_unit) % 2 ^ 64 = (k + 1) * u := by
      rw [hstep, ← Nat.succ_mul]
      exact Nat.mod_eq_of_lt (lt_of_le_of_lt hle hn)
    rw [spawnLoopX_step s x_unit f _ acc hne, hnext, ih (k + 1) _ f (by omega) (by omega)]
    rw [List.range'_succ]
    simp [List.flatMap_cons]

/-- The second loop, when the exit value is the `n`-th multiple of the step. -/
theorem spawnLoopY_spec (s : Engine) (y_unit : Int) (u n : Nat) (hu : 0 < u)
    (hstep : size_t_cast y_unit = u)
    (hexit : size_t_cast s.board_dimensions_.2 = n * u) (hn : n * u < 2 ^ 64) :
    ∀ (m k : Nat) (acc : List Vec2) (fuel : Nat), k + m = n → m < fuel →
      spawnLoopY s y_unit fuel (k * u) acc =
        some (acc ++ (List.range' k m).flatMap (fun i =>
          [(⟨0, f32 ((i * u : Nat) : ℚ)⟩ : Vec2),
            ⟨f32 (s.board_dimensions_.1 : ℚ), f32 ((i * u : Nat) : ℚ)⟩])) := by
  intro m
  induction m with
  | zero =>
    intro k acc fuel hk hfuel
    obtain ⟨f, rfl⟩ : ∃ f, fuel = f + 1 := ⟨fuel - 1, by omega⟩
    have hkn : k = n := by omega
    rw [spawnLoopY_stop s y_unit f _ acc (by rw [hexit, hkn])]
    simp
  | succ m ih =>
    intro k acc fuel hk hfuel
    obtain ⟨f, rfl⟩ : ∃ f, fuel = f + 1 := ⟨fuel - 1, by omega⟩
    have hlt : k < n := by omega
    have hne : k * u ≠ size_t_cast s.board_dimensions_.2 := by
      rw [hexit]
      exact fun h => absurd (Nat.eq_of_mul_eq_mul_right hu h) (by omega)
    have hle : (k + 1) * u ≤ n * u := Nat.mul_le_mul_right u (by omega)
    have hnext : (k * u + size_t_cast y_unit) % 2 ^ 64 = (k + 1) * u := by
      rw [hstep, ← Nat.succ_mul]
      exact Nat.mod_eq_of_lt (lt_of_le_of_lt hle hn)
    rw [spawnLoopY_step s y_unit f _ acc hne, hnext, ih (k + 1) _ f (by omega) (by omega)]
    rw [List.range'_succ]
    simp [List.flatMap_cons]

/-- C20. `CreateEnemySpawn` is not total: on a board of width `W` with
`0 < W < 20` the step `W / 20` is `0`; the first loop, run for any number `n`
of iterations, still has its counter at `0` and has appended `2 n` points
(so the list holds `2 n` points when it started empty, as in the
constructor), and for no amount of fuel does `CreateEnemySpawn` return. -/
theorem CreateEnemySpawn_diverges (s : Engine) (hW : 0 < s.board_dimensions_.1)
    (hW' : s.board_dimensions_.1 < 20) :
    Int.tdiv s.board_dimensions_.1 20 = 0 ∧
    (∀ n, ∃ l, spawnIterX s (Int.tdiv s.board_dimensions_.1 20) n 0 s.enemy_spawns_ = some (0, l) ∧
      l.length = s.enemy_spawns_.length + 2 * n) ∧
    (∀ fuel, s.CreateEnemySpawn fuel = none) := by
  have hunit : Int.tdiv s.board_dimensions_.1 20 = 0 := by
    rw [Int.tdiv_eq_ediv (le_of_lt hW) (by norm_num)]
    omega
  have hcond : (0 : Nat) ≠ size_t_cast (s.board_dimensions_.1 + 0) := by
    rw [add_zero, size_t_cast_of_nonneg (le_of_lt hW) (lt_trans hW' (by norm_num))]
    omega
  have hzero : (0 + size_t_cast 0) % 2 ^ 64 = 0 := by
    norm_num [size_t_cast]
  have hiter : ∀ n (acc : List Vec2), ∃ l, spawnIterX s 0 n 0 acc = some (0, l) ∧
      l.length = acc.length + 2 * n := by
    intro n
    induction n with
    | zero => exact fun acc => ⟨acc, rfl, rfl⟩
    | succ k ih =>
      intro acc
      obtain ⟨l, hl, hlen⟩ := ih (acc ++ [⟨f32 ((0 : Nat) : ℚ), 0⟩,
        ⟨f32 ((0 : Nat) : ℚ), f32 (s.board_dimensions_.2 : ℚ)⟩])
      refine ⟨l, ?_, ?_⟩
      · rw [spawnIterX, if_pos hcond, hzero]
        exact hl
      · rw [hlen]
        simp only [List.length_append, List.length_cons, List.length_nil]
        omega
  have hloop : ∀ fuel (acc : List Vec2), spawnLoopX s 0 fuel 0 acc = none := by
    intro fuel
    induction fuel with
    | zero => exact fun acc => rfl
    | succ f ih =>
      intro acc
      rw [spawnLoopX_step s 0 f 0 acc hcond, hzero]
      exact ih _
  refine ⟨hunit, ?_, ?_⟩
  · intro n
    rw [hunit]
    exact hiter n s.enemy_spawns_
  · intro fuel
    unfold Engine.CreateEnemySpawn
    simp only [hunit, hloop, Option.none_bind]

/-- C20 at a concrete input: on a board of width 10 the first loop is still at
counter 0 after 5 iterations, with 10 points. -/
theorem CreateEnemySpawn_diverges_witness :
    ∃ l, spawnIterX { sampleEngine with board_dimensions_ := (10, 200), enemy_spawns_ := [] }
        (Int.tdiv 10 20) 5 0 [] = some (0, l) ∧ l.length = 0 + 2 * 5 :=
  (CreateEnemySpawn_diverges { sampleEngine with board_dimensions_ := (10, 200), enemy_spawns_ := [] }
    (by decide) (by decide)).2.1 5

theorem mem_spawnPoints (u v : Nat) (W H : ℚ) (p : Vec2) :
    p ∈ spawnPoints u v W H ↔
      (∃ i : Nat, i < 21 ∧ (p = ⟨((i * u : Nat) : ℚ), 0⟩ ∨ p = ⟨((i * u : Nat) : ℚ), H⟩)) ∨
      (∃ i : Nat, 1 ≤ i ∧ i < 20 ∧
        (p = ⟨0, ((i * v : Nat) : ℚ)⟩ ∨ p = ⟨W, ((i * v : Nat) : ℚ)⟩)) := by
  simp only [spawnPoints, List.mem_append, List.mem_flatMap, List.mem_range'_1, List.mem_cons,
    List.mem_singleton, List.not_mem_nil, or_false]
  constructor
  · rintro (⟨i, ⟨-, hi⟩, h⟩ | ⟨i, ⟨h1, hi⟩, h⟩)
    · exact Or.inl ⟨i, by omega, h⟩
    · exact Or.inr ⟨i, h1, by omega, h⟩
  · rintro (⟨i, hi, h⟩ | ⟨i, h1, hi, h⟩)
    · exact Or.inl ⟨i, ⟨by omega, by omega⟩, h⟩
    · exact Or.inr ⟨i, ⟨h1, by omega⟩, h⟩

theorem natCast_mul_inj (u : Nat) (hu : 0 < u) (i j : Nat)
    (h : ((i * u : Nat) : ℚ) = ((j * u : Nat) : ℚ)) : i = j :=
  Nat.eq_of_mul_eq_mul_right hu (by exact_mod_cast h)

theorem spawnPoints_nodup (u v : Nat) (hu : 0 < u) (hv : 0 < v) (W H : ℚ)
    (hW : W = ((20 * u : Nat) : ℚ)) (hH : H = ((20 * v : Nat) : ℚ)) :
    (spawnPoints u v W H).Nodup := by
  have hH0 : H ≠ 0 := by
    rw [hH]
    exact_mod_cast (by omega : 20 * v ≠ 0)
  have hW0 : W ≠ 0 := by
    rw [hW]
    exact_mod_cast (by omega : 20 * u ≠ 0)
  unfold spawnPoints
  rw [List.nodup_append]
  refine ⟨?_, ?_, ?_⟩
  · rw [List.nodup_flatMap]
    refine ⟨fun i _ => by simp [Ne.symm hH0], ?_⟩
    refine List.Nodup.pairwise_of_forall_ne (List.nodup_range' 0 21) ?_
    intro i _ j _ hij
    simp only [Function.onFun, List.disjoint_left, List.mem_cons, List.mem_singleton,
      List.not_mem_nil, or_false]
    rintro p (rfl | rfl) (h | h) <;>
      simp only [Vec2.mk.injEq] at h <;>
      exact hij (natCast_mul_inj u hu i j h.1)
  · rw [List.nodup_flatMap]
    refine ⟨fun i _ => by simp [Ne.symm hW0], ?_⟩
    refine List.Nodup.pairwise_of_forall_ne (List.nodup_range' 1 19) ?_
    intro i _ j _ hij
    simp only [Function.onFun, List.disjoint_left, List.mem_cons, List.mem_singleton,
      List.not_mem_nil, or_false]
    rintro p (rfl | rfl) (h | h) <;>
      simp only [Vec2.mk.injEq] at h <;>
      exact hij (natCast_mul_inj v hv i j h.2)
  · simp only [List.disjoint_left, List.mem_flatMap, List.mem_range'_1, List.mem_cons,
      List.mem_singleton, List.not_mem_nil, or_false]
    rintro p ⟨i, -, hp⟩ ⟨j, ⟨hj1, hj2⟩, hq⟩
    have hjv0 : ((j * v : Nat) : ℚ) ≠ 0 := by
      have : j * v ≠ 0 := Nat.mul_ne_zero (by omega) (by omega)
      exact_mod_cast this
    have hjvH : ((j * v : Nat) : ℚ) ≠ H := by
      rw [hH]
      intro h
      have h' : j * v = 20 * v := by exact_mod_cast h
      have := Nat.eq_of_mul_eq_mul_right hv h'
      omega
    rcases hp with rfl | rfl <;> rcases hq with h | h <;>
      simp only [Vec2.mk.injEq] at h
    · exact hjv0 h.2.symm
    · exact hjv0 h.2.symm
    · exact hjvH h.2.symm
    · exact hjvH h.2.symm

/-- The spawn points, described by multiples of the spacings `W / 20` and
`H / 20`. -/
theorem mem_spawnPoints_spacing (u v : Nat) (W H : ℚ) (hW : W = 20 * (u : ℚ))
    (hH : H = 20 * (v : ℚ)) (p : Vec2) :
    p ∈ spawnPoints u v W H ↔
      ∃ k : Nat, k ≤ 20 ∧
        (p = ⟨(k : ℚ) * (W / 20), 0⟩ ∨ p = ⟨(k : ℚ) * (W / 20), H⟩ ∨
          p = ⟨0, (k : ℚ) * (H / 20)⟩ ∨ p = ⟨W, (k : ℚ) * (H / 20)⟩) := by
  have hu : W / 20 = (u : ℚ) := by rw [hW]; ring
  have hv : H / 20 = (v : ℚ) := by rw [hH]; ring
  have hcu : ∀ i : Nat, ((i * u : Nat) : ℚ) = (i : ℚ) * (u : ℚ) := fun i => by push_cast; ring
  have hcv : ∀ i : Nat, ((i * v : Nat) : ℚ) = (i : ℚ) * (v : ℚ) := fun i => by push_cast; ring
  rw [mem_spawnPoints, hu, hv]
  simp only [hcu, hcv]
  constructor
  · rintro (⟨i, hi, h⟩ | ⟨i, h1, hi, h⟩)
    · rcases h with h | h
      · exact ⟨i, by omega, Or.inl h⟩
      · exact ⟨i, by omega, Or.inr (Or.inl h)⟩
    · rcases h with h | h
      · exact ⟨i, by omega, Or.inr (Or.inr (Or.inl h))⟩
      · exact ⟨i, by omega, Or.inr (Or.inr (Or.inr h))⟩
  · rintro ⟨k, hk, h | h | h | h⟩
    · exact Or.inl ⟨k, by omega, Or.inl h⟩
    · exact Or.inl ⟨k, by omega, Or.inr h⟩
    · by_cases h0 : k = 0
      · subst h0
        exact Or.inl ⟨0, by omega, Or.inl (by rw [h]; simp)⟩
      · by_cases h20 : k = 20
        · subst h20
          refine Or.inl ⟨0, by omega, Or.inr ?_⟩
          rw [h, hH]
          simp
        · exact Or.inr ⟨k, by omega, by omega, Or.inl h⟩
    · by_cases h0 : k = 0
      · subst h0
        refine Or.inl ⟨20, by omega, Or.inl ?_⟩
        rw [h, hW]
        simp
      · by_cases h20 : k = 20
        · subst h20
          refine Or.inl ⟨20, by omega, Or.inr ?_⟩
          rw [h, hW, hH]
          simp
        · exact Or.inr ⟨k, by omega, by omega, Or.inr h⟩

/-- On a board whose width and height are positive multiples of 20 within the
`int` range, `CreateEnemySpawn` returns with 22 units of fuel or more and
appends the stored points for the steps `W / 20` and `H / 20`. -/
theorem Engine.CreateEnemySpawn_eq (s : Engine) (fuel : Nat) (a b : Int)
    (ha : s.board_dimensions_.1 = 20 * a) (hb : s.board_dimensions_.2 = 20 * b)
    (ha0 : 0 < a) (hb0 : 0 < b)
    (hWm : s.board_dimensions_.1 + s.board_dimensions_.1 / 20 < 2 ^ 31)
    (hHm : s.board_dimensions_.2 < 2 ^ 31) (hfuel : 22 ≤ fuel) :
    s.CreateEnemySpawn fuel =
      some { s with
        enemy_spawns_ := s.enemy_spawns_ ++
          spawnPointsStored a.toNat b.toNat (s.board_dimensions_.1 : ℚ)
            (s.board_dimensions_.2 : ℚ) } := by
  have hu : 0 < a.toNat := by omega
  have hv : 0 < b.toNat := by omega
  have hxunit : Int.tdiv s.board_dimensions_.1 20 = a := by
    rw [Int.tdiv_eq_ediv (by omega) (by norm_num), ha]
    exact Int.mul_ediv_cancel_left a (by norm_num)
  have hyunit : Int.tdiv s.board_dimensions_.2 20 = b := by
    rw [Int.tdiv_eq_ediv (by omega) (by norm_num), hb]
    exact Int.mul_ediv_cancel_left b (by norm_num)
  have hstepx : size_t_cast a = a.toNat :=
    size_t_cast_of_nonneg (le_of_lt ha0) (by omega)
  have hstepy : size_t_cast b = b.toNat :=
    size_t_cast_of_nonneg (le_of_lt hb0) (by omega)
  have hexitx : size_t_cast (s.board_dimensions_.1 + a) = 21 * a.toNat := by
    rw [size_t_cast_of_nonneg (by omega) (by omega)]
    omega
  have hexity : size_t_cast s.board_dimensions_.2 = 20 * b.toNat := by
    rw [size_t_cast_of_nonneg (by omega) (by omega)]
    omega
  have hrunx := spawnLoopX_spec s a a.toNat 21 hu hstepx hexitx (by omega) 21 0
    s.enemy_spawns_ fuel (by omega) (by omega)
  have hruny := fun acc => spawnLoopY_spec s b b.toNat 20 hv hstepy hexity (by omega) 19 1
    acc fuel (by omega) (by omega)
  unfold Engine.CreateEnemySpawn
  simp only [hxunit, hyunit]
  rw [Nat.zero_mul] at hrunx
  rw [hrunx, Option.some_bind, hstepy]
  have := hruny (s.enemy_spawns_ ++ (List.range' 0 21).flatMap (fun i =>
    [(⟨f32 ((i * a.toNat : Nat) : ℚ), 0⟩ : Vec2),
      ⟨f32 ((i * a.toNat : Nat) : ℚ), f32 (s.board_dimensions_.2 : ℚ)⟩]))
  rw [Nat.one_mul] at this
  rw [this]
  simp [spawnPointsStored, List.append_assoc]

/-- When the width `20 u` and the height `20 v` are below `2^24`, every
coordinate is a `float` value and the stored points are the exact ones. -/
theorem spawnPointsStored_eq (u v : Nat) (W H : ℚ) (hW : W = ((20 * u : Nat) : ℚ))
    (hH : H = ((20 * v : Nat) : ℚ)) (hu : 20 * u < 2 ^ 24) (hv : 20 * v < 2 ^ 24) :
    spawnPointsStored u v W H = spawnPoints u v W H := by
  have hfW : f32 W = W := by rw [hW]; exact f32_natCast _ hu
  have hfH : f32 H = H := by rw [hH]; exact f32_natCast _ hv
  unfold spawnPointsStored spawnPoints
  rw [List.flatMap_def, List.flatMap_def, List.flatMap_def, List.flatMap_def]
  congr 2
  · apply List.map_congr_left
    intro i hi
    rw [List.mem_range'_1] at hi
    have hlt : i * u < 2 ^ 24 := lt_of_le_of_lt (Nat.mul_le_mul_right u (by omega : i ≤ 20)) hu
    rw [f32_natCast _ hlt, hfH]
  · apply List.map_congr_left
    intro i hi
    rw [List.mem_range'_1] at hi
    have hlt : i * v < 2 ^ 24 := lt_of_le_of_lt (Nat.mul_le_mul_right v (by omega : i ≤ 20)) hv
    rw [f32_natCast _ hlt, hfW]

/-- C11, amended.  Spawn points.  On a board whose width `W` and height `H` are
positive multiples of 20 not above `2^24 = 16777216` (so that every coordinate
is a `float` value), `CreateEnemySpawn` returns with 22 units of fuel or more;
it appends exactly 80 pairwise distinct points, every one on the perimeter of
`[0, W] x [0, H]`; they are the points `(k W/20, 0)`, `(k W/20, H)`,
`(0, k H/20)`, `(W, k H/20)` for `k = 0, .., 20`, so neighbours are `W/20`
apart on the top and bottom edges and `H/20` apart on the left and right
edges, and each of the four corners occurs once. -/
theorem CreateEnemySpawn_perimeter (s : Engine) (fuel : Nat)
    (hW : 0 < s.board_dimensions_.1) (hWd : 20 ∣ s.board_dimensions_.1)
    (hWm : s.board_dimensions_.1 ≤ 2 ^ 24)
    (hH : 0 < s.board_dimensions_.2) (hHd : 20 ∣ s.board_dimensions_.2)
    (hHm : s.board_dimensions_.2 ≤ 2 ^ 24) (hfuel : 22 ≤ fuel) :
    ∃ pts : List Vec2,
      s.CreateEnemySpawn fuel = some { s with enemy_spawns_ := s.enemy_spawns_ ++ pts } ∧
      pts.length = 80 ∧ pts.Nodup ∧
      (∀ p ∈ pts, onPerimeter s.board_dimensions_.1 s.board_dimensions_.2 p = true) ∧
      (∀ p, p ∈ pts ↔ ∃ k : Nat, k ≤ 20 ∧
        (p = ⟨(k : ℚ) * ((s.board_dimensions_.1 : ℚ) / 20), 0⟩ ∨
          p = ⟨(k : ℚ) * ((s.board_dimensions_.1 : ℚ) / 20), (s.board_dimensions_.2 : ℚ)⟩ ∨
          p = ⟨0, (k : ℚ) * ((s.board_dimensions_.2 : ℚ) / 20)⟩ ∨
          p = ⟨(s.board_dimensions_.1 : ℚ), (k : ℚ) * ((s.board_dimensions_.2 : ℚ) / 20)⟩)) ∧
      pts.count ⟨0, 0⟩ = 1 ∧
      pts.count ⟨(s.board_dimensions_.1 : ℚ), 0⟩ = 1 ∧
      pts.count ⟨0, (s.board_dimensions_.2 : ℚ)⟩ = 1 ∧
      pts.count ⟨(s.board_dimensions_.1 : ℚ), (s.board_dimensions_.2 : ℚ)⟩ = 1 := by
  obtain ⟨a, ha⟩ := hWd
  obtain ⟨b, hb⟩ := hHd
  have ha0 : 0 < a := by omega
  have hb0 : 0 < b := by omega
  have hau : ((a.toNat : Nat) : Int) = a := Int.toNat_of_nonneg (le_of_lt ha0)
  have hbv : ((b.toNat : Nat) : Int) = b := Int.toNat_of_nonneg (le_of_lt hb0)
  have hu : 0 < a.toNat := by omega
  have hv : 0 < b.toNat := by omega
  have hWq : (s.board_dimensions_.1 : ℚ) = 20 * (a.toNat : ℚ) := by
    have : (s.board_dimensions_.1 : ℚ) = 20 * (a : ℚ) := by rw [ha]; push_cast; ring
    rw [this, ← hau]
    push_cast
    rw [hau]
  have hHq : (s.board_dimensions_.2 : ℚ) = 20 * (b.toNat : ℚ) := by
    have : (s.board_dimensions_.2 : ℚ) = 20 * (b : ℚ) := by rw [hb]; push_cast; ring
    rw [this, ← hbv]
    push_cast
    rw [hbv]
  have hrun := Engine.CreateEnemySpawn_eq s fuel a b ha hb ha0 hb0 (by omega) (by omega) hfuel
  rw [spawnPointsStored_eq a.toNat b.toNat _ _ (by rw [hWq]; push_cast; ring)
    (by rw [hHq]; push_cast; ring) (by omega) (by omega)] at hrun
  have hmem := mem_spawnPoints_spacing a.toNat b.toNat (s.board_dimensions_.1 : ℚ)
    (s.board_dimensions_.2 : ℚ) hWq hHq
  have hnodup := spawnPoints_nodup a.toNat b.toNat hu hv (s.board_dimensions_.1 : ℚ)
    (s.board_dimensions_.2 : ℚ) (by rw [hWq]; push_cast; ring) (by rw [hHq]; push_cast; ring)
  refine ⟨spawnPoints a.toNat b.toNat (s.board_dimensions_.1 : ℚ) (s.board_dimensions_.2 : ℚ),
    hrun, rfl, hnodup, ?_, hmem, ?_, ?_, ?_, ?_⟩
  · intro p hp
    obtain ⟨k, hk, h⟩ := (hmem p).1 hp
    have hkq : (k : ℚ) ≤ 20 := by exact_mod_cast hk
    have hk0 : (0 : ℚ) ≤ (k : ℚ) := by positivity
    have hu0 : (0 : ℚ) ≤ (a.toNat : ℚ) := by positivity
    have hv0 : (0 : ℚ) ≤ (b.toNat : ℚ) := by positivity
    have hx1 : (0 : ℚ) ≤ (k : ℚ) * ((s.board_dimensions_.1 : ℚ) / 20) := by
      rw [hWq]; positivity
    have hx2 : (k : ℚ) * ((s.board_dimensions_.1 : ℚ) / 20) ≤ (s.board_dimensions_.1 : ℚ) := by
      rw [hWq]; nlinarith
    have hy1 : (0 : ℚ) ≤ (k : ℚ) * ((s.board_dimensions_.2 : ℚ) / 20) := by
      rw [hHq]; positivity
    have hy2 : (k : ℚ) * ((s.board_dimensions_.2 : ℚ) / 20) ≤ (s.board_dimensions_.2 : ℚ) := by
      rw [hHq]; nlinarith
    have hW0 : (0 : ℚ) ≤ (s.board_dimensions_.1 : ℚ) := by rw [hWq]; positivity
    have hH0 : (0 : ℚ) ≤ (s.board_dimensions_.2 : ℚ) := by rw [hHq]; positivity
    rcases h with rfl | rfl | rfl | rfl <;>
      simp [onPerimeter, hx1, hx2, hy1, hy2, hW0, hH0]
  · exact List.count_eq_one_of_mem hnodup ((hmem _).2 ⟨0, by omega, Or.inl (by simp)⟩)
  · exact List.count_eq_one_of_mem hnodup ((hmem _).2 ⟨20, by omega, Or.inl (by
      rw [hWq]; simp)⟩)
  · exact List.count_eq_one_of_mem hnodup ((hmem _).2 ⟨0, by omega, Or.inr (Or.inl (by simp))⟩)
  · exact List.count_eq_one_of_mem hnodup ((hmem _).2 ⟨20, by omega, Or.inr (Or.inl (by
      rw [hWq]; simp))⟩)

/-- C11 at a concrete input: on the 200 x 200 sample board, started with an
empty list, `CreateEnemySpawn` returns 80 pairwise distinct points. -/
theorem CreateEnemySpawn_perimeter_witness :
    ∃ pts : List Vec2,
      Engine.CreateEnemySpawn 22 { sampleEngine with enemy_spawns_ := [] } =
        some { sampleEngine with enemy_spawns_ := [] ++ pts } ∧
      pts.length = 80 ∧ pts.Nodup := by
  obtain ⟨pts, h1, h2, h3, -⟩ :=
    CreateEnemySpawn_perimeter { sampleEngine with enemy_spawns_ := [] } 22
      (by decide) (by decide) (by decide) (by decide) (by decide) (by decide) (by decide)
  exact ⟨pts, h1, h2, h3⟩

/-- The ninth multiple of the step `14913096` lies half way between two
`float` values and is stored as the lower, even one. -/
theorem f32_spawn_sample : f32 134217864 = 134217856 := by
  have h := roundFloat_tie 24 (-126) 134217864 27 8388616 (by norm_num [abs_of_pos])
    (by norm_num [abs_of_pos]) (by norm_num) (by norm_num) (by norm_num)
  rw [f32, h]
  norm_num

/-- C11 as stated fails: on a board of width `W = 298261920 = 20 * 14913096`
(and height 200) `CreateEnemySpawn` returns, but the point for `x = 9 W/20 =
134217864` is stored at `x = 134217856`, the nearest `float`; its neighbour
for `x = 8 W/20 = 119304768` is stored exactly, so the two are `14913088`
apart, not `W/20 = 14913096`. -/
theorem CreateEnemySpawn_perimeter_counterexample :
    ∃ pts : List Vec2,
      Engine.CreateEnemySpawn 22
          { sampleEngine with board_dimensions_ := (298261920, 200), enemy_spawns_ := [] } =
        some { sampleEngine with
          board_dimensions_ := (298261920, 200), enemy_spawns_ := [] ++ pts } ∧
      pts[16]? = some ⟨119304768, 0⟩ ∧ pts[18]? = some ⟨134217856, 0⟩ ∧
      (134217856 : ℚ) ≠ 9 * (298261920 / 20) ∧
      (134217856 : ℚ) - 119304768 ≠ 298261920 / 20 := by
  have h8 : f32 119304768 = 119304768 := by
    have := f32_exact 14913096 3 (by norm_num) (by norm_num)
    norm_num at this
    exact this
  refine ⟨spawnPointsStored 14913096 10 298261920 200,
    Engine.CreateEnemySpawn_eq _ 22 14913096 10 (by decide) (by decide) (by decide) (by decide)
      (by decide) (by decide) (by decide), ?_, ?_, by norm_num, by norm_num⟩
  · norm_num [spawnPointsStored, List.range', List.flatMap_cons, h8]
  · norm_num [spawnPointsStored, List.range', List.flatMap_cons, f32_spawn_sample]

/-! ## Spawned enemies sit on spawn points (`Engine::SpawnEnemy`) -/

/-- C19. For every non-empty spawn-point list and every result of `rand()`,
the index `rand() % enemy_spawns_.size()` is within the list; `SpawnEnemy`
returns, and every enemy it appends is placed at an element of the spawn-point
list (so it is on the board perimeter when all spawn points are), with radius
10 and contact damage 10. -/
theorem SpawnEnemy_on_spawn_points (env : Env) (s : Engine) (hs : s.enemy_spawns_ ≠ []) :
    (∀ r : Nat, r % s.enemy_spawns_.length < s.enemy_spawns_.length) ∧
    ∃ (s' : Engine) (new : List Enemy),
      s.SpawnEnemy env = some s' ∧ s'.enemies_ = s.enemies_ ++ new ∧
      s'.enemy_spawns_ = s.enemy_spawns_ ∧
      (duration_cast_ms env (env.now2 - s.last_enemy_wave_) > 5000 →
        new.length = numEnemySpawn (duration_cast_ms env (env.now1 - s.begin_time_))) ∧
      ∀ e ∈ new,
        (∃ k, s.enemy_spawns_[env.rand k % s.enemy_spawns_.length]? = some e.position_) ∧
        e.position_ ∈ s.enemy_spawns_ ∧ e.radius_ = 10 ∧ e.damage_ = 10 ∧
        ∀ W H : Int, (∀ q ∈ s.enemy_spawns_, onPerimeter W H q = true) →
          onPerimeter W H e.position_ = true := by
  have hlen : 0 < s.enemy_spawns_.length := List.length_pos.2 hs
  refine ⟨fun r => Nat.mod_lt r hlen, ?_⟩
  by_cases hw : duration_cast_ms env (env.now2 - s.last_enemy_wave_) > 5000
  · obtain ⟨new, hrun, hnum, hall⟩ := spawnLoop_spec env
      (difficultyAt (duration_cast_ms env (env.now1 - s.begin_time_)))
      (numEnemySpawn (duration_cast_ms env (env.now1 - s.begin_time_))) 0 s hs
    refine ⟨{ s with enemies_ := s.enemies_ ++ new, last_enemy_wave_ := env.now3 }, new,
      by rw [Engine.SpawnEnemy_of_wave env s hw, hrun]; rfl, rfl, rfl, fun _ => hnum, ?_⟩
    intro e he
    obtain ⟨j, hpos, -, hr, hd, -, -⟩ := hall e he
    have hmem : e.position_ ∈ s.enemy_spawns_ := List.getElem?_mem hpos
    exact ⟨⟨j, hpos⟩, hmem, hr, hd, fun W H hper => hper _ hmem⟩
  · exact ⟨s, [], Engine.SpawnEnemy_of_no_wave env s hw, by simp, rfl, fun h => absurd h hw,
      by simp⟩

/-- C19 at a concrete input: the three enemies of the sample wave sit on
sample spawn points, with radius 10 and damage 10. -/
theorem SpawnEnemy_on_spawn_points_witness :
    ∃ (s' : Engine) (new : List Enemy),
      sampleEngine.SpawnEnemy sampleEnv = some s' ∧
      s'.enemies_ = sampleEngine.enemies_ ++ new ∧ new.length = 3 ∧
      ∀ e ∈ new, e.position_ ∈ sampleEngine.enemy_spawns_ ∧ e.radius_ = 10 ∧ e.damage_ = 10 := by
  obtain ⟨s', new, hrun, henemies, -, hlen, hall⟩ :=
    (SpawnEnemy_on_spawn_points sampleEnv sampleEngine (by simp [sampleEngine])).2
  refine ⟨s', new, hrun, henemies, ?_, fun e he => ?_⟩
  · rw [hlen sample_since_wave, sample_duration]
    decide
  · obtain ⟨-, h1, h2, h3, -⟩ := hall e he
    exact ⟨h1, h2, h3⟩

/-! ## Shooting (`Engine::HandleShoot`) -/

theorem Engine.HandleShoot_of_not_beam (ops : EntityOps) (w : WeaponOps) (now : Int)
    (s : Engine) (cursor : Vec2) (L : ℚ)
    (h : (w.GetCurrentWeapon s.player_).projectile_type_ ≠ ProjectileType.beam) :
    s.HandleShoot ops w now cursor L =
      ({ s with
          player_ := w.ReloadWeapon now (w.FireBullet s.player_ cursor).1
          bullets_ := s.bullets_ ++ [(w.FireBullet s.player_ cursor).2] },
        (w.GetCurrentWeapon s.player_).projectile_type_) := by
  unfold Engine.HandleShoot
  dsimp only
  rw [if_pos h]
  rfl

theorem Engine.HandleShoot_of_beam (ops : EntityOps) (w : WeaponOps) (now : Int)
    (s : Engine) (cursor : Vec2) (L : ℚ)
    (h : (w.GetCurrentWeapon s.player_).projectile_type_ = ProjectileType.beam) :
    s.HandleShoot ops w now cursor L =
      ({ s.ShootBeam ops cursor L (w.GetCurrentWeapon s.player_).projectile_blueprint_ with
          player_ := w.ReloadWeapon now s.player_ },
        (w.GetCurrentWeapon s.player_).projectile_type_) := by
  unfold Engine.HandleShoot
  dsimp only
  rw [if_neg (by simpa using h)]
  rfl

/-- C12, amended.  `HandleShoot` is not gated: its result is the same whatever
the reload status is (the status function can be replaced by any other), and
so is that of its caller `mouseDown`, which passes the click on.  A weapon
that is not a beam appends the fired bullet, a beam applies `ShootBeam`, in
every state.  `Reloaded()` holds exactly when the status equals 1 and is only
a query. -/
theorem HandleShoot_not_gated (ops : EntityOps) (w : WeaponOps) (now : Int) (s : Engine)
    (cursor : Vec2) (L : ℚ) :
    (s.Reloaded w now = true ↔ w.GetWeaponReloadStatus now s.player_ = 1) ∧
    (∀ status : Int → Player → ℚ,
      s.HandleShoot ops { w with GetWeaponReloadStatus := status } now cursor L =
        s.HandleShoot ops w now cursor L) ∧
    (∀ (status : Int → Player → ℚ) (pos : Int × Int),
      mouseDown ops { w with GetWeaponReloadStatus := status } now s pos L =
        (s.HandleShoot ops w now ⟨(pos.1 : ℚ), (pos.2 : ℚ)⟩ L).1) ∧
    ((w.GetCurrentWeapon s.player_).projectile_type_ ≠ ProjectileType.beam →
      (s.HandleShoot ops w now cursor L).1.bullets_ =
        s.bullets_ ++ [(w.FireBullet s.player_ cursor).2]) ∧
    ((w.GetCurrentWeapon s.player_).projectile_type_ = ProjectileType.beam →
      (s.HandleShoot ops w now cursor L).1.enemies_ =
        (s.ShootBeam ops cursor L (w.GetCurrentWeapon s.player_).projectile_blueprint_).enemies_) := by
  refine ⟨by simp [Engine.Reloaded], fun _ => rfl, fun _ _ => rfl, fun h => ?_, fun h => ?_⟩
  · rw [Engine.HandleShoot_of_not_beam ops w now s cursor L h]
  · rw [Engine.HandleShoot_of_beam ops w now s cursor L h]

/-- C12 as stated fails: 100 ms after the last shot the sample weapon is not
reloaded, and `HandleShoot` still appends a bullet. -/
theorem HandleShoot_not_gated_counterexample :
    sampleEngine.Reloaded sampleWeapons 100 = false ∧
    sampleEngine.bullets_ = [] ∧
    (sampleEngine.HandleShoot sampleOps sampleWeapons 100 ⟨130, 140⟩ 50).1.bullets_ =
      [⟨⟨⟨100, 100⟩, ⟨30, 40⟩, 10, 1⟩, 1, false⟩] := by
  refine ⟨?_, rfl, ?_⟩
  · norm_num [Engine.Reloaded, sampleWeapons, sampleEngine]
  · rw [Engine.HandleShoot_of_not_beam sampleOps sampleWeapons 100 sampleEngine ⟨130, 140⟩ 50
      (by decide)]
    norm_num [sampleWeapons, sampleEngine, Vec2.sub]

/-- C13. `HandleShoot` returns the projectile type of the current weapon.  When
the type is not beam the bullets are the old ones followed by the fired bullet
and the enemies are unchanged; when it is beam the bullets are unchanged.  In
both cases the score and the number of enemies are unchanged, and the player's
last-fire time is the clock reading of `ReloadWeapon`, for a `ReloadWeapon`
that stores the reading it takes. -/
theorem HandleShoot_effect (ops : EntityOps) (w : WeaponOps) (now : Int) (s : Engine)
    (cursor : Vec2) (L : ℚ) (hreload : ∀ t p, (w.ReloadWeapon t p).last_fire_ = t) :
    (s.HandleShoot ops w now cursor L).2 = (w.GetCurrentWeapon s.player_).projectile_type_ ∧
    ((w.GetCurrentWeapon s.player_).projectile_type_ ≠ ProjectileType.beam →
      (s.HandleShoot ops w now cursor L).1.bullets_ =
        s.bullets_ ++ [(w.FireBullet s.player_ cursor).2] ∧
      (s.HandleShoot ops w now cursor L).1.enemies_ = s.enemies_) ∧
    ((w.GetCurrentWeapon s.player_).projectile_type_ = ProjectileType.beam →
      (s.HandleShoot ops w now cursor L).1.bullets_ = s.bullets_) ∧
    (s.HandleShoot ops w now cursor L).1.score_ = s.score_ ∧
    (s.HandleShoot ops w now cursor L).1.enemies_.length = s.enemies_.length ∧
    (s.HandleShoot ops w now cursor L).1.player_.last_fire_ = now := by
  by_cases h : (w.GetCurrentWeapon s.player_).projectile_type_ = ProjectileType.beam
  · rw [Engine.HandleShoot_of_beam ops w now s cursor L h]
    refine ⟨rfl, fun h' => absurd h h', fun _ => rfl, rfl, ?_, hreload _ _⟩
    simp [Engine.ShootBeam]
  · rw [Engine.HandleShoot_of_not_beam ops w now s cursor L h]
    exact ⟨rfl, fun _ => ⟨rfl, rfl⟩, fun h' => absurd h' h, rfl, rfl, hreload _ _⟩

/-- C13 at a concrete input: a shot of the sample Pistol at clock reading 100
returns `bullet`, appends one bullet and sets the last-fire time to 100. -/
theorem HandleShoot_effect_witness :
    (sampleEngine.HandleShoot sampleOps sampleWeapons 100 ⟨130, 140⟩ 50).2 =
      ProjectileType.bullet ∧
    (sampleEngine.HandleShoot sampleOps sampleWeapons 100 ⟨130, 140⟩ 50).1.bullets_.length =
      sampleEngine.bullets_.length + 1 ∧
    (sampleEngine.HandleShoot sampleOps sampleWeapons 100 ⟨130, 140⟩ 50).1.player_.last_fire_ =
      100 := by
  obtain ⟨h1, h2, -, -, -, h6⟩ :=
    HandleShoot_effect sampleOps sampleWeapons 100 sampleEngine ⟨130, 140⟩ 50 (fun _ _ => rfl)
  refine ⟨h1, ?_, h6⟩
  rw [(h2 (by decide)).1]
  simp

/-! ## Boundary check (`Engine::HandlePlayerAtBoundary`) -/

theorem Player.Accelerate_frame (p : Player) (d : Direction) :
    (p.Accelerate d).position_ = p.position_ ∧ (p.Accelerate d).radius_ = p.radius_ := by
  cases d <;> exact ⟨rfl, rfl⟩

theorem foldl_Accelerate_frame (l : List Direction) (p : Player) :
    (l.foldl Player.Accelerate p).position_ = p.position_ ∧
    (l.foldl Player.Accelerate p).radius_ = p.radius_ := by
  induction l generalizing p with
  | nil => exact ⟨rfl, rfl⟩
  | cons d r ih =>
    simp only [List.foldl]
    obtain ⟨h1, h2⟩ := ih (p.Accelerate d)
    obtain ⟨g1, g2⟩ := Player.Accelerate_frame p d
    exact ⟨h1.trans g1, h2.trans g2⟩

theorem Engine.accelerate_frame (moves : Finset Direction) (s : Engine) :
    (s.accelerate moves).player_.position_ = s.player_.position_ ∧
    (s.accelerate moves).player_.radius_ = s.player_.radius_ ∧
    (s.accelerate moves).board_dimensions_ = s.board_dimensions_ :=
  ⟨(foldl_Accelerate_frame _ _).1, (foldl_Accelerate_frame _ _).2, rfl⟩

/-- The boundary check in one formula: each velocity component is zeroed when
its test holds and kept otherwise; nothing else changes. -/
theorem Engine.HandlePlayerAtBoundary_eq (s : Engine) :
    s.HandlePlayerAtBoundary =
      { s with
        player_ :=
          { s.player_ with
            velocity_ :=
              ⟨if pastEdgeX s = true then 0 else s.player_.velocity_.x,
                if pastEdgeY s = true then 0 else s.player_.velocity_.y⟩ } } := by
  unfold Engine.HandlePlayerAtBoundary pastEdgeX pastEdgeY
  dsimp only
  by_cases hy : (s.player_.position_.y - s.player_.radius_ < 0 ∧ s.player_.velocity_.y < 0) ∨
      (s.player_.position_.y + s.player_.radius_ > (s.board_dimensions_.2 : ℚ) ∧
        s.player_.velocity_.y > 0)
  · rw [if_pos hy]
    dsimp only [Player.ZeroYVelocity]
    by_cases hx : (s.player_.position_.x - s.player_.radius_ < 0 ∧ s.player_.velocity_.x < 0) ∨
        (s.player_.position_.x + s.player_.radius_ > (s.board_dimensions_.1 : ℚ) ∧
          s.player_.velocity_.x > 0)
    · rw [if_pos hx, if_pos (decide_eq_true hx), if_pos (decide_eq_true hy)]
      rfl
    · rw [if_neg hx, if_neg (by simpa using hx), if_pos (decide_eq_true hy)]
  · rw [if_neg hy]
    by_cases hx : (s.player_.position_.x - s.player_.radius_ < 0 ∧ s.player_.velocity_.x < 0) ∨
        (s.player_.position_.x + s.player_.radius_ > (s.board_dimensions_.1 : ℚ) ∧
          s.player_.velocity_.x > 0)
    · rw [if_pos hx, if_pos (decide_eq_true hx), if_neg (by simpa using hy)]
      rfl
    · rw [if_neg hx, if_neg (by simpa using hx), if_neg (by simpa using hy)]

theorem Engine.afterMove_eq (ops : EntityOps) (moves : Finset Direction) (s : Engine) :
    (s.afterMove ops moves).bullets_ = s.bullets_.map ops.BulletMove ∧
    (s.afterMove ops moves).enemies_ =
      s.enemies_.map (fun e => ops.EnemyMove (ops.EnemyAccelerate e s.player_.position_)) := by
  unfold Engine.afterMove
  rw [Engine.HandlePlayerAtBoundary_eq]
  exact ⟨rfl, rfl⟩

/-- C18, amended.  After the movement step of `update` the player is the
player after acceleration, boundary check and `Move`, every bullet has moved,
and every enemy has been accelerated and moved; the target handed to each
enemy's `Accelerate` is `player_pos`, the position the player had when
`update` was entered, which differs from the position after `Move` by the
velocity integrated in this frame. -/
theorem update_enemy_target (ops : EntityOps) (env : Env) (moves : Finset Direction)
    (s : Engine) :
    (s.afterMove ops moves).player_ = s.playerStep moves ∧
    (s.afterMove ops moves).bullets_ = s.bullets_.map ops.BulletMove ∧
    (s.afterMove ops moves).enemies_ =
      s.enemies_.map (fun e => ops.EnemyMove (ops.EnemyAccelerate e s.player_.position_)) ∧
    (s.playerStep moves).position_ =
      s.player_.position_.add (s.accelerate moves).HandlePlayerAtBoundary.player_.velocity_ ∧
    s.update ops env moves =
      (((s.afterMove ops moves).HandleCollisions ops).SpawnEnemy env).bind
        (Engine.HandleDeaths ops) := by
  refine ⟨rfl, (Engine.afterMove_eq ops moves s).1, (Engine.afterMove_eq ops moves s).2, ?_, rfl⟩
  · unfold Engine.playerStep
    rw [Player.Move_position, Engine.HandlePlayerAtBoundary_eq]
    simp only [(Engine.accelerate_frame moves s).1]

/-- C18 as stated fails: the sample player moves from `(100, 100)` to
`(110, 100)`, and the enemy at `(100, 50)`, whose `Accelerate` stores
`target - position`, gets `(0, 50)`: its target was `(100, 100)`, not the
position after `Move`. -/
theorem update_enemy_target_counterexample :
    (chaseEngine.afterMove homingOps ∅).player_.position_ = ⟨110, 100⟩ ∧
    (chaseEngine.afterMove homingOps ∅).enemies_.map (fun e => e.velocity_) = [⟨0, 50⟩] ∧
    (chaseEngine.afterMove homingOps ∅).enemies_.map (fun e => e.velocity_) ≠
      [((chaseEngine.afterMove homingOps ∅).player_.position_).sub ⟨100, 50⟩] := by
  have hheld : heldDirections ∅ = [] := by decide
  have hpos : (chaseEngine.afterMove homingOps ∅).player_.position_ = ⟨110, 100⟩ := by
    norm_num [Engine.afterMove, Engine.moveAll, Engine.accelerate, hheld,
      Engine.HandlePlayerAtBoundary, Player.Move, Player.ZeroXVelocity, Player.ZeroYVelocity,
      chaseEngine, sampleEngine, Vec2.add, Vec2.scale, Vec2.lengthLt, Vec2.normSq]
  have hvel : (chaseEngine.afterMove homingOps ∅).enemies_.map (fun e => e.velocity_) =
      [⟨0, 50⟩] := by
    rw [(Engine.afterMove_eq homingOps ∅ chaseEngine).2]
    norm_num [chaseEngine, sampleEngine, homingOps, Vec2.sub]
  refine ⟨hpos, hvel, ?_⟩
  rw [hvel, hpos]
  norm_num [Vec2.sub]

/-! ## The beam (`Engine::ShootBeam`) -/

/-- What `ShootBeam` does to the enemy at index `j`. -/
theorem Engine.ShootBeam32_getElem? (ops : EntityOps) (s : Engine) (cursor : Vec2)
    (bp : ProjectileBlueprint) (j : Nat) (e : Enemy) (h : s.enemies_[j]? = some e) :
    (s.ShootBeam32 ops cursor bp).enemies_[j]? =
      some (if beamHits32 s.player_.position_ cursor bp.radius_ e = true then
          e.Hit ops bp.damage_ (e.position_.sub32 (laserUnitVector32 cursor))
        else e) := by
  simp only [Engine.ShootBeam32, List.getElem?_map, h, Option.map_some', beamHits32,
    beamRadicand, beamProjection32, decide_eq_true_eq]
  congr 1
  by_cases h1 : cursor.length32 = 0
  · rw [if_pos h1, if_neg (fun hc => hc.1 h1)]
  rw [if_neg h1]
  by_cases h2 : (e.position_.sub32 s.player_.position_).dot32 (laserUnitVector32 cursor) ≤ 0
  · rw [if_pos h2, if_neg (fun hc => absurd hc.2.1 (not_lt.2 h2))]
  rw [if_neg h2]
  by_cases h3 : f64 (f64 ((e.position_.sub32 s.player_.position_).length32 *
      (e.position_.sub32 s.player_.position_).length32) -
      f64 ((e.position_.sub32 s.player_.position_).dot32 (laserUnitVector32 cursor) *
        (e.position_.sub32 s.player_.position_).dot32 (laserUnitVector32 cursor))) < 0
  · rw [if_pos h3, if_neg (fun hc => absurd hc.2.2.1 (not_le.2 h3))]
  rw [if_neg h3]
  by_cases h4 : f32 (sqrt64 (f64 (f64 ((e.position_.sub32 s.player_.position_).length32 *
      (e.position_.sub32 s.player_.position_).length32) -
      f64 ((e.position_.sub32 s.player_.position_).dot32 (laserUnitVector32 cursor) *
        (e.position_.sub32 s.player_.position_).dot32 (laserUnitVector32 cursor))))) ≤
      f32 (e.radius_ + bp.radius_)
  · rw [if_pos h4, if_pos ⟨h1, not_le.1 h2, not_lt.1 h3, h4⟩]
  · rw [if_neg h4, if_neg (fun hc => h4 hc.2.2.2)]

/-- The components of the beam direction have the signs of the components of
the cursor. -/
theorem laserUnitVector32_sign (cursor : Vec2) :
    (0 ≤ cursor.x → 0 ≤ (laserUnitVector32 cursor).x) ∧
    (cursor.x ≤ 0 → (laserUnitVector32 cursor).x ≤ 0) ∧
    (0 ≤ cursor.y → 0 ≤ (laserUnitVector32 cursor).y) ∧
    (cursor.y ≤ 0 → (laserUnitVector32 cursor).y ≤ 0) := by
  have hL := Vec2.length32_nonneg cursor
  simp only [laserUnitVector32, Vec2.div32]
  exact ⟨fun h => f32_nonneg (div_nonneg h hL),
    fun h => f32_nonpos (div_nonpos_of_nonpos_of_nonneg h hL),
    fun h => f32_nonneg (div_nonneg h hL),
    fun h => f32_nonpos (div_nonpos_of_nonpos_of_nonneg h hL)⟩

theorem mul_nonpos_of_opposite {a b c d : ℚ} (h : a * b ≤ 0) (ha : 0 ≤ a → 0 ≤ c)
    (ha' : a ≤ 0 → c ≤ 0) (hb : 0 ≤ b → 0 ≤ d) (hb' : b ≤ 0 → d ≤ 0) : c * d ≤ 0 := by
  rcases le_total 0 a with h0 | h0
  · rcases le_total 0 b with h1 | h1
    · rcases eq_or_lt_of_le h0 with h2 | h2
      · exact mul_nonpos_of_nonpos_of_nonneg (ha' (le_of_eq h2.symm)) (hb h1)
      · rcases eq_or_lt_of_le h1 with h3 | h3
        · exact mul_nonpos_of_nonneg_of_nonpos (ha h0) (hb' (le_of_eq h3.symm))
        · exact absurd h (not_le.2 (mul_pos h2 h3))
    · exact mul_nonpos_of_nonneg_of_nonpos (ha h0) (hb' h1)
  · rcases le_total 0 b with h1 | h1
    · exact mul_nonpos_of_nonpos_of_nonneg (ha' h0) (hb h1)
    · rcases eq_or_lt_of_le h0 with h2 | h2
      · exact mul_nonpos_of_nonneg_of_nonpos (ha (le_of_eq h2.symm)) (hb' h1)
      · rcases eq_or_lt_of_le h1 with h3 | h3
        · exact mul_nonpos_of_nonpos_of_nonneg (ha' h0) (hb (le_of_eq h3.symm))
        · exact absurd h (not_le.2 (mul_pos_of_neg_of_neg h2 h3))

/-- An enemy that lies, in each coordinate, on the side of the player opposite
to the cursor's has a computed projection `≤ 0`. -/
theorem beamProjection32_nonpos (p cursor : Vec2) (e : Enemy)
    (hx : (e.position_.x - p.x) * cursor.x ≤ 0) (hy : (e.position_.y - p.y) * cursor.y ≤ 0) :
    beamProjection32 p cursor e ≤ 0 := by
  obtain ⟨ux0, ux1, uy0, uy1⟩ := laserUnitVector32_sign cursor
  simp only [beamProjection32, Vec2.dot32, Vec2.sub32]
  have h1 : f32 (e.position_.x - p.x) * (laserUnitVector32 cursor).x ≤ 0 :=
    mul_nonpos_of_opposite hx (fun h => f32_nonneg h) (fun h => f32_nonpos h) ux0 ux1
  have h2 : f32 (e.position_.y - p.y) * (laserUnitVector32 cursor).y ≤ 0 :=
    mul_nonpos_of_opposite hy (fun h => f32_nonneg h) (fun h => f32_nonpos h) uy0 uy1
  exact f32_nonpos (add_nonpos (f32_nonpos h1) (f32_nonpos h2))

theorem beamHits32_of_nonpos (p cursor : Vec2) (r : ℚ) (e : Enemy)
    (h : beamProjection32 p cursor e ≤ 0) : beamHits32 p cursor r e = false := by
  simp only [beamHits32, decide_eq_false_iff_not]
  exact fun hc => absurd hc.2.1 (not_lt.2 h)

/-- C15, amended.  The beam direction of `ShootBeam` is computed from the
cursor alone, as `cursor / |cursor|` in `float`; the player's position does
not enter it, and its components have the signs of the cursor's components.
An enemy is either left unchanged or hit with `Hit(damage, e - u)` for that
direction `u`, and it is hit only when its computed projection on `u` is
strictly positive.  The result depends on the cursor only through the
computed direction: two cursors of non-zero computed length with the same
computed direction give the same result. -/
theorem ShootBeam_direction (ops : EntityOps) (s : Engine) (cursor : Vec2)
    (bp : ProjectileBlueprint) :
    laserUnitVector32 cursor =
      ⟨f32 (cursor.x / cursor.length32), f32 (cursor.y / cursor.length32)⟩ ∧
    ((0 ≤ cursor.x → 0 ≤ (laserUnitVector32 cursor).x) ∧
      (cursor.x ≤ 0 → (laserUnitVector32 cursor).x ≤ 0) ∧
      (0 ≤ cursor.y → 0 ≤ (laserUnitVector32 cursor).y) ∧
      (cursor.y ≤ 0 → (laserUnitVector32 cursor).y ≤ 0)) ∧
    (∀ (j : Nat) (e : Enemy), s.enemies_[j]? = some e →
      ((s.ShootBeam32 ops cursor bp).enemies_[j]? = some e ∨
        ((s.ShootBeam32 ops cursor bp).enemies_[j]? =
            some (e.Hit ops bp.damage_ (e.position_.sub32 (laserUnitVector32 cursor))) ∧
          0 < (e.position_.sub32 s.player_.position_).dot32 (laserUnitVector32 cursor)))) ∧
    (∀ cursor' : Vec2, cursor.length32 ≠ 0 → cursor'.length32 ≠ 0 →
      laserUnitVector32 cursor' = laserUnitVector32 cursor →
      s.ShootBeam32 ops cursor' bp = s.ShootBeam32 ops cursor bp) := by
  refine ⟨rfl, laserUnitVector32_sign cursor, ?_, ?_⟩
  · intro j e he
    rw [Engine.ShootBeam32_getElem? ops s cursor bp j e he]
    by_cases h : beamHits32 s.player_.position_ cursor bp.radius_ e = true
    · right
      rw [if_pos h]
      refine ⟨rfl, ?_⟩
      simp only [beamHits32, decide_eq_true_eq] at h
      exact h.2.1
    · left
      rw [if_neg h]
  · intro cursor' h0 h0' hu
    simp only [Engine.ShootBeam32, hu, if_neg h0, if_neg h0']

/-- The cursors `(30, 40)` and `(60, 80)` have the computed lengths 50 and 100
and the same computed direction. -/
theorem laserUnitVector32_sample_scaled :
    Vec2.length32 ⟨30, 40⟩ = 50 ∧ Vec2.length32 ⟨60, 80⟩ = 100 ∧
    laserUnitVector32 ⟨60, 80⟩ = laserUnitVector32 ⟨30, 40⟩ := by
  have h1 : f32 900 = 900 := by simpa using f32_natCast 900 (by norm_num)
  have h2 : f32 1600 = 1600 := by simpa using f32_natCast 1600 (by norm_num)
  have h3 : f32 2500 = 2500 := by simpa using f32_natCast 2500 (by norm_num)
  have h4 : sqrt32 2500 = 50 :=
    sqrt32_eq _ _ 5 13107200 (by norm_num) (by norm_num) (by norm_num) (by norm_num)
      (by norm_num) (by norm_num) (by norm_num)
  have h5 : f32 3600 = 3600 := by simpa using f32_natCast 3600 (by norm_num)
  have h6 : f32 6400 = 6400 := by simpa using f32_natCast 6400 (by norm_num)
  have h7 : f32 10000 = 10000 := by simpa using f32_natCast 10000 (by norm_num)
  have h8 : sqrt32 10000 = 100 :=
    sqrt32_eq _ _ 6 13107200 (by norm_num) (by norm_num) (by norm_num) (by norm_num)
      (by norm_num) (by norm_num) (by norm_num)
  have hL : Vec2.length32 ⟨30, 40⟩ = 50 := by
    norm_num [Vec2.length32, Vec2.dot32, h1, h2, h3, h4]
  have hL' : Vec2.length32 ⟨60, 80⟩ = 100 := by
    norm_num [Vec2.length32, Vec2.dot32, h5, h6, h7, h8]
  refine ⟨hL, hL', ?_⟩
  simp only [laserUnitVector32, Vec2.div32, hL, hL']
  norm_num

/-- C15 at a concrete input: the cursors `(30, 40)` and `(60, 80)`, on the same
ray from the origin, give the same result on the sample engine, whose player
is at `(100, 100)`. -/
theorem ShootBeam_direction_witness :
    beamEngine.ShootBeam32 sampleOps ⟨60, 80⟩ ⟨5, 10, 0, false⟩ =
      beamEngine.ShootBeam32 sampleOps ⟨30, 40⟩ ⟨5, 10, 0, false⟩ :=
  (ShootBeam_direction sampleOps beamEngine ⟨30, 40⟩ ⟨5, 10, 0, false⟩).2.2.2 ⟨60, 80⟩
    (by rw [laserUnitVector32_sample_scaled.1]; norm_num)
    (by rw [laserUnitVector32_sample_scaled.2.1]; norm_num)
    laserUnitVector32_sample_scaled.2.2

/-- C15 as stated fails: the player is at `(100, 100)`, the cursor at
`(30, 40)`; the sample enemy at `(65, 70)` lies half way on the segment from
the player to the cursor, yet the beam, whose direction has the signs of the
cursor's components, points away from it: `ShootBeam` leaves the enemy
unchanged, whatever `Hit` does. -/
theorem ShootBeam_direction_counterexample :
    beamEngine.player_.position_ = ⟨100, 100⟩ ∧
    (⟨65, 70⟩ : Vec2) =
      Vec2.add ⟨100, 100⟩ (Vec2.scale (1 / 2) (Vec2.sub ⟨30, 40⟩ ⟨100, 100⟩)) ∧
    ∀ ops : EntityOps,
      (beamEngine.ShootBeam32 ops ⟨30, 40⟩ ⟨5, 10, 0, false⟩).enemies_[1]? =
        some ⟨⟨⟨65, 70⟩, ⟨0, 0⟩, 10, 30⟩, 10, 1 / 2⟩ := by
  refine ⟨rfl, by norm_num [Vec2.add, Vec2.scale, Vec2.sub], fun ops => ?_⟩
  rw [Engine.ShootBeam32_getElem? ops beamEngine ⟨30, 40⟩ ⟨5, 10, 0, false⟩ 1
    ⟨⟨⟨65, 70⟩, ⟨0, 0⟩, 10, 30⟩, 10, 1 / 2⟩ (by simp [beamEngine])]
  have h : beamHits32 beamEngine.player_.position_ ⟨30, 40⟩ 5
      ⟨⟨⟨65, 70⟩, ⟨0, 0⟩, 10, 30⟩, 10, 1 / 2⟩ = false :=
    beamHits32_of_nonpos _ _ _ _ (beamProjection32_nonpos _ _ _
      (by norm_num [beamEngine, sampleEngine]) (by norm_num [beamEngine, sampleEngine]))
  rw [if_neg (by rw [h]; simp)]

/-- An enemy exactly on the ray can be missed: with the cursor `(1, 4)` the
enemy at `(101, 104) = (100, 100) + (1, 4)` has the computed distance
`8646779 / 2^21` and the computed projection `8646780 / 2^21`, one unit in the
last place more; the difference of their squares is negative, its square root
a NaN, and `ShootBeam` leaves the enemy unchanged. -/
theorem ShootBeam32_on_ray_missed (ops : EntityOps) :
    (rayEngine.ShootBeam32 ops ⟨1, 4⟩ ⟨5, 10, 0, false⟩).enemies_ = rayEngine.enemies_ := by
  have h1 : f32 1 = 1 := by simpa using f32_natCast 1 (by norm_num)
  have h2 : f32 16 = 16 := by simpa using f32_natCast 16 (by norm_num)
  have h3 : f32 17 = 17 := by simpa using f32_natCast 17 (by norm_num)
  have h4 : sqrt32 17 = 8646779 / 2097152 :=
    sqrt32_eq _ _ 2 8646779 (by norm_num) (by norm_num) (by norm_num) (by norm_num)
      (by norm_num) (by norm_num) (by norm_num)
  have h5 : f32 (2097152 / 8646779) = 16276291 / 67108864 :=
    f32_eq _ _ (-3) 16276291 (by norm_num [abs_of_pos]) (by norm_num [abs_of_pos]) (by norm_num)
      (by norm_num) (by norm_num) (by norm_num)
  have h6 : f32 (8388608 / 8646779) = 16276291 / 16777216 :=
    f32_eq _ _ (-1) 16276291 (by norm_num [abs_of_pos]) (by norm_num [abs_of_pos]) (by norm_num)
      (by norm_num) (by norm_num) (by norm_num)
  have h7 : f32 4 = 4 := by simpa using f32_natCast 4 (by norm_num)
  have h8 : f32 (16276291 / 67108864) = 16276291 / 67108864 :=
    f32_eq _ _ (-3) 16276291 (by norm_num [abs_of_pos]) (by norm_num [abs_of_pos]) (by norm_num)
      (by norm_num) (by norm_num) (by norm_num)
  have h9 : f32 (16276291 / 4194304) = 16276291 / 4194304 :=
    f32_eq _ _ 1 16276291 (by norm_num [abs_of_pos]) (by norm_num [abs_of_pos]) (by norm_num)
      (by norm_num) (by norm_num) (by norm_num)
  have h10 : f32 (276696947 / 67108864) = 2161695 / 524288 :=
    f32_eq _ _ 2 8646780 (by norm_num [abs_of_pos]) (by norm_num [abs_of_pos]) (by norm_num)
      (by norm_num) (by norm_num) (by norm_num)
  have h11 : f64 (74766787074841 / 4398046511104) = 74766787074841 / 4398046511104 :=
    f64_eq _ _ 4 4785074372789824 (by norm_num [abs_of_pos]) (by norm_num [abs_of_pos])
      (by norm_num) (by norm_num) (by norm_num) (by norm_num)
  have h12 : f64 (4672925273025 / 274877906944) = 4672925273025 / 274877906944 :=
    f64_eq _ _ 4 4785075479577600 (by norm_num [abs_of_pos]) (by norm_num [abs_of_pos])
      (by norm_num) (by norm_num) (by norm_num) (by norm_num)
  have h13 : f64 (-(17293559 / 4398046511104)) = -(17293559 / 4398046511104) :=
    f64_eq _ _ (-18) (-4642204396027904) (by norm_num [abs_of_neg]) (by norm_num [abs_of_neg])
      (by norm_num) (by norm_num) (by norm_num) (by norm_num)
  have hL : Vec2.length32 ⟨1, 4⟩ = 8646779 / 2097152 := by
    norm_num [Vec2.length32, Vec2.dot32, h1, h2, h3, h4]
  have hu : laserUnitVector32 ⟨1, 4⟩ = ⟨16276291 / 67108864, 16276291 / 16777216⟩ := by
    simp only [laserUnitVector32, Vec2.div32, hL]
    norm_num [h5, h6]
  have hpe : Vec2.sub32 ⟨101, 104⟩ ⟨100, 100⟩ = ⟨1, 4⟩ := by
    norm_num [Vec2.sub32, h1, h7]
  have hdot : Vec2.dot32 ⟨1, 4⟩ ⟨16276291 / 67108864, 16276291 / 16777216⟩ =
      2161695 / 524288 := by
    norm_num [Vec2.dot32, h8, h9, h10]
  have hmiss : beamHits32 ⟨100, 100⟩ ⟨1, 4⟩ 5 ⟨⟨⟨101, 104⟩, ⟨0, 0⟩, 10, 30⟩, 10, 1 / 2⟩ =
      false := by
    simp only [beamHits32, beamRadicand, beamProjection32, hu, hpe, hL, hdot,
      decide_eq_false_iff_not]
    norm_num [h11, h12, h13]
  apply List.ext_getElem?
  intro j
  cases j with
  | zero =>
    rw [Engine.ShootBeam32_getElem? ops rayEngine ⟨1, 4⟩ ⟨5, 10, 0, false⟩ 0
      ⟨⟨⟨101, 104⟩, ⟨0, 0⟩, 10, 30⟩, 10, 1 / 2⟩ (by simp [rayEngine])]
    have h : beamHits32 rayEngine.player_.position_ ⟨1, 4⟩ 5
        ⟨⟨⟨101, 104⟩, ⟨0, 0⟩, 10, 30⟩, 10, 1 / 2⟩ = false := hmiss
    rw [if_neg (by rw [h]; simp)]
    simp [rayEngine]
  | succ k => simp [Engine.ShootBeam32, rayEngine]

end Shooter
